import Mathlib

/-!
# FDTD electromagnetic-leakage simulation: shallow embedding

Embedding of
`cybersecurity_Maxwell_equation/FDTD-Based_Electromagnetic_Leakage_Detection_for_Secure_Hardware_Design.cxx`.

Conventions of the embedding.

* `double` values are exact rationals (`ℚ`): every statement below is about exact
  arithmetic, with `1e-9`, `1.2566370614e-6` and `0.1` read as the decimal fractions
  they denote.
* A `std::vector<std::vector<std::vector<double>>>` is a list of lists of lists; the
  three process-wide vectors and the text written to `std::cout` form the `State`.
* An element access outside a vector and an integer remainder by zero are undefined
  behaviour in C++.  The embedding stops there with `Except.error (fault, s)`, where `s`
  is the memory state at the moment of the faulting operation.
* `std::mutex mtx` is only ever taken by the single thread of `main`; the
  `lock_guard` lines have no effect on the values computed and are left out.
* `int` loop counters and the `int` parameters of `apply_shielding` are unbounded
  integers: an `N × N × N` grid of doubles whose extent reaches `2 ^ 31` cannot be
  allocated, and `int` overflow is left out of the embedding.  A region inside the
  volume cannot overflow; for regions that leave the volume the statements assume
  `region_fits_int`, which rules out an overflow of `x_start + thickness`.
* `main` takes no argument; it is embedded as a function of the state of the three
  global vectors at the moment it is entered (`start_state` when nothing else has
  touched them), and returns the state at its `return 0`.
* Loop bounds such as `electric_field[0].size() - 1` are read once on entry to their
  loop; no operation of the program changes the size of a vector, so re-reading them
  before every iteration, as the C++ loop does, gives the same value.
-/

namespace Fdtd

/-! ## Data model -/

/-- A `std::vector<std::vector<std::vector<double>>>`. -/
abbrev Grid := List (List (List ℚ))

/-- One line written to `std::cout`. -/
inductive Line where
  | progress (pct : Int)
  | completed
  | leakage (v : ℚ)
  | applying
  deriving DecidableEq

/-- The three global field vectors and the console output so far. -/
structure State where
  electric_field : Grid
  magnetic_field : Grid
  current_density : Grid
  cout : List Line
  deriving DecidableEq

/-- The two kinds of undefined behaviour the program can run into. -/
inductive Fault where
  | out_of_range
  | zero_divisor
  deriving DecidableEq

deriving instance DecidableEq for Except

/-- Permeability of free space, `1.2566370614e-6`. -/
def mu_0 : ℚ := 12566370614 / 10 ^ 16

/-- Permittivity of free space, `8.854187817e-12`. -/
def epsilon_0 : ℚ := 8854187817 / 10 ^ 21

/-- Time step in seconds, `1e-9`. -/
def delta_time : ℚ := 1 / 10 ^ 9

/-- Checked read of `g[i][j][k]`: `none` when an index is outside its vector. -/
def Grid.get? (g : Grid) (i j k : Nat) : Option ℚ :=
  match g[i]? with
  | none => none
  | some p =>
    match p[j]? with
    | none => none
    | some r => r[k]?

/-- Checked write `g[i][j][k] = v`: `none` when an index is outside its vector. -/
def Grid.set? (g : Grid) (i j k : Nat) (v : ℚ) : Option Grid :=
  match g[i]? with
  | none => none
  | some p =>
    match p[j]? with
    | none => none
    | some r => if k < r.length then some (g.set i (p.set j (r.set k v))) else none

/-- Value of cell `(i, j, k)`, `0` outside the grid (used in statements only). -/
def Grid.val (g : Grid) (i j k : Nat) : ℚ := (g.get? i j k).getD 0

/-- The grid is a cube of extent `N`: `N` planes of `N` rows of `N` cells. -/
def Grid.Shape (N : Nat) (g : Grid) : Prop :=
  g.length = N ∧ ∀ p ∈ g, p.length = N ∧ ∀ r ∈ p, r.length = N

instance (N : Nat) (g : Grid) : Decidable (g.Shape N) := by
  unfold Grid.Shape
  infer_instance

/-- All three grids are cubes of the same extent `N`. -/
def State.WellShaped (N : Nat) (s : State) : Prop :=
  s.electric_field.Shape N ∧ s.magnetic_field.Shape N ∧ s.current_density.Shape N

instance (N : Nat) (s : State) : Decidable (s.WellShaped N) := by
  unfold State.WellShaped
  infer_instance

/-- A `for` loop whose counter runs through `is`, threading the loop state and
stopping at the first fault. -/
def for_each {ε σ ι : Type} (body : ι → σ → Except ε σ) : List ι → σ → Except ε σ
  | [], s => .ok s
  | i :: is, s =>
    match body i s with
    | .ok s' => for_each body is s'
    | .error e => .error e

/-- The `size_t` expression `v.size() - 1`, which wraps around for an empty vector. -/
def size_minus_one (n : Nat) : Nat := if n = 0 then 2 ^ 64 - 1 else n - 1

/-- The values `lo, lo + 1, …, hi - 1` of an `int` counter
(`for (int i = lo; i < hi; ++i)`). -/
def int_range (lo hi : Int) : List Int :=
  (List.range (hi - lo).toNat).map (fun (d : Nat) => lo + (d : Int))

/-! ## FieldUpdater -/

/-- Loop body of `update_electric_field`:
`electric_field[i][j][k] -= delta_time * ((B[i][j+1][k] - B[i][j-1][k]) / 2.0
  - (B[i+1][j][k] - B[i-1][j][k]) / 2.0)`. -/
def update_electric_cell (i j k : Nat) (s : State) : Except (Fault × State) State :=
  match s.electric_field.get? i j k,
        s.magnetic_field.get? i (j + 1) k, s.magnetic_field.get? i (j - 1) k,
        s.magnetic_field.get? (i + 1) j k, s.magnetic_field.get? (i - 1) j k with
  | some e, some bjp, some bjm, some bip, some bim =>
    match s.electric_field.set? i j k
        (e - delta_time * ((bjp - bjm) / 2 - (bip - bim) / 2)) with
    | some g => .ok { s with electric_field := g }
    | none => .error (.out_of_range, s)
  | _, _, _, _, _ => .error (.out_of_range, s)

/-- The innermost loop of `update_electric_field` for fixed `i` and `j`:
`for (int k = 1; k < electric_field[0][0].size() - 1; ++k)`. -/
def update_electric_row (i j : Nat) (s : State) : Except (Fault × State) State :=
  match s.electric_field[0]? with
  | none => .error (.out_of_range, s)
  | some p0 =>
    match p0[0]? with
    | none => .error (.out_of_range, s)
    | some r0 =>
      for_each (update_electric_cell i j) (List.range' 1 (size_minus_one r0.length - 1)) s

/-- The middle loop of `update_electric_field` for fixed `i`:
`for (int j = 1; j < electric_field[0].size() - 1; ++j)`. -/
def update_electric_plane (i : Nat) (s : State) : Except (Fault × State) State :=
  match s.electric_field[0]? with
  | none => .error (.out_of_range, s)
  | some p0 =>
    for_each (update_electric_row i) (List.range' 1 (size_minus_one p0.length - 1)) s

/-- The function `update_electric_field`: three nested loops from `1` to `size() - 1`
(exclusive), the bounds taken from `electric_field`, `electric_field[0]` and
`electric_field[0][0]`. -/
def update_electric_field (s : State) : Except (Fault × State) State :=
  for_each update_electric_plane
    (List.range' 1 (size_minus_one s.electric_field.length - 1)) s

/-- Loop body of `update_magnetic_field`:
`magnetic_field[i][j][k] += delta_time * ((E[i][j+1][k] - E[i][j-1][k]) / 2.0
  - (E[i+1][j][k] - E[i-1][j][k]) / 2.0 + mu_0 * current_density[i][j][k])`. -/
def update_magnetic_cell (i j k : Nat) (s : State) : Except (Fault × State) State :=
  match s.magnetic_field.get? i j k,
        s.electric_field.get? i (j + 1) k, s.electric_field.get? i (j - 1) k,
        s.electric_field.get? (i + 1) j k, s.electric_field.get? (i - 1) j k,
        s.current_density.get? i j k with
  | some b, some ejp, some ejm, some eip, some eim, some c =>
    match s.magnetic_field.set? i j k
        (b + delta_time * ((ejp - ejm) / 2 - (eip - eim) / 2 + mu_0 * c)) with
    | some g => .ok { s with magnetic_field := g }
    | none => .error (.out_of_range, s)
  | _, _, _, _, _, _ => .error (.out_of_range, s)

/-- The innermost loop of `update_magnetic_field` for fixed `i` and `j`:
`for (int k = 1; k < magnetic_field[0][0].size() - 1; ++k)`. -/
def update_magnetic_row (i j : Nat) (s : State) : Except (Fault × State) State :=
  match s.magnetic_field[0]? with
  | none => .error (.out_of_range, s)
  | some p0 =>
    match p0[0]? with
    | none => .error (.out_of_range, s)
    | some r0 =>
      for_each (update_magnetic_cell i j) (List.range' 1 (size_minus_one r0.length - 1)) s

/-- The middle loop of `update_magnetic_field` for fixed `i`:
`for (int j = 1; j < magnetic_field[0].size() - 1; ++j)`. -/
def update_magnetic_plane (i : Nat) (s : State) : Except (Fault × State) State :=
  match s.magnetic_field[0]? with
  | none => .error (.out_of_range, s)
  | some p0 =>
    for_each (update_magnetic_row i) (List.range' 1 (size_minus_one p0.length - 1)) s

/-- The function `update_magnetic_field`: same loop nest, the bounds taken from
`magnetic_field`, `magnetic_field[0]` and `magnetic_field[0][0]`. -/
def update_magnetic_field (s : State) : Except (Fault × State) State :=
  for_each update_magnetic_plane
    (List.range' 1 (size_minus_one s.magnetic_field.length - 1)) s

/-! ## SimulationController: the time-step loop -/

/-- One iteration of the time loop without its progress report:
`update_electric_field(); update_magnetic_field();`. -/
def fdtd_step (s : State) : Except (Fault × State) State :=
  match update_electric_field s with
  | .ok s' => update_magnetic_field s'
  | .error e => .error e

/-- The progress report `if (step % (num_steps / 10) == 0) std::cout << …`
(`int` division truncates; a zero divisor is a fault). -/
def progress_report (step num_steps : Int) (s : State) : Except (Fault × State) State :=
  if Int.tdiv num_steps 10 = 0 then .error (.zero_divisor, s)
  else if Int.tmod step (Int.tdiv num_steps 10) = 0 then
    .ok { s with cout := s.cout ++ [Line.progress (Int.tdiv (step * 100) num_steps)] }
  else .ok s

/-- The function `run_fdtd_simulation(num_steps)`. -/
def run_fdtd_simulation (num_steps : Int) (s : State) : Except (Fault × State) State :=
  match for_each (fun step s =>
      match fdtd_step s with
      | .ok s' => progress_report step num_steps s'
      | .error e => .error e) (int_range 0 num_steps) s with
  | .ok s' => .ok { s' with cout := s'.cout ++ [Line.completed] }
  | .error e => .error e

/-! ## LeakageAnalyzer -/

/-- The inner loop of `analyze_em_leakage` for fixed `i`
(`for (int j = 0; j < electric_field[0].size(); ++j)`): adds
`std::abs(electric_field[i][j][0])` to the running total when `i` or `j` is `0` or
`size() - 1`. -/
def analyze_row (s : State) (i : Nat) (total : ℚ) : Except (Fault × State) ℚ :=
  match s.electric_field[0]? with
  | none => .error (.out_of_range, s)
  | some p0 =>
    for_each (fun j total =>
      if i = 0 ∨ i = size_minus_one s.electric_field.length ∨
          j = 0 ∨ j = size_minus_one p0.length then
        match s.electric_field.get? i j 0 with
        | some e => .ok (total + |e|)
        | none => .error (.out_of_range, s)
      else .ok total)
      (List.range p0.length) total

/-- The function `analyze_em_leakage`:
`for (int i = 0; i < electric_field.size(); ++i)` around `analyze_row`, from
`total_leakage = 0.0`. -/
def analyze_em_leakage (s : State) : Except (Fault × State) ℚ :=
  for_each (analyze_row s) (List.range s.electric_field.length) 0

/-! ## ShieldingApplicator -/

/-- Loop body of `apply_shielding`: `electric_field[i][j][k] *= 0.1;` and then
`magnetic_field[i][j][k] *= 0.1;`.  A negative `int` index converts to a huge
`size_t` and is out of range. -/
def apply_shielding_cell (i j k : Int) (s : State) : Except (Fault × State) State :=
  if 0 ≤ i ∧ 0 ≤ j ∧ 0 ≤ k then
    match s.electric_field.get? i.toNat j.toNat k.toNat with
    | none => .error (.out_of_range, s)
    | some e =>
      match s.electric_field.set? i.toNat j.toNat k.toNat (e * (1 / 10)) with
      | none => .error (.out_of_range, s)
      | some g =>
        let s1 : State := { s with electric_field := g }
        match s1.magnetic_field.get? i.toNat j.toNat k.toNat with
        | none => .error (.out_of_range, s1)
        | some b =>
          match s1.magnetic_field.set? i.toNat j.toNat k.toNat (b * (1 / 10)) with
          | none => .error (.out_of_range, s1)
          | some h => .ok { s1 with magnetic_field := h }
  else .error (.out_of_range, s)

/-- The function `apply_shielding(x_start, y_start, z_start, thickness)`: three
nested loops, each from its start to start plus `thickness` (exclusive). -/
def apply_shielding (x_start y_start z_start thickness : Int) (s : State) :
    Except (Fault × State) State :=
  for_each (fun i =>
    for_each (fun j =>
      for_each (apply_shielding_cell i j) (int_range z_start (z_start + thickness)))
      (int_range y_start (y_start + thickness)))
    (int_range x_start (x_start + thickness)) s

/-! ## Statement-level definitions -/

/-- Index `x` is interior on one axis of a grid of extent `N`: `1 ≤ x ≤ N - 2`. -/
def interior (N x : Nat) : Prop := 1 ≤ x ∧ x + 1 < N

instance (N x : Nat) : Decidable (interior N x) := by
  unfold interior
  infer_instance

/-- Cell `(x, y, z)` is interior on all three axes. -/
def interior3 (N x y z : Nat) : Prop := interior N x ∧ interior N y ∧ interior N z

instance (N x y z : Nat) : Decidable (interior3 N x y z) := by
  unfold interior3
  infer_instance

/-- Cell `(x, y, z)` comes before `(i, j, k)` in the order the loop nests visit cells. -/
def swept (i j k x y z : Nat) : Prop := x < i ∨ (x = i ∧ (y < j ∨ (y = j ∧ z < k)))

instance (i j k x y z : Nat) : Decidable (swept i j k x y z) := by
  unfold swept
  infer_instance

/-- The electric value the stencil assigns to cell `(x, y, z)`, computed from the
fields of `s`. -/
def elec_new (s : State) (x y z : Nat) : ℚ :=
  s.electric_field.val x y z - delta_time *
    ((s.magnetic_field.val x (y + 1) z - s.magnetic_field.val x (y - 1) z) / 2
      - (s.magnetic_field.val (x + 1) y z - s.magnetic_field.val (x - 1) y z) / 2)

/-- The magnetic value the stencil assigns to cell `(x, y, z)`, computed from the
fields of `s`. -/
def mag_new (s : State) (x y z : Nat) : ℚ :=
  s.magnetic_field.val x y z + delta_time *
    ((s.electric_field.val x (y + 1) z - s.electric_field.val x (y - 1) z) / 2
      - (s.electric_field.val (x + 1) y z - s.electric_field.val (x - 1) y z) / 2
      + mu_0 * s.current_density.val x y z)

/-- Loop invariant of `update_electric_field` when the counters stand at `(i, j, k)`:
the interior cells visited so far hold their new value, every other cell its old
one, and nothing but the electric grid has been written. -/
def ElecInv (s0 : State) (N i j k : Nat) (s : State) : Prop :=
  s.magnetic_field = s0.magnetic_field ∧ s.current_density = s0.current_density ∧
  s.cout = s0.cout ∧ s.electric_field.Shape N ∧
  ∀ x y z, s.electric_field.get? x y z =
    if interior3 N x y z ∧ swept i j k x y z then some (elec_new s0 x y z)
    else s0.electric_field.get? x y z

/-- Loop invariant of `update_magnetic_field` when the counters stand at `(i, j, k)`. -/
def MagInv (s0 : State) (N i j k : Nat) (s : State) : Prop :=
  s.electric_field = s0.electric_field ∧ s.current_density = s0.current_density ∧
  s.cout = s0.cout ∧ s.magnetic_field.Shape N ∧
  ∀ x y z, s.magnetic_field.get? x y z =
    if interior3 N x y z ∧ swept i j k x y z then some (mag_new s0 x y z)
    else s0.magnetic_field.get? x y z

/-- `n` iterations of the time loop body `update_electric_field();
update_magnetic_field();`, one after the other. -/
def iterate_steps : Nat → State → Except (Fault × State) State
  | 0, s => .ok s
  | n + 1, s =>
    match fdtd_step s with
    | .ok s' => iterate_steps n s'
    | .error e => .error e

/-- The grid of extent `N` with every cell `0`
(`resize(grid_size, vector(grid_size, vector(grid_size, 0)))` in `main`). -/
def zero_grid (N : Nat) : Grid := List.replicate N (List.replicate N (List.replicate N 0))

/-- The state `main` starts from: all three grids zero, nothing printed. -/
def zero_state (N : Nat) : State :=
  { electric_field := zero_grid N, magnetic_field := zero_grid N,
    current_density := zero_grid N, cout := [] }

/-- Sum of `|E[i][j][0]|` over the pairs `(i, j)` with `i` or `j` equal to `0` or
`N - 1`: the edge of the depth slice `k = 0`. -/
def scan_sum (N : Nat) (g : Grid) : ℚ :=
  ∑ i in Finset.range N, ∑ j in Finset.range N,
    if i = 0 ∨ i = N - 1 ∨ j = 0 ∨ j = N - 1 then |g.val i j 0| else 0

/-- Sum of `|E[i][j][k]|` over the full six-face boundary shell: the cells with at
least one index equal to `0` or `N - 1` (the scan the specification asks for). -/
def shell_sum (N : Nat) (g : Grid) : ℚ :=
  ∑ i in Finset.range N, ∑ j in Finset.range N, ∑ k in Finset.range N,
    if i = 0 ∨ i = N - 1 ∨ j = 0 ∨ j = N - 1 ∨ k = 0 ∨ k = N - 1 then |g.val i j k| else 0

/-! ## Concrete states used as witnesses and counterexamples -/

/-- A `3 × 3 × 3` state with non-zero fields: the single interior cell `(1, 1, 1)`
holds `E = 5`, `B = 7`, `J = 10 ^ 16`, and some boundary cells are non-zero. -/
def demo3 : State :=
  { electric_field :=
      [[[2, 0, 0], [0, 3, 0], [0, 0, 0]],
       [[0, 0, 0], [0, 5, 0], [-4, 0, 0]],
       [[0, 0, 0], [0, 0, 0], [0, 0, -1]]],
    magnetic_field :=
      [[[0, 0, 0], [0, 1000000000, 0], [0, 0, 0]],
       [[0, 4000000000, 0], [0, 7, 0], [0, 0, 0]],
       [[1, 0, 0], [0, 0, 0], [0, 0, 0]]],
    current_density :=
      [[[0, 0, 0], [0, 0, 0], [0, 0, 0]],
       [[0, 0, 0], [0, 10 ^ 16, 0], [0, 0, 0]],
       [[0, 0, 0], [0, 0, 0], [0, 0, 0]]],
    cout := [] }

/-- A `2 × 2 × 2` state whose only non-zero electric cell is `E[0][0][1] = 1`: a cell
of the boundary shell that does not lie in the depth slice `k = 0`. -/
def shell_cex : State :=
  { electric_field := [[[0, 1], [0, 0]], [[0, 0], [0, 0]]],
    magnetic_field := zero_grid 2,
    current_density := zero_grid 2,
    cout := [] }

/-- Modelled on the specification's wording, for comparison with `fdtd_step`: one time
step in which both updates are computed from the same pre-step snapshot `s`, the new
electric grid by `update_electric_field s` and the new magnetic grid by
`update_magnetic_field s`. -/
def snapshot_step (s : State) : Except (Fault × State) State :=
  match update_electric_field s, update_magnetic_field s with
  | .ok sE, .ok sB =>
    .ok { s with electric_field := sE.electric_field, magnetic_field := sB.magnetic_field }
  | .error e, _ => .error e
  | .ok _, .error e => .error e

/-- A `4 × 4 × 4` state, all zero except the boundary cell `B[1][0][1] = 2 * 10 ^ 9`,
which makes the electric update move the interior cell `E[1][1][1]` from `0` to `1`. -/
def leapfrog_cex : State :=
  { electric_field := zero_grid 4,
    magnetic_field :=
      [[[0, 0, 0, 0], [0, 0, 0, 0], [0, 0, 0, 0], [0, 0, 0, 0]],
       [[0, 2000000000, 0, 0], [0, 0, 0, 0], [0, 0, 0, 0], [0, 0, 0, 0]],
       [[0, 0, 0, 0], [0, 0, 0, 0], [0, 0, 0, 0], [0, 0, 0, 0]],
       [[0, 0, 0, 0], [0, 0, 0, 0], [0, 0, 0, 0], [0, 0, 0, 0]]],
    current_density := zero_grid 4,
    cout := [] }

/-! ## Statement-level definitions for `apply_shielding` -/

/-- Cell `(x, y, z)` lies in the cube the loops of `apply_shielding` run over:
`[x_start, x_start + thickness)` on the first axis, and likewise on the others. -/
def in_region (x_start y_start z_start thickness x y z : Int) : Prop :=
  (x_start ≤ x ∧ x < x_start + thickness) ∧ (y_start ≤ y ∧ y < y_start + thickness) ∧
    (z_start ≤ z ∧ z < z_start + thickness)

instance (x_start y_start z_start thickness x y z : Int) :
    Decidable (in_region x_start y_start z_start thickness x y z) := by
  unfold in_region
  infer_instance

/-- Cell `(x, y, z)` is a cell of a grid of extent `N`. -/
def in_volume (N : Nat) (x y z : Int) : Prop :=
  (0 ≤ x ∧ x < N) ∧ (0 ≤ y ∧ y < N) ∧ (0 ≤ z ∧ z < N)

instance (N : Nat) (x y z : Int) : Decidable (in_volume N x y z) := by
  unfold in_volume
  infer_instance

/-- The region `(x_start, y_start, z_start, thickness)` is fully contained in `[0, N)`
on all three axes. -/
def region_in_volume (N : Nat) (x_start y_start z_start thickness : Int) : Prop :=
  (0 ≤ x_start ∧ x_start + thickness ≤ N) ∧ (0 ≤ y_start ∧ y_start + thickness ≤ N) ∧
    (0 ≤ z_start ∧ z_start + thickness ≤ N)

instance (N : Nat) (x_start y_start z_start thickness : Int) :
    Decidable (region_in_volume N x_start y_start z_start thickness) := by
  unfold region_in_volume
  infer_instance

/-- The value is a value of the C++ type `int` (32 bits, two's complement). -/
def fits_int (v : Int) : Prop := -(2 ^ 31) ≤ v ∧ v ≤ 2 ^ 31 - 1

instance (v : Int) : Decidable (fits_int v) := by
  unfold fits_int
  infer_instance

/-- The arguments of `apply_shielding` are `int` values, and the loop bounds
`x_start + thickness`, `y_start + thickness` and `z_start + thickness` are computed
without `int` overflow: the calls on which the unbounded counters of the embedding
and the `int` counters of the source agree. -/
def region_fits_int (x_start y_start z_start thickness : Int) : Prop :=
  (fits_int x_start ∧ fits_int y_start ∧ fits_int z_start ∧ fits_int thickness) ∧
    fits_int (x_start + thickness) ∧ fits_int (y_start + thickness) ∧
    fits_int (z_start + thickness)

instance (x_start y_start z_start thickness : Int) :
    Decidable (region_fits_int x_start y_start z_start thickness) := by
  unfold region_fits_int
  infer_instance

/-- Cell `(x, y, z)` comes before `(i, j, k)` in the order a loop nest visits cells
(`int` counters). -/
def swept_int (i j k x y z : Int) : Prop := x < i ∨ (x = i ∧ (y < j ∨ (y = j ∧ z < k)))

instance (i j k x y z : Int) : Decidable (swept_int i j k x y z) := by
  unfold swept_int
  infer_instance

/-- Outcome predicate: `P` for a returned state, `F` for a fault. -/
def Post {ε σ : Type} (P : σ → Prop) (F : ε → Prop) : Except ε σ → Prop
  | .ok s => P s
  | .error e => F e

/-- Loop invariant of `apply_shielding` when the counters stand at `(i, j, k)`: the
cells of the region visited so far hold one tenth of their old value in both grids,
every other cell its old value, the current density and the console are untouched, and
every cell visited so far was a cell of the volume. -/
def ShieldInv (s0 : State) (N : Nat) (xs ys zs t i j k : Int) (s : State) : Prop :=
  s.current_density = s0.current_density ∧ s.cout = s0.cout ∧
  s.electric_field.Shape N ∧ s.magnetic_field.Shape N ∧
  (∀ x y z : Nat, s.electric_field.get? x y z =
    if in_region xs ys zs t x y z ∧ swept_int i j k x y z then
      (s0.electric_field.get? x y z).map (fun v => v * (1 / 10))
    else s0.electric_field.get? x y z) ∧
  (∀ x y z : Nat, s.magnetic_field.get? x y z =
    if in_region xs ys zs t x y z ∧ swept_int i j k x y z then
      (s0.magnetic_field.get? x y z).map (fun v => v * (1 / 10))
    else s0.magnetic_field.get? x y z) ∧
  ∀ x y z : Int, in_region xs ys zs t x y z → swept_int i j k x y z → in_volume N x y z

/-- What is known when `apply_shielding` faults: the fault is an out-of-range access,
at a cell `(i, j, k)` of the region that is not a cell of the volume, and the memory
state is the one the loop invariant describes at that cell. -/
def ShieldFault (s0 : State) (N : Nat) (xs ys zs t : Int) (e : Fault × State) : Prop :=
  e.1 = Fault.out_of_range ∧
  ∃ i j k : Int, in_region xs ys zs t i j k ∧ ¬ in_volume N i j k ∧
    ShieldInv s0 N xs ys zs t i j k e.2

/-- A `3 × 3 × 3` state, all zero except the scanned boundary cell `E[0][0][0] = 2`. -/
def leaky3 : State :=
  { electric_field :=
      [[[2, 0, 0], [0, 0, 0], [0, 0, 0]],
       [[0, 0, 0], [0, 0, 0], [0, 0, 0]],
       [[0, 0, 0], [0, 0, 0], [0, 0, 0]]],
    magnetic_field := zero_grid 3,
    current_density := zero_grid 3,
    cout := [] }

/-- The lines `run_fdtd_simulation(10)` prints. -/
def ten_step_log : List Line :=
  [.progress 0, .progress 10, .progress 20, .progress 30, .progress 40, .progress 50,
   .progress 60, .progress 70, .progress 80, .progress 90, .completed]

/-- The all-zero state of extent `N` with the single electric cell `(i, j, k)` set to
`v` (unchanged zero state when the cell is outside the grid). -/
def seed_electric (N i j k : Nat) (v : ℚ) : State :=
  { zero_state N with
    electric_field := ((zero_grid N).set? i j k v).getD (zero_grid N) }

/-- From `s` to `t` nothing but the electric grid has changed. -/
def ElecFrame (s t : State) : Prop :=
  t.magnetic_field = s.magnetic_field ∧ t.current_density = s.current_density ∧
    t.cout = s.cout

/-- From `s` to `t` nothing but the magnetic grid has changed. -/
def MagFrame (s t : State) : Prop :=
  t.electric_field = s.electric_field ∧ t.current_density = s.current_density ∧
    t.cout = s.cout

/-! ## Sequences of operations -/

/-- The four operations of the program that act on the volume. -/
inductive Op where
  | update_electric
  | update_magnetic
  | shield (x_start y_start z_start thickness : Int)
  | analyze

/-- The memory state after one operation (the value `analyze_em_leakage` returns goes
to its caller and is not part of the memory). -/
def Op.apply : Op → State → Except (Fault × State) State
  | .update_electric, s => update_electric_field s
  | .update_magnetic, s => update_magnetic_field s
  | .shield x_start y_start z_start thickness, s =>
    apply_shielding x_start y_start z_start thickness s
  | .analyze, s =>
    match analyze_em_leakage s with
    | .ok _ => .ok s
    | .error e => .error e

/-- A shielding operation names a region inside a volume of extent `N`; the other
operations take no argument. -/
def Op.in_bounds (N : Nat) : Op → Prop
  | .shield x_start y_start z_start thickness =>
    region_in_volume N x_start y_start z_start thickness
  | _ => True

/-- The operations `ops` applied one after the other. -/
def apply_ops (ops : List Op) (s : State) : Except (Fault × State) State :=
  for_each Op.apply ops s

/-- The state of a freshly started program: three empty vectors, nothing printed. -/
def start_state : State :=
  { electric_field := [], magnetic_field := [], current_density := [], cout := [] }

/-! ## SimulationController: `main` -/

/-- The call `g.resize(n, std::vector<std::vector<double>>(n, std::vector<double>(n, 0)))`
on the outer vector of a grid: a longer vector is cut to `n` planes, a shorter one is
filled up with planes of `n` rows of `n` zeros; the planes already there are kept. -/
def resize_grid (n : Nat) (g : Grid) : Grid :=
  g.take n ++ List.replicate (n - g.length) (List.replicate n (List.replicate n 0))

/-- The three `resize` calls at the start of `main`. -/
def initialize_fields (grid_size : Nat) (s : State) : State :=
  { s with
    electric_field := resize_grid grid_size s.electric_field,
    magnetic_field := resize_grid grid_size s.magnetic_field,
    current_density := resize_grid grid_size s.current_density }

/-- The function `main` (`grid_size = 100`, `num_time_steps = 1000`), as a function of
the state of the globals when it is entered: `start_state` in a program of this file
alone, a volume "initialized elsewhere", as the source puts it, otherwise. -/
def main (s : State) : Except (Fault × State) State :=
  match run_fdtd_simulation 1000 (initialize_fields 100 s) with
  | .error e => .error e
  | .ok s1 =>
    match analyze_em_leakage s1 with
    | .error e => .error e
    | .ok leakage =>
      let s2 : State := { s1 with cout := s1.cout ++ [Line.leakage leakage] }
      if 1 < leakage then
        match apply_shielding 10 10 10 10 { s2 with cout := s2.cout ++ [Line.applying] } with
        | .error e => .error e
        | .ok s3 => run_fdtd_simulation 1000 s3
      else .ok s2

/-- The line reports a leakage value (`Total EM Leakage Detected: …`). -/
def Line.is_leakage : Line → Bool
  | .leakage _ => true
  | _ => false

/-- The line is a progress report (`Simulation Progress: …%`). -/
def Line.is_progress : Line → Bool
  | .progress _ => true
  | _ => false


/-- The state `demo3` with its electric field changed in every cell the leakage scan
does not read: all cells with `k ≠ 0`, and the cell `(1, 1, 0)` of the slice `k = 0`
whose `i` and `j` are both interior. -/
def demo3_off_scan : State :=
  { demo3 with
    electric_field :=
      [[[2, 11, 12], [0, 13, 14], [0, 15, 16]],
       [[0, 17, 18], [9, 19, 20], [-4, 21, 22]],
       [[0, 23, 24], [0, 25, 26], [0, 27, 28]]] }

/-- Modelled on the specification's wording, for comparison with
`update_electric_field`: the simultaneous update of an electric grid of extent `N`
from the pre-call snapshot `s`. Every cell of the new grid is computed from `s` alone:
an interior cell `(i, j, k)` becomes `E[i][j][k] - dt * ((B[i][j+1][k] - B[i][j-1][k]) / 2
- (B[i+1][j][k] - B[i-1][j][k]) / 2)`, every other cell keeps its value. -/
def simultaneous_electric_update (N : Nat) (s : State) : Grid :=
  (List.range N).map fun (i : Nat) => (List.range N).map fun (j : Nat) =>
    (List.range N).map fun (k : Nat) =>
      if interior3 N i j k then
        s.electric_field.val i j k - delta_time *
          ((s.magnetic_field.val i (j + 1) k - s.magnetic_field.val i (j - 1) k) / 2
            - (s.magnetic_field.val (i + 1) j k - s.magnetic_field.val (i - 1) j k) / 2)
      else s.electric_field.val i j k

/-- The loop body of `update_electric_field` run over the cells of `cells`, in the
order of the list: the sweep with an arbitrary visiting order. -/
def sweep_electric_cells (cells : List (Nat × Nat × Nat)) (s : State) :
    Except (Fault × State) State :=
  for_each (fun c => update_electric_cell c.1 c.2.1 c.2.2) cells s

/-- Invariant of `sweep_electric_cells` when the cells of `visited` have been visited:
these hold their new value, every other cell its old one, and nothing but the electric
grid has been written. -/
def ElecListInv (s0 : State) (N : Nat) (visited : List (Nat × Nat × Nat)) (s : State) :
    Prop :=
  s.magnetic_field = s0.magnetic_field ∧ s.current_density = s0.current_density ∧
  s.cout = s0.cout ∧ s.electric_field.Shape N ∧
  ∀ x y z, s.electric_field.get? x y z =
    if (x, y, z) ∈ visited then some (elec_new s0 x y z) else s0.electric_field.get? x y z

/-- The eight interior cells of a `4 × 4 × 4` grid, in the reverse of the order in
which the loops of `update_electric_field` visit them. -/
def reversed_cells4 : List (Nat × Nat × Nat) :=
  [(2, 2, 2), (2, 2, 1), (2, 1, 2), (2, 1, 1), (1, 2, 2), (1, 2, 1), (1, 1, 2), (1, 1, 1)]
end Fdtd

/-!
# The other programs of the repository

`tensor_dir/System_of_Linear_Equations.cxx`, `tensor_dir/matrix_vector_MULTI.cxx`,
`dataFrame_cxx/dataFrame.cxx` and `Electromagnetic_Wave_Propagation_Sim/main.cxx`,
embedded with the conventions used above: `double` is `ℚ`, a vector is a list, and an
element access outside a vector stops the run with a fault. A division of doubles by
zero yields an infinity or a NaN, which is no rational number; the embedding stops
there with the fault `zero_divisor`. `int n = A.size()` and the `int` loop counters
are unbounded naturals.
-/

namespace Dense

/-! ## Vectors of doubles and vectors of vectors of doubles -/

/-- A `std::vector<double>`. -/
abbrev Vec := List ℚ

/-- A `std::vector<std::vector<double>>`. -/
abbrev Mat := List (List ℚ)

/-- Checked read of `A[i][j]`: `none` when an index is outside its vector. -/
def Mat.get? (A : Mat) (i j : Nat) : Option ℚ :=
  match A[i]? with
  | none => none
  | some r => r[j]?

/-- Checked write `A[i][j] = v`: `none` when an index is outside its vector. -/
def Mat.set? (A : Mat) (i j : Nat) (v : ℚ) : Option Mat :=
  match A[i]? with
  | none => none
  | some r => if j < r.length then some (A.set i (r.set j v)) else none

/-- Value of `A[i][j]`, `0` outside the matrix (used in statements only). -/
def Mat.val (A : Mat) (i j : Nat) : ℚ := (A.get? i j).getD 0

/-- Value of `v[i]`, `0` outside the vector (used in statements only). -/
def Vec.val (v : Vec) (i : Nat) : ℚ := (v[i]?).getD 0

/-- The matrix has `m` rows of `n` entries each. -/
def Mat.Shape (m n : Nat) (A : Mat) : Prop := A.length = m ∧ ∀ r ∈ A, r.length = n

instance (m n : Nat) (A : Mat) : Decidable (A.Shape m n) := by
  unfold Mat.Shape
  infer_instance

end Dense

namespace MatVec

open Dense Fdtd

/-! ## `matrix_vector_MULTI.cxx` -/

/-- Loop body of `matrix_vector_multiply`: `w[i] += A[i][j] * v[j]`. -/
def multiply_entry (A : Mat) (v : Vec) (i j : Nat) (w : Vec) : Except Fault Vec :=
  match w[i]?, A.get? i j, v[j]? with
  | some wi, some a, some vj => .ok (w.set i (wi + a * vj))
  | _, _, _ => .error .out_of_range

/-- The function `matrix_vector_multiply(A, v)`: `m = A.size()`, `n = v.size()`,
`w` starts as `m` zeros, and the two loops run over `i < m` and `j < n`. -/
def matrix_vector_multiply (A : Mat) (v : Vec) : Except Fault Vec :=
  for_each (fun i => for_each (multiply_entry A v i) (List.range v.length))
    (List.range A.length) (List.replicate A.length 0)

/-- The matrix `A` of `main`. -/
def main_A : Mat := [[1, 2, 3], [4, 5, 6], [7, 8, 9]]

/-- The vector `v` of `main`. -/
def main_v : Vec := [1, 2, 3]

/-- Loop invariant of `matrix_vector_multiply` when the counters stand at `(i, j)`:
the rows before `i` hold their full sum, row `i` the sum of its first `j` products,
the rows after `i` still `0`. -/
def MulInv (A : Mat) (v : Vec) (m n i j : Nat) (w : Vec) : Prop :=
  ∀ r, w[r]? =
    if r < m then
      some (if r < i then ∑ c in Finset.range n, A.val r c * v.val c
        else if r = i then ∑ c in Finset.range j, A.val i c * v.val c
        else 0)
    else none

end MatVec

namespace DataFrameCxx

/-! ## `dataFrame.cxx` (the same functions are in `df_old.cxx`) -/

/-- The type `DataFrameElement`, `std::variant<int, double, char, std::string>`. -/
inductive DataFrameElement where
  | int (v : Int)
  | double (v : ℚ)
  | char (c : Char)
  | string (s : String)
  deriving DecidableEq

/-- The type `DataFrameColumn`, a vector of elements. -/
abbrev DataFrameColumn := List DataFrameElement

/-- The struct `DataFrame`. -/
structure DataFrame where
  columns : List DataFrameColumn
  column_names : List String
  deriving DecidableEq

/-- The exceptions the program throws. -/
inductive Exception where
  | invalid_argument
  | runtime_error
  deriving DecidableEq

/-- A default-constructed `DataFrame`: no column, no name. -/
def DataFrame.empty : DataFrame := { columns := [], column_names := [] }

/-- The function `add_column(df, name, column)`.  `df` is passed by reference: the
result is the data frame after a normal return, or the exception together with the
data frame as it is when the exception leaves the function.  The test
`!df.columns.empty() && df.columns[0].size() != column.size()` is the first match arm:
the vector is not empty and `first` is `df.columns[0]`. -/
def add_column (df : DataFrame) (name : String) (column : DataFrameColumn) :
    Except (Exception × DataFrame) DataFrame :=
  match df.columns with
  | first :: _ =>
    if first.length ≠ column.length then .error (.invalid_argument, df)
    else
      .ok { columns := df.columns ++ [column], column_names := df.column_names ++ [name] }
  | [] =>
    .ok { columns := df.columns ++ [column], column_names := df.column_names ++ [name] }

/-- The data frame a caller holds after one call of `add_column`, whether the call
returned or threw. -/
def after_add_column (df : DataFrame) (call : String × DataFrameColumn) : DataFrame :=
  match add_column df call.1 call.2 with
  | .ok df' => df'
  | .error e => e.2

/-- The data frame after a sequence of `add_column` calls. -/
def after_calls (calls : List (String × DataFrameColumn)) (df : DataFrame) : DataFrame :=
  calls.foldl after_add_column df

/-- The function `is_numeric_column`: every element holds an `int` or a `double`
(`std::holds_alternative`, a test on the value at run time). -/
def is_numeric_column (column : DataFrameColumn) : Bool :=
  column.all (fun val =>
    match val with
    | .int _ => true
    | .double _ => true
    | _ => false)

/-- The C++ types that occur in the `if constexpr` test of `extract_numeric_column`. -/
inductive CxxType where
  | int
  | double
  | char
  | string
  | const_lvalue_ref (t : CxxType)
  deriving DecidableEq

/-- The alternative an element holds. -/
def DataFrameElement.held : DataFrameElement → CxxType
  | .int _ => .int
  | .double _ => .double
  | .char _ => .char
  | .string _ => .string

/-- The type `decltype(val)` in the generic lambda `[&result, i](auto&& val) { … }` when
`std::visit` calls it on `column[i]`.  `column` is a `const DataFrameColumn&`, so the
lambda receives a const lvalue of the held type `T`; `auto&&` is then deduced as
`const T&`, and `decltype` of the parameter name is its declared type, `const T&`. -/
def decltype_val (val : DataFrameElement) : CxxType := .const_lvalue_ref val.held

/-- The conversion `static_cast<double>(val)` of the two arithmetic alternatives the
`if constexpr` names. -/
def static_cast_double : DataFrameElement → Option ℚ
  | .int v => some v
  | .double v => some v
  | _ => none

/-- The body of the visitor for element `i`:
`if constexpr (std::is_same_v<decltype(val), int> || std::is_same_v<decltype(val), double>)
  result[i] = static_cast<double>(val);`, and nothing otherwise. -/
def visit_element (i : Nat) (val : DataFrameElement) (result : List (Option ℚ)) :
    List (Option ℚ) :=
  if decltype_val val = CxxType.int ∨ decltype_val val = CxxType.double then
    result.set i (static_cast_double val)
  else result

/-- The function `extract_numeric_column`.  The result vector
`Eigen::VectorXd result(column.size())` is created without initial values: a
coefficient is `none` until the program assigns to it. -/
def extract_numeric_column (column : DataFrameColumn) :
    Except Exception (List (Option ℚ)) :=
  if is_numeric_column column = false then .error .invalid_argument
  else
    .ok ((List.range column.length).foldl
      (fun result i =>
        match column[i]? with
        | some val => visit_element i val result
        | none => result)
      (List.replicate column.length none))

/-- The column `int_col1` of `main`, `{1, 2, 3}`. -/
def int_col1 : DataFrameColumn := [.int 1, .int 2, .int 3]

/-- The column `double_col1` of `main`, `{1.5, 2.5, 3.5}`. -/
def double_col1 : DataFrameColumn := [.double (3 / 2), .double (5 / 2), .double (7 / 2)]

/-- The invariant of a data frame: as many names as columns, and every column as long
as the first one. -/
def DataFrame.Consistent (df : DataFrame) : Prop :=
  df.column_names.length = df.columns.length ∧
  ∀ first, df.columns[0]? = some first → ∀ c ∈ df.columns, c.length = first.length

end DataFrameCxx

namespace Wave2D

open Dense Fdtd

/-! ## `Electromagnetic_Wave_Propagation_Sim/main.cxx` -/

/-- Size of the 2D grid. -/
def grid_size : Nat := 100

/-- Time step, `0.01`. -/
def dt : ℚ := 1 / 100

/-- Grid spacing, `0.1`. -/
def dx : ℚ := 1 / 10

/-- The two global grids `E` and `B`. -/
structure Fields where
  E : Mat
  B : Mat
  deriving DecidableEq

/-- The grid of `grid_size × grid_size` zeros. -/
def zero_mat : Mat := List.replicate grid_size (List.replicate grid_size 0)

/-- The globals as the program initialises them: both grids zero. -/
def initial_fields : Fields := { E := zero_mat, B := zero_mat }

/-- Both grids are `grid_size × grid_size`. -/
def Fields.WellShaped (s : Fields) : Prop :=
  s.E.Shape grid_size grid_size ∧ s.B.Shape grid_size grid_size

/-- Loop body of `update_electric_field`:
`E[i][j] += dt * (B[i+1][j] - B[i][j]) / dx`. -/
def update_electric_cell (dt dx : ℚ) (i j : Nat) (s : Fields) : Except Fault Fields :=
  match s.E.get? i j, s.B.get? (i + 1) j, s.B.get? i j with
  | some e, some b1, some b0 =>
    if dx = 0 then .error .zero_divisor
    else
      match s.E.set? i j (e + dt * (b1 - b0) / dx) with
      | some E' => .ok { s with E := E' }
      | none => .error .out_of_range
  | _, _, _ => .error .out_of_range

/-- The function `update_electric_field(dt, dx)`: both loops run from `1` to
`grid_size - 1` (exclusive). -/
def update_electric_field (dt dx : ℚ) (s : Fields) : Except Fault Fields :=
  for_each (fun i => for_each (update_electric_cell dt dx i)
    (List.range' 1 (grid_size - 1 - 1))) (List.range' 1 (grid_size - 1 - 1)) s

/-- Loop body of `update_magnetic_field`:
`B[i][j] += dt * (E[i][j+1] - E[i][j]) / dx`. -/
def update_magnetic_cell (dt dx : ℚ) (i j : Nat) (s : Fields) : Except Fault Fields :=
  match s.B.get? i j, s.E.get? i (j + 1), s.E.get? i j with
  | some b, some e1, some e0 =>
    if dx = 0 then .error .zero_divisor
    else
      match s.B.set? i j (b + dt * (e1 - e0) / dx) with
      | some B' => .ok { s with B := B' }
      | none => .error .out_of_range
  | _, _, _ => .error .out_of_range

/-- The function `update_magnetic_field(dt, dx)`. -/
def update_magnetic_field (dt dx : ℚ) (s : Fields) : Except Fault Fields :=
  for_each (fun i => for_each (update_magnetic_cell dt dx i)
    (List.range' 1 (grid_size - 1 - 1))) (List.range' 1 (grid_size - 1 - 1)) s

/-- The schedule of `main` in which `electric_thread` takes the mutex first. -/
def electric_then_magnetic (s : Fields) : Except Fault Fields :=
  match update_electric_field dt dx s with
  | .ok s' => update_magnetic_field dt dx s'
  | .error e => .error e

/-- The schedule of `main` in which `magnetic_thread` takes the mutex first. -/
def magnetic_then_electric (s : Fields) : Except Fault Fields :=
  match update_magnetic_field dt dx s with
  | .ok s' => update_electric_field dt dx s'
  | .error e => .error e

/-- Cell `(x, y)` is interior on both axes. -/
def interior2 (x y : Nat) : Prop := Fdtd.interior grid_size x ∧ Fdtd.interior grid_size y

instance (x y : Nat) : Decidable (interior2 x y) := by
  unfold interior2
  infer_instance

/-- Cell `(x, y)` comes before `(i, j)` in the order the two loops visit cells. -/
def swept2 (i j x y : Nat) : Prop := x < i ∨ (x = i ∧ y < j)

instance (i j x y : Nat) : Decidable (swept2 i j x y) := by
  unfold swept2
  infer_instance

/-- The electric value the program assigns to cell `(x, y)`, from the fields `s`. -/
def wave_elec_new (dt dx : ℚ) (s : Fields) (x y : Nat) : ℚ :=
  s.E.val x y + dt * (s.B.val (x + 1) y - s.B.val x y) / dx

/-- The magnetic value the program assigns to cell `(x, y)`, from the fields `s`. -/
def wave_mag_new (dt dx : ℚ) (s : Fields) (x y : Nat) : ℚ :=
  s.B.val x y + dt * (s.E.val x (y + 1) - s.E.val x y) / dx

/-- Loop invariant of `update_electric_field` when the counters stand at `(i, j)`. -/
def WaveElecInv (dt dx : ℚ) (s0 : Fields) (i j : Nat) (s : Fields) : Prop :=
  s.B = s0.B ∧ s.E.Shape grid_size grid_size ∧
  ∀ x y, s.E.get? x y =
    if interior2 x y ∧ swept2 i j x y then some (wave_elec_new dt dx s0 x y)
    else s0.E.get? x y

/-- Loop invariant of `update_magnetic_field` when the counters stand at `(i, j)`. -/
def WaveMagInv (dt dx : ℚ) (s0 : Fields) (i j : Nat) (s : Fields) : Prop :=
  s.E = s0.E ∧ s.B.Shape grid_size grid_size ∧
  ∀ x y, s.B.get? x y =
    if interior2 x y ∧ swept2 i j x y then some (wave_mag_new dt dx s0 x y)
    else s0.B.get? x y

/-- The fields that are zero except for the interior magnetic cell `B[1][1] = 1`. -/
def seeded_fields : Fields :=
  { E := zero_mat, B := (zero_mat.set? 1 1 1).getD zero_mat }

end Wave2D

namespace Gauss

open Dense Fdtd

/-! ## `tensor_dir/System_of_Linear_Equations.cxx` -/

/-- The local copies `A` and `b` that `gaussian_elimination` works on. -/
structure Sys where
  A : Mat
  b : Vec
  deriving DecidableEq

/-- The matrix is `n × n` and the right-hand side has `n` entries. -/
def Sys.Shape (n : Nat) (s : Sys) : Prop := s.A.Shape n n ∧ s.b.length = n

/-- Innermost loop body of the forward elimination:
`A[k][j] -= factor * A[i][j]`. -/
def eliminate_entry (factor : ℚ) (i k j : Nat) (s : Sys) : Except Fault Sys :=
  match s.A.get? k j, s.A.get? i j with
  | some akj, some aij =>
    match s.A.set? k j (akj - factor * aij) with
    | some A' => .ok { s with A := A' }
    | none => .error .out_of_range
  | _, _ => .error .out_of_range

/-- Body of the loop over `k`: `factor = A[k][i] / A[i][i]`, the loop over `j` from
`i` to `n - 1`, then `b[k] -= factor * b[i]`. A zero divisor leaves exact
arithmetic and is reported as a fault. -/
def eliminate_row (n i k : Nat) (s : Sys) : Except Fault Sys :=
  match s.A.get? k i, s.A.get? i i with
  | some aki, some aii =>
    if aii = 0 then .error .zero_divisor
    else
      match for_each (eliminate_entry (aki / aii) i k) (List.range' i (n - i)) s with
      | .error e => .error e
      | .ok s' =>
        match s'.b[k]?, s'.b[i]? with
        | some bk, some bi => .ok { s' with b := s'.b.set k (bk - aki / aii * bi) }
        | _, _ => .error .out_of_range
  | _, _ => .error .out_of_range

/-- Body of the loop over `i`: the loop over `k` from `i + 1` to `n - 1`. -/
def eliminate_column (n i : Nat) (s : Sys) : Except Fault Sys :=
  for_each (eliminate_row n i) (List.range' (i + 1) (n - (i + 1))) s

/-- The first `steps` iterations of the forward-elimination loop over `i`. -/
def forward_steps (n steps : Nat) (s : Sys) : Except Fault Sys :=
  for_each (eliminate_column n) (List.range steps) s

/-- The forward elimination: the loop over `i` from `0` to `n - 1`. -/
def forward_elimination (n : Nat) (s : Sys) : Except Fault Sys :=
  forward_steps n n s

/-- Inner loop body of the back substitution: `x[i] -= A[i][j] * x[j]`. -/
def back_entry (s : Sys) (i j : Nat) (x : Vec) : Except Fault Vec :=
  match x[i]?, s.A.get? i j, x[j]? with
  | some xi, some aij, some xj => .ok (x.set i (xi - aij * xj))
  | _, _, _ => .error .out_of_range

/-- Body of the back-substitution loop: `x[i] = b[i]`, the loop over `j` from `i + 1`
to `n - 1`, then `x[i] /= A[i][i]`. -/
def back_row (n : Nat) (s : Sys) (i : Nat) (x : Vec) : Except Fault Vec :=
  match s.b[i]? with
  | none => .error .out_of_range
  | some bi =>
    if i < x.length then
      match for_each (back_entry s i) (List.range' (i + 1) (n - (i + 1))) (x.set i bi) with
      | .error e => .error e
      | .ok x' =>
        match x'[i]?, s.A.get? i i with
        | some xi, some aii =>
          if aii = 0 then .error .zero_divisor else .ok (x'.set i (xi / aii))
        | _, _ => .error .out_of_range
    else .error .out_of_range

/-- The back substitution: `x(n)` starts as zeros and the loop over `i` runs from
`n - 1` down to `0`. -/
def back_substitution (n : Nat) (s : Sys) : Except Fault Vec :=
  for_each (back_row n s) (List.range n).reverse (List.replicate n 0)

/-- The function `gaussian_elimination(A, b)`; `A` and `b` are passed by value, and
`n = A.size()`. -/
def gaussian_elimination (A : Mat) (b : Vec) : Except Fault Vec :=
  match forward_elimination A.length { A := A, b := b } with
  | .error e => .error e
  | .ok s => back_substitution A.length s

/-- The pivot `A[i][i]` as it stands when the forward-elimination loop reaches
iteration `i`; `none` when the loop does not get there or the entry does not exist. -/
def pivot (A : Mat) (b : Vec) (i : Nat) : Option ℚ :=
  match forward_steps A.length i { A := A, b := b } with
  | .ok s => s.A.get? i i
  | .error _ => none

/-- The vector `x` satisfies every equation of the `n × n` system `(A, b)`. -/
def Solves (n : Nat) (A : Mat) (b : Vec) (x : Vec) : Prop :=
  ∀ r, r < n → ∑ c in Finset.range n, A.val r c * x.val c = b.val r

/-- The matrix `A` of `main` and of the documented example. -/
def example_A : Mat := [[2, -1, 1], [1, 3, 2], [1, -1, 2]]

/-- The right-hand side `b` of `main` and of the documented example. -/
def example_b : Vec := [3, 13, 2]

/-- An invertible matrix with zeros on the diagonal. -/
def swap_A : Mat := [[0, 1], [1, 0]]

/-! ### Loop invariants of `gaussian_elimination` -/

/-- Invariant of the loop over `j` in the forward elimination, at counter `j`, for
the factor `f` and the state `s0` in which the loop was entered. -/
def RowInv (f : ℚ) (s0 : Sys) (n i k j : Nat) (s : Sys) : Prop :=
  s.b = s0.b ∧ s.A.Shape n n ∧
  ∀ r c, s.A.get? r c =
    if r = k ∧ i ≤ c ∧ c < j then some (s0.A.val k c - f * s0.A.val i c)
    else s0.A.get? r c

/-- Invariant of the loop over `k` in the forward elimination, at counter `k`, for
the state `s0` in which the loop was entered. -/
def ColInv (s0 : Sys) (n i k : Nat) (s : Sys) : Prop :=
  s.Shape n ∧
  (∀ r c, s.A.get? r c =
    if (i < r ∧ r < k) ∧ i ≤ c ∧ c < n then
      some (s0.A.val r c - s0.A.val r i / s0.A.val i i * s0.A.val i c)
    else s0.A.get? r c) ∧
  ∀ r, s.b[r]? =
    if i < r ∧ r < k then some (s0.b.val r - s0.A.val r i / s0.A.val i i * s0.b.val i)
    else s0.b[r]?

/-- Invariant of the loop over `i` in the forward elimination, at counter `i`, for
the caller's system `(A, b)`: the columns before `i` are zero below the diagonal,
the diagonal entries before `i` are nonzero, and every solution of the current
system solves the caller's system. -/
def FwdInv (n : Nat) (A : Mat) (b : Vec) (i : Nat) (s : Sys) : Prop :=
  s.Shape n ∧ (∀ r c, c < i → c < r → r < n → s.A.val r c = 0) ∧
  (∀ r, r < i → s.A.val r r ≠ 0) ∧ ∀ x, Solves n s.A s.b x → Solves n A b x

/-- Invariant of the loop over `j` in the back substitution, at counter `j`, for the
vector `x0` with which iteration `i` was entered. -/
def BackEntryInv (s : Sys) (x0 : Vec) (n i j : Nat) (x : Vec) : Prop :=
  x.length = n ∧ (∀ c, c ≠ i → x.val c = x0.val c) ∧
  x.val i = s.b.val i - ∑ c in Finset.range j, if i < c then s.A.val i c * x0.val c else 0

/-- Invariant of the back-substitution loop when the rows from `i` on are solved. -/
def BackInv (n : Nat) (s : Sys) (i : Nat) (x : Vec) : Prop :=
  x.length = n ∧ ∀ r, i ≤ r → r < n →
    s.A.val r r * x.val r +
      (∑ c in Finset.range n, if r < c then s.A.val r c * x.val c else 0) = s.b.val r

end Gauss

namespace Fdtd

/-! ## Basic facts about grids -/

theorem Grid.get?_eq_some_iff {g : Grid} {i j k : Nat} {v : ℚ} :
    g.get? i j k = some v ↔ ∃ p r, g[i]? = some p ∧ p[j]? = some r ∧ r[k]? = some v := by
  unfold Grid.get?
  cases hp : g[i]? with
  | none => simp
  | some p =>
    cases hr : p[j]? with
    | none => simp [hr]
    | some r => simp [hr]

theorem Grid.Shape.get?_some {N : Nat} {g : Grid} (h : g.Shape N) {i j k : Nat}
    (hi : i < N) (hj : j < N) (hk : k < N) : g.get? i j k = some (g.val i j k) := by
  obtain ⟨hlen, hrows⟩ := h
  have hi' : i < g.length := by omega
  have hp := hrows g[i] (List.getElem_mem _)
  have hj' : j < g[i].length := by omega
  have hr := hp.2 g[i][j] (List.getElem_mem _)
  have hk' : k < g[i][j].length := by omega
  have : g.get? i j k = some g[i][j][k] := by
    rw [Grid.get?_eq_some_iff]
    exact ⟨g[i], g[i][j], List.getElem?_eq_getElem hi', List.getElem?_eq_getElem hj',
      List.getElem?_eq_getElem hk'⟩
  simp [Grid.val, this]

theorem Grid.Shape.get?_none {N : Nat} {g : Grid} (h : g.Shape N) {i j k : Nat}
    (hout : N ≤ i ∨ N ≤ j ∨ N ≤ k) : g.get? i j k = none := by
  obtain ⟨hlen, hrows⟩ := h
  cases hv : g.get? i j k with
  | none => rfl
  | some v =>
    exfalso
    obtain ⟨p, r, hp, hr, hc⟩ := Grid.get?_eq_some_iff.mp hv
    have hpm : p ∈ g := List.getElem?_mem hp
    have hrm : r ∈ p := List.getElem?_mem hr
    have h1 := (List.getElem?_eq_some.mp hp).1
    have h2 := (List.getElem?_eq_some.mp hr).1
    have h3 := (List.getElem?_eq_some.mp hc).1
    have h4 := (hrows p hpm).1
    have h5 := (hrows p hpm).2 r hrm
    omega

theorem Grid.Shape.get?_isSome_iff {N : Nat} {g : Grid} (h : g.Shape N) (i j k : Nat) :
    (∃ v, g.get? i j k = some v) ↔ i < N ∧ j < N ∧ k < N := by
  constructor
  · rintro ⟨v, hv⟩
    by_contra hcon
    have : N ≤ i ∨ N ≤ j ∨ N ≤ k := by omega
    rw [h.get?_none this] at hv
    cases hv
  · rintro ⟨hi, hj, hk⟩
    exact ⟨_, h.get?_some hi hj hk⟩

theorem Grid.set?_of_get? {g : Grid} {i j k : Nat} {e : ℚ} (h : g.get? i j k = some e)
    (v : ℚ) : ∃ g', g.set? i j k v = some g' := by
  obtain ⟨p, r, hp, hr, hc⟩ := Grid.get?_eq_some_iff.mp h
  have hk := (List.getElem?_eq_some.mp hc).1
  exact ⟨g.set i (p.set j (r.set k v)), by simp [Grid.set?, hp, hr, hk]⟩

theorem Grid.set?_eq_some {g g' : Grid} {i j k : Nat} {v : ℚ}
    (h : g.set? i j k v = some g') :
    ∃ p r, g[i]? = some p ∧ p[j]? = some r ∧ k < r.length ∧
      g' = g.set i (p.set j (r.set k v)) := by
  unfold Grid.set? at h
  cases hp : g[i]? with
  | none => simp [hp] at h
  | some p =>
    cases hr : p[j]? with
    | none => simp [hp, hr] at h
    | some r =>
      simp only [hp, hr] at h
      by_cases hk : k < r.length
      · simp only [hk, if_true, Option.some.injEq] at h
        exact ⟨p, r, rfl, hr, hk, h.symm⟩
      · simp [hk] at h

theorem Grid.get?_set? {g g' : Grid} {i j k : Nat} {v : ℚ}
    (h : g.set? i j k v = some g') (x y z : Nat) :
    g'.get? x y z = if x = i ∧ y = j ∧ z = k then some v else g.get? x y z := by
  obtain ⟨p, r, hp, hr, hk, rfl⟩ := Grid.set?_eq_some h
  have hi := (List.getElem?_eq_some.mp hp).1
  have hj := (List.getElem?_eq_some.mp hr).1
  unfold Grid.get?
  by_cases hx : x = i
  · subst hx
    by_cases hy : y = j
    · subst hy
      by_cases hz : z = k
      · subst hz
        simp [hi, hj, hk]
      · have hz' : ¬ k = z := fun e => hz e.symm
        simp [hi, hj, hz, hz', List.getElem?_set, hp, hr]
    · have hy' : ¬ j = y := fun e => hy e.symm
      simp [hi, hy, hy', List.getElem?_set, hp]
  · have hx' : ¬ i = x := fun e => hx e.symm
    simp [hx, hx', List.getElem?_set]

theorem Grid.Shape.set? {N : Nat} {g g' : Grid} (hg : g.Shape N) {i j k : Nat} {v : ℚ}
    (h : g.set? i j k v = some g') : g'.Shape N := by
  obtain ⟨p, r, hp, hr, hk, rfl⟩ := Grid.set?_eq_some h
  obtain ⟨hlen, hrows⟩ := hg
  have hpm : p ∈ g := List.getElem?_mem hp
  have hrm : r ∈ p := List.getElem?_mem hr
  refine ⟨by simp [hlen], ?_⟩
  intro q hq
  rcases List.mem_or_eq_of_mem_set hq with hq | rfl
  · exact hrows q hq
  · refine ⟨by simp [(hrows p hpm).1], ?_⟩
    intro t ht
    rcases List.mem_or_eq_of_mem_set ht with ht | rfl
    · exact (hrows p hpm).2 t ht
    · simp [(hrows p hpm).2 r hrm]

/-! ## Loops -/

theorem for_each_range_inv {ε σ : Type} (body : Nat → σ → Except ε σ)
    (P : Nat → σ → Prop) (n : Nat) :
    ∀ (lo : Nat) (s : σ),
      (∀ c t, lo ≤ c → c < lo + n → P c t → ∃ t', body c t = .ok t' ∧ P (c + 1) t') →
      P lo s → ∃ s', for_each body (List.range' lo n) s = .ok s' ∧ P (lo + n) s' := by
  induction n with
  | zero =>
    intro lo s _ h0
    exact ⟨s, by simp [for_each], by simpa using h0⟩
  | succ n ih =>
    intro lo s hbody h0
    obtain ⟨t, ht, hPt⟩ := hbody lo s (Nat.le_refl _) (by omega) h0
    obtain ⟨s', hs', hP⟩ := ih (lo + 1) t
      (fun c u h1 h2 hu => hbody c u (by omega) (by omega) hu) hPt
    refine ⟨s', ?_, ?_⟩
    · simp only [List.range', for_each, ht]
      exact hs'
    · have : lo + (n + 1) = lo + 1 + n := by omega
      rw [this]
      exact hP

theorem for_each_map {ε σ ι κ : Type} (body : κ → σ → Except ε σ) (f : ι → κ) :
    ∀ (l : List ι) (s : σ),
      for_each body (l.map f) s = for_each (fun d t => body (f d) t) l s := by
  intro l
  induction l with
  | nil => intro s; rfl
  | cons a l ih =>
    intro s
    simp only [List.map, for_each]
    cases body (f a) s with
    | ok t => exact ih t
    | error e => rfl

theorem for_each_int_range_inv {ε σ : Type} (body : Int → σ → Except ε σ)
    (P : Int → σ → Prop) (lo hi : Int) (hle : lo ≤ hi) (s : σ)
    (hbody : ∀ c t, lo ≤ c → c < hi → P c t → ∃ t', body c t = .ok t' ∧ P (c + 1) t')
    (h0 : P lo s) :
    ∃ s', for_each body (int_range lo hi) s = .ok s' ∧ P hi s' := by
  have key := for_each_range_inv (fun d t => body (lo + (d : Int)) t)
    (fun d t => P (lo + (d : Int)) t) (hi - lo).toNat 0 s
    (fun c t _ h2 hP => by
      have hc : lo + ((c + 1 : Nat) : Int) = lo + (c : Int) + 1 := by push_cast; ring
      simp only [hc]
      exact hbody _ t (by omega) (by omega) hP)
    (by simpa using h0)
  obtain ⟨s', hs', hP⟩ := key
  refine ⟨s', ?_, ?_⟩
  · unfold int_range
    rw [for_each_map, List.range_eq_range']
    exact hs'
  · have : lo + ((0 + (hi - lo).toNat : Nat) : Int) = hi := by
      rw [Nat.zero_add, Int.toNat_of_nonneg (by omega)]
      ring
    rw [this] at hP
    exact hP

theorem size_minus_one_pos {n : Nat} (h : 1 ≤ n) : size_minus_one n = n - 1 := by
  unfold size_minus_one
  rw [if_neg (by omega)]

/-! ## The sweep of `update_electric_field` -/

theorem Grid.val_congr {g h : Grid} {x y z : Nat} (e : g.get? x y z = h.get? x y z) :
    g.val x y z = h.val x y z := by
  unfold Grid.val
  rw [e]

theorem swept_succ_iff {i j k x y z : Nat} (hne : ¬ (x = i ∧ y = j ∧ z = k)) :
    swept i j (k + 1) x y z ↔ swept i j k x y z := by
  unfold swept
  omega

theorem swept_row_iff {N i j x y z : Nat} (hz : interior N z) :
    swept i j (1 + (N - 1 - 1)) x y z ↔ swept i (j + 1) 1 x y z := by
  unfold interior at hz
  unfold swept
  omega

theorem swept_plane_iff {N i x y z : Nat} (hy : interior N y) (hz : interior N z) :
    swept i (1 + (N - 1 - 1)) 1 x y z ↔ swept (i + 1) 1 1 x y z := by
  unfold interior at hy hz
  unfold swept
  omega

theorem swept_start {N x y z : Nat} (h : interior3 N x y z) : ¬ swept 1 1 1 x y z := by
  unfold interior3 interior at h
  unfold swept
  omega

theorem swept_end {N x y z : Nat} (h : interior3 N x y z) :
    swept (1 + (N - 1 - 1)) 1 1 x y z := by
  unfold interior3 interior at h
  unfold swept
  omega

theorem Grid.Shape.head_length {N : Nat} {g : Grid} (h : g.Shape N) (hN : 1 ≤ N) :
    ∃ p, g[0]? = some p ∧ p.length = N ∧ ∃ r, p[0]? = some r ∧ r.length = N := by
  obtain ⟨hlen, hrows⟩ := h
  have h0 : 0 < g.length := by omega
  have hp := hrows g[0] (List.getElem_mem _)
  have h1 : 0 < g[0].length := by omega
  exact ⟨g[0], List.getElem?_eq_getElem h0, hp.1, g[0][0], List.getElem?_eq_getElem h1,
    hp.2 _ (List.getElem_mem _)⟩

theorem elec_cell_inv {s0 s : State} {N i j k : Nat} (hB : s0.magnetic_field.Shape N)
    (hi : interior N i) (hj : interior N j) (hk : interior N k)
    (h : ElecInv s0 N i j k s) :
    ∃ s', update_electric_cell i j k s = .ok s' ∧ ElecInv s0 N i j (k + 1) s' := by
  obtain ⟨hBeq, hJ, hc, hsh, hget⟩ := h
  unfold interior at hi hj hk
  have hself : ¬ swept i j k i j k := by unfold swept; omega
  have he := hsh.get?_some (i := i) (j := j) (k := k) (by omega) (by omega) (by omega)
  have hval : s.electric_field.val i j k = s0.electric_field.val i j k := by
    apply Grid.val_congr
    rw [hget i j k, if_neg (fun hh => hself hh.2)]
  have b1 := hB.get?_some (i := i) (j := j + 1) (k := k) (by omega) (by omega) (by omega)
  have b2 := hB.get?_some (i := i) (j := j - 1) (k := k) (by omega) (by omega) (by omega)
  have b3 := hB.get?_some (i := i + 1) (j := j) (k := k) (by omega) (by omega) (by omega)
  have b4 := hB.get?_some (i := i - 1) (j := j) (k := k) (by omega) (by omega) (by omega)
  obtain ⟨g, hg⟩ := Grid.set?_of_get? he
    (s.electric_field.val i j k - delta_time *
      ((s0.magnetic_field.val i (j + 1) k - s0.magnetic_field.val i (j - 1) k) / 2
        - (s0.magnetic_field.val (i + 1) j k - s0.magnetic_field.val (i - 1) j k) / 2))
  refine ⟨{ s with electric_field := g }, ?_, hBeq, hJ, hc, hsh.set? hg, ?_⟩
  · unfold update_electric_cell
    simp only [he, hBeq, b1, b2, b3, b4, hg]
  · intro x y z
    show g.get? x y z = _
    rw [Grid.get?_set? hg x y z]
    by_cases hxyz : x = i ∧ y = j ∧ z = k
    · obtain ⟨rfl, rfl, rfl⟩ := hxyz
      have hsw : swept x y (z + 1) x y z := by unfold swept; omega
      have hint : interior3 N x y z := ⟨hi, hj, hk⟩
      rw [if_pos ⟨rfl, rfl, rfl⟩, if_pos ⟨hint, hsw⟩, hval]
      rfl
    · rw [if_neg hxyz, hget x y z]
      simp only [swept_succ_iff hxyz]

theorem elec_row_inv {s0 s : State} {N i j : Nat} (hB : s0.magnetic_field.Shape N)
    (hi : interior N i) (hj : interior N j) (h : ElecInv s0 N i j 1 s) :
    ∃ s', update_electric_row i j s = .ok s' ∧ ElecInv s0 N i (j + 1) 1 s' := by
  have hN : 1 ≤ N := by unfold interior at hi; omega
  obtain ⟨s', hs', hinv⟩ := for_each_range_inv (update_electric_cell i j)
    (fun k s => ElecInv s0 N i j k s) (N - 1 - 1) 1 s
    (fun c t h1 h2 hP => elec_cell_inv hB hi hj ⟨h1, by omega⟩ hP) h
  obtain ⟨p, hp, _, r, hr, hrl⟩ := h.2.2.2.1.head_length hN
  refine ⟨s', by simp only [update_electric_row, hp, hr, hrl, size_minus_one_pos hN, hs'], ?_⟩
  obtain ⟨h1, h2, h3, h4, h5⟩ := hinv
  refine ⟨h1, h2, h3, h4, fun x y z => ?_⟩
  rw [h5 x y z]
  by_cases hint : interior3 N x y z
  · simp only [swept_row_iff hint.2.2]
  · simp [hint]

theorem elec_plane_inv {s0 s : State} {N i : Nat} (hB : s0.magnetic_field.Shape N)
    (hi : interior N i) (h : ElecInv s0 N i 1 1 s) :
    ∃ s', update_electric_plane i s = .ok s' ∧ ElecInv s0 N (i + 1) 1 1 s' := by
  have hN : 1 ≤ N := by unfold interior at hi; omega
  obtain ⟨s', hs', hinv⟩ := for_each_range_inv (update_electric_row i)
    (fun j s => ElecInv s0 N i j 1 s) (N - 1 - 1) 1 s
    (fun c t h1 h2 hP => elec_row_inv hB hi ⟨h1, by omega⟩ hP) h
  obtain ⟨p, hp, hpl, _⟩ := h.2.2.2.1.head_length hN
  refine ⟨s', by simp only [update_electric_plane, hp, hpl, size_minus_one_pos hN, hs'], ?_⟩
  obtain ⟨h1, h2, h3, h4, h5⟩ := hinv
  refine ⟨h1, h2, h3, h4, fun x y z => ?_⟩
  rw [h5 x y z]
  by_cases hint : interior3 N x y z
  · simp only [swept_plane_iff hint.2.1 hint.2.2]
  · simp [hint]

/-- What `update_electric_field` does to a well-shaped state: it returns, writes only
the electric grid, and each interior cell receives its stencil value computed from the
fields at the start of the call. -/
theorem update_electric_field_spec {N : Nat} {s : State} (hN : 1 ≤ N)
    (hs : s.WellShaped N) :
    ∃ s', update_electric_field s = .ok s' ∧
      s'.magnetic_field = s.magnetic_field ∧ s'.current_density = s.current_density ∧
      s'.cout = s.cout ∧ s'.electric_field.Shape N ∧
      ∀ x y z, s'.electric_field.get? x y z =
        if interior3 N x y z then some (elec_new s x y z) else s.electric_field.get? x y z := by
  obtain ⟨hE, hB, hJ⟩ := hs
  have hstart : ElecInv s N 1 1 1 s :=
    ⟨rfl, rfl, rfl, hE, fun x y z => by
      by_cases hint : interior3 N x y z
      · rw [if_neg (fun hh => swept_start hint hh.2)]
      · rw [if_neg (fun hh => hint hh.1)]⟩
  obtain ⟨s', hs', hinv⟩ := for_each_range_inv update_electric_plane
    (fun i t => ElecInv s N i 1 1 t) (N - 1 - 1) 1 s
    (fun c t h1 h2 hP => elec_plane_inv hB ⟨h1, by omega⟩ hP) hstart
  refine ⟨s', ?_, hinv.1, hinv.2.1, hinv.2.2.1, hinv.2.2.2.1, fun x y z => ?_⟩
  · unfold update_electric_field
    rw [hE.1, size_minus_one_pos hN]
    exact hs'
  · rw [hinv.2.2.2.2 x y z]
    by_cases hint : interior3 N x y z
    · rw [if_pos ⟨hint, swept_end hint⟩, if_pos hint]
    · rw [if_neg (fun hh => hint hh.1), if_neg hint]

/-! ## The sweep of `update_magnetic_field` -/

theorem mag_cell_inv {s0 s : State} {N i j k : Nat} (hE : s0.electric_field.Shape N)
    (hJ0 : s0.current_density.Shape N)
    (hi : interior N i) (hj : interior N j) (hk : interior N k)
    (h : MagInv s0 N i j k s) :
    ∃ s', update_magnetic_cell i j k s = .ok s' ∧ MagInv s0 N i j (k + 1) s' := by
  obtain ⟨hEeq, hJ, hc, hsh, hget⟩ := h
  unfold interior at hi hj hk
  have hself : ¬ swept i j k i j k := by unfold swept; omega
  have hb := hsh.get?_some (i := i) (j := j) (k := k) (by omega) (by omega) (by omega)
  have hval : s.magnetic_field.val i j k = s0.magnetic_field.val i j k := by
    apply Grid.val_congr
    rw [hget i j k, if_neg (fun hh => hself hh.2)]
  have e1 := hE.get?_some (i := i) (j := j + 1) (k := k) (by omega) (by omega) (by omega)
  have e2 := hE.get?_some (i := i) (j := j - 1) (k := k) (by omega) (by omega) (by omega)
  have e3 := hE.get?_some (i := i + 1) (j := j) (k := k) (by omega) (by omega) (by omega)
  have e4 := hE.get?_some (i := i - 1) (j := j) (k := k) (by omega) (by omega) (by omega)
  have c0 := hJ0.get?_some (i := i) (j := j) (k := k) (by omega) (by omega) (by omega)
  obtain ⟨g, hg⟩ := Grid.set?_of_get? hb
    (s.magnetic_field.val i j k + delta_time *
      ((s0.electric_field.val i (j + 1) k - s0.electric_field.val i (j - 1) k) / 2
        - (s0.electric_field.val (i + 1) j k - s0.electric_field.val (i - 1) j k) / 2
        + mu_0 * s0.current_density.val i j k))
  refine ⟨{ s with magnetic_field := g }, ?_, hEeq, hJ, hc, hsh.set? hg, ?_⟩
  · unfold update_magnetic_cell
    simp only [hb, hEeq, hJ, e1, e2, e3, e4, c0, hg]
  · intro x y z
    show g.get? x y z = _
    rw [Grid.get?_set? hg x y z]
    by_cases hxyz : x = i ∧ y = j ∧ z = k
    · obtain ⟨rfl, rfl, rfl⟩ := hxyz
      have hsw : swept x y (z + 1) x y z := by unfold swept; omega
      have hint : interior3 N x y z := ⟨hi, hj, hk⟩
      rw [if_pos ⟨rfl, rfl, rfl⟩, if_pos ⟨hint, hsw⟩, hval]
      rfl
    · rw [if_neg hxyz, hget x y z]
      simp only [swept_succ_iff hxyz]

theorem mag_row_inv {s0 s : State} {N i j : Nat} (hE : s0.electric_field.Shape N)
    (hJ0 : s0.current_density.Shape N)
    (hi : interior N i) (hj : interior N j) (h : MagInv s0 N i j 1 s) :
    ∃ s', update_magnetic_row i j s = .ok s' ∧ MagInv s0 N i (j + 1) 1 s' := by
  have hN : 1 ≤ N := by unfold interior at hi; omega
  obtain ⟨s', hs', hinv⟩ := for_each_range_inv (update_magnetic_cell i j)
    (fun k s => MagInv s0 N i j k s) (N - 1 - 1) 1 s
    (fun c t h1 h2 hP => mag_cell_inv hE hJ0 hi hj ⟨h1, by omega⟩ hP) h
  obtain ⟨p, hp, _, r, hr, hrl⟩ := h.2.2.2.1.head_length hN
  refine ⟨s', by simp only [update_magnetic_row, hp, hr, hrl, size_minus_one_pos hN, hs'], ?_⟩
  obtain ⟨h1, h2, h3, h4, h5⟩ := hinv
  refine ⟨h1, h2, h3, h4, fun x y z => ?_⟩
  rw [h5 x y z]
  by_cases hint : interior3 N x y z
  · simp only [swept_row_iff hint.2.2]
  · simp [hint]

theorem mag_plane_inv {s0 s : State} {N i : Nat} (hE : s0.electric_field.Shape N)
    (hJ0 : s0.current_density.Shape N)
    (hi : interior N i) (h : MagInv s0 N i 1 1 s) :
    ∃ s', update_magnetic_plane i s = .ok s' ∧ MagInv s0 N (i + 1) 1 1 s' := by
  have hN : 1 ≤ N := by unfold interior at hi; omega
  obtain ⟨s', hs', hinv⟩ := for_each_range_inv (update_magnetic_row i)
    (fun j s => MagInv s0 N i j 1 s) (N - 1 - 1) 1 s
    (fun c t h1 h2 hP => mag_row_inv hE hJ0 hi ⟨h1, by omega⟩ hP) h
  obtain ⟨p, hp, hpl, _⟩ := h.2.2.2.1.head_length hN
  refine ⟨s', by simp only [update_magnetic_plane, hp, hpl, size_minus_one_pos hN, hs'], ?_⟩
  obtain ⟨h1, h2, h3, h4, h5⟩ := hinv
  refine ⟨h1, h2, h3, h4, fun x y z => ?_⟩
  rw [h5 x y z]
  by_cases hint : interior3 N x y z
  · simp only [swept_plane_iff hint.2.1 hint.2.2]
  · simp [hint]

/-- What `update_magnetic_field` does to a well-shaped state: it returns, writes only
the magnetic grid, and each interior cell receives its stencil value computed from the
fields at the start of the call. -/
theorem update_magnetic_field_spec {N : Nat} {s : State} (hN : 1 ≤ N)
    (hs : s.WellShaped N) :
    ∃ s', update_magnetic_field s = .ok s' ∧
      s'.electric_field = s.electric_field ∧ s'.current_density = s.current_density ∧
      s'.cout = s.cout ∧ s'.magnetic_field.Shape N ∧
      ∀ x y z, s'.magnetic_field.get? x y z =
        if interior3 N x y z then some (mag_new s x y z) else s.magnetic_field.get? x y z := by
  obtain ⟨hE, hB, hJ⟩ := hs
  have hstart : MagInv s N 1 1 1 s :=
    ⟨rfl, rfl, rfl, hB, fun x y z => by
      by_cases hint : interior3 N x y z
      · rw [if_neg (fun hh => swept_start hint hh.2)]
      · rw [if_neg (fun hh => hint hh.1)]⟩
  obtain ⟨s', hs', hinv⟩ := for_each_range_inv update_magnetic_plane
    (fun i t => MagInv s N i 1 1 t) (N - 1 - 1) 1 s
    (fun c t h1 h2 hP => mag_plane_inv hE hJ ⟨h1, by omega⟩ hP) hstart
  refine ⟨s', ?_, hinv.1, hinv.2.1, hinv.2.2.1, hinv.2.2.2.1, fun x y z => ?_⟩
  · unfold update_magnetic_field
    rw [hB.1, size_minus_one_pos hN]
    exact hs'
  · rw [hinv.2.2.2.2 x y z]
    by_cases hint : interior3 N x y z
    · rw [if_pos ⟨hint, swept_end hint⟩, if_pos hint]
    · rw [if_neg (fun hh => hint hh.1), if_neg hint]

/-! ## Extensionality and the zero grid -/

theorem Grid.get?_eq_getElem {g : Grid} {i j k : Nat} (hi : i < g.length)
    (hj : j < g[i].length) (hk : k < g[i][j].length) :
    g.get? i j k = some g[i][j][k] := by
  rw [Grid.get?_eq_some_iff]
  exact ⟨g[i], g[i][j], List.getElem?_eq_getElem hi, List.getElem?_eq_getElem hj,
    List.getElem?_eq_getElem hk⟩

theorem Grid.ext_of_shape {N : Nat} {g h : Grid} (hg : g.Shape N) (hh : h.Shape N)
    (e : ∀ x y z, x < N → y < N → z < N → g.get? x y z = h.get? x y z) : g = h := by
  obtain ⟨gl, grows⟩ := hg
  obtain ⟨hl, hrows⟩ := hh
  apply List.ext_getElem (by omega)
  intro i hi1 hi2
  have gp := grows g[i] (List.getElem_mem _)
  have hp := hrows h[i] (List.getElem_mem _)
  apply List.ext_getElem (by omega)
  intro j hj1 hj2
  have gr := gp.2 g[i][j] (List.getElem_mem _)
  have hr := hp.2 h[i][j] (List.getElem_mem _)
  apply List.ext_getElem (by omega)
  intro k hk1 hk2
  have := e i j k (by omega) (by omega) (by omega)
  rw [Grid.get?_eq_getElem hi1 hj1 hk1, Grid.get?_eq_getElem hi2 hj2 hk2] at this
  exact Option.some.inj this

theorem zero_grid_shape (N : Nat) : (zero_grid N).Shape N := by
  unfold zero_grid Grid.Shape
  refine ⟨by simp, ?_⟩
  intro p hp
  rw [List.eq_of_mem_replicate hp]
  refine ⟨by simp, ?_⟩
  intro r hr
  rw [List.eq_of_mem_replicate hr]
  simp

theorem zero_state_wellShaped (N : Nat) : (zero_state N).WellShaped N :=
  ⟨zero_grid_shape N, zero_grid_shape N, zero_grid_shape N⟩

theorem zero_grid_val (N x y z : Nat) : (zero_grid N).val x y z = 0 := by
  unfold Grid.val
  cases h : (zero_grid N).get? x y z with
  | none => rfl
  | some v =>
    obtain ⟨p, r, hp, hr, hv⟩ := Grid.get?_eq_some_iff.mp h
    have h1 := List.eq_of_mem_replicate (List.getElem?_mem hp)
    subst h1
    have h2 := List.eq_of_mem_replicate (List.getElem?_mem hr)
    subst h2
    have h3 := List.eq_of_mem_replicate (List.getElem?_mem hv)
    simp [h3]

theorem zero_grid_get? {N x y z : Nat} (hx : x < N) (hy : y < N) (hz : z < N) :
    (zero_grid N).get? x y z = some 0 := by
  rw [(zero_grid_shape N).get?_some hx hy hz, zero_grid_val]

/-! ## The leakage scan -/

theorem for_each_sum {ε ι : Type} (body : ι → ℚ → Except ε ℚ) (f : ι → ℚ) :
    ∀ (l : List ι) (t : ℚ), (∀ i ∈ l, ∀ u, body i u = .ok (u + f i)) →
      for_each body l t = .ok (t + (l.map f).sum) := by
  intro l
  induction l with
  | nil => intro t _; simp [for_each]
  | cons a l ih =>
    intro t h
    simp only [for_each, h a (List.mem_cons_self _ _)]
    rw [ih (t + f a) (fun i hi u => h i (List.mem_cons_of_mem _ hi) u)]
    simp [add_assoc]

theorem sum_map_range (f : ℕ → ℚ) (n : ℕ) :
    ((List.range n).map f).sum = ∑ i in Finset.range n, f i := by
  induction n with
  | zero => simp
  | succ n ih => simp [List.range_succ, Finset.sum_range_succ, ih]

/-- On an electric grid of shape `N × N × N` the scan returns, and its value is the
sum over the edge of the depth slice `k = 0`. -/
theorem analyze_em_leakage_spec {N : Nat} {s : State} (hE : s.electric_field.Shape N) :
    analyze_em_leakage s = .ok (scan_sum N s.electric_field) := by
  unfold analyze_em_leakage
  rw [hE.1]
  have hrow : ∀ i ∈ List.range N, ∀ u, analyze_row s i u = .ok (u +
      ∑ j in Finset.range N,
        if i = 0 ∨ i = N - 1 ∨ j = 0 ∨ j = N - 1 then |s.electric_field.val i j 0| else 0) := by
    intro i hi u
    have hiN : i < N := List.mem_range.mp hi
    have hN : 1 ≤ N := by omega
    obtain ⟨p, hp, hpl, _⟩ := hE.head_length hN
    unfold analyze_row
    simp only [hp, hpl, hE.1, size_minus_one_pos hN]
    rw [for_each_sum _ (fun j =>
      if i = 0 ∨ i = N - 1 ∨ j = 0 ∨ j = N - 1 then |s.electric_field.val i j 0| else 0),
      sum_map_range]
    intro j hj t
    have hjN : j < N := List.mem_range.mp hj
    rw [hE.get?_some hiN hjN (by omega)]
    split_ifs <;> simp
  rw [for_each_sum _ _ _ _ hrow, sum_map_range, zero_add]
  rfl

theorem scan_sum_nonneg (N : Nat) (g : Grid) : 0 ≤ scan_sum N g := by
  unfold scan_sum
  apply Finset.sum_nonneg
  intro i _
  apply Finset.sum_nonneg
  intro j _
  split_ifs
  · exact abs_nonneg _
  · exact le_refl _

/-! ## One time step -/

/-- One iteration `update_electric_field(); update_magnetic_field();` on a well-shaped
state returns; the electric grid is advanced from the fields before the step, and the
magnetic grid from the electric grid the same step has just advanced. -/
theorem fdtd_step_spec {N : Nat} {s : State} (hN : 1 ≤ N) (hs : s.WellShaped N) :
    ∃ s', fdtd_step s = .ok s' ∧ s'.WellShaped N ∧
      s'.current_density = s.current_density ∧ s'.cout = s.cout ∧
      (∀ x y z, s'.electric_field.get? x y z =
        if interior3 N x y z then some (elec_new s x y z)
        else s.electric_field.get? x y z) ∧
      (∀ x y z, s'.magnetic_field.get? x y z =
        if interior3 N x y z then
          some (mag_new { s with electric_field := s'.electric_field } x y z)
        else s.magnetic_field.get? x y z) := by
  obtain ⟨s1, h1, hB1, hJ1, hc1, hE1, hget1⟩ := update_electric_field_spec hN hs
  have hs1 : s1.WellShaped N := ⟨hE1, hB1 ▸ hs.2.1, hJ1 ▸ hs.2.2⟩
  obtain ⟨s2, h2, hE2, hJ2, hc2, hB2, hget2⟩ := update_magnetic_field_spec hN hs1
  refine ⟨s2, ?_, ⟨hE2 ▸ hE1, hB2, hJ2 ▸ hs1.2.2⟩, by rw [hJ2, hJ1], by rw [hc2, hc1], ?_, ?_⟩
  · unfold fdtd_step
    rw [h1]
    exact h2
  · intro x y z
    rw [hE2]
    exact hget1 x y z
  · intro x y z
    rw [hget2 x y z, hB1, hE2]
    have : mag_new s1 x y z = mag_new { s with electric_field := s1.electric_field } x y z := by
      unfold mag_new
      simp only [hB1, hJ1]
    rw [this]

/-! ## Claims -/

/-- C1: on an allocated `N × N × N` volume, `update_electric_field` and
`update_magnetic_field` both return and leave every cell with index `0` or `N - 1` on
at least one axis unchanged in the electric and in the magnetic grid; a cell whose
electric or magnetic value differs after the call has all three indices in
`1 .. N - 2`. -/
theorem update_fields_leave_boundary_unchanged (N : Nat) (s : State) (hN : 1 ≤ N)
    (hs : s.WellShaped N) :
    (∃ s', update_electric_field s = .ok s' ∧
      (∀ x y z, x < N → y < N → z < N →
        (x = 0 ∨ x = N - 1 ∨ y = 0 ∨ y = N - 1 ∨ z = 0 ∨ z = N - 1) →
        s'.electric_field.get? x y z = s.electric_field.get? x y z ∧
        s'.magnetic_field.get? x y z = s.magnetic_field.get? x y z) ∧
      (∀ x y z, (s'.electric_field.get? x y z ≠ s.electric_field.get? x y z ∨
          s'.magnetic_field.get? x y z ≠ s.magnetic_field.get? x y z) →
        (1 ≤ x ∧ x ≤ N - 2) ∧ (1 ≤ y ∧ y ≤ N - 2) ∧ (1 ≤ z ∧ z ≤ N - 2))) ∧
    (∃ s', update_magnetic_field s = .ok s' ∧
      (∀ x y z, x < N → y < N → z < N →
        (x = 0 ∨ x = N - 1 ∨ y = 0 ∨ y = N - 1 ∨ z = 0 ∨ z = N - 1) →
        s'.electric_field.get? x y z = s.electric_field.get? x y z ∧
        s'.magnetic_field.get? x y z = s.magnetic_field.get? x y z) ∧
      (∀ x y z, (s'.electric_field.get? x y z ≠ s.electric_field.get? x y z ∨
          s'.magnetic_field.get? x y z ≠ s.magnetic_field.get? x y z) →
        (1 ≤ x ∧ x ≤ N - 2) ∧ (1 ≤ y ∧ y ≤ N - 2) ∧ (1 ≤ z ∧ z ≤ N - 2))) := by
  have key : ∀ x y z, ¬ interior3 N x y z ∨
      ((1 ≤ x ∧ x ≤ N - 2) ∧ (1 ≤ y ∧ y ≤ N - 2) ∧ (1 ≤ z ∧ z ≤ N - 2)) := by
    intro x y z
    unfold interior3 interior
    omega
  have bd : ∀ x y z, (x = 0 ∨ x = N - 1 ∨ y = 0 ∨ y = N - 1 ∨ z = 0 ∨ z = N - 1) →
      ¬ interior3 N x y z := by
    intro x y z h
    unfold interior3 interior
    omega
  constructor
  · obtain ⟨s', h1, hB, _, _, _, hget⟩ := update_electric_field_spec hN hs
    refine ⟨s', h1, ?_, ?_⟩
    · intro x y z _ _ _ hb
      rw [hget x y z, if_neg (bd x y z hb), hB]
      exact ⟨rfl, rfl⟩
    · intro x y z hne
      rcases key x y z with hni | hin
      · exfalso
        rw [hget x y z, if_neg hni, hB] at hne
        rcases hne with h | h <;> exact h rfl
      · exact hin
  · obtain ⟨s', h1, hE, _, _, _, hget⟩ := update_magnetic_field_spec hN hs
    refine ⟨s', h1, ?_, ?_⟩
    · intro x y z _ _ _ hb
      rw [hget x y z, if_neg (bd x y z hb), hE]
      exact ⟨rfl, rfl⟩
    · intro x y z hne
      rcases key x y z with hni | hin
      · exfalso
        rw [hget x y z, if_neg hni, hE] at hne
        rcases hne with h | h <;> exact h rfl
      · exact hin

/-- Witness for C1: the theorem applied to the `3 × 3 × 3` state `demo3`, read off at
the corner cell `(0, 0, 0)` for the electric update. -/
theorem update_fields_leave_boundary_unchanged_witness :
    (1 ≤ 3 ∧ demo3.WellShaped 3) ∧
    ∃ s', update_electric_field demo3 = .ok s' ∧
      s'.electric_field.get? 0 0 0 = demo3.electric_field.get? 0 0 0 ∧
      s'.magnetic_field.get? 0 0 0 = demo3.magnetic_field.get? 0 0 0 := by
  refine ⟨⟨by decide, by decide⟩, ?_⟩
  obtain ⟨s', h, hb, _⟩ :=
    (update_fields_leave_boundary_unchanged 3 demo3 (by decide) (by decide)).1
  exact ⟨s', h, hb 0 0 0 (by decide) (by decide) (by decide) (Or.inl rfl)⟩

theorem State.ext_fields {s t : State} (h1 : s.electric_field = t.electric_field)
    (h2 : s.magnetic_field = t.magnetic_field) (h3 : s.current_density = t.current_density)
    (h4 : s.cout = t.cout) : s = t := by
  cases s
  cases t
  simp only [State.mk.injEq]
  exact ⟨h1, h2, h3, h4⟩

theorem fdtd_step_zero {N : Nat} (hN : 1 ≤ N) :
    fdtd_step (zero_state N) = .ok (zero_state N) := by
  obtain ⟨s', h, hws, hJ, hc, hE, hB⟩ := fdtd_step_spec hN (zero_state_wellShaped N)
  have eE : s'.electric_field = zero_grid N := by
    apply Grid.ext_of_shape hws.1 (zero_grid_shape N)
    intro x y z hx hy hz
    rw [hE x y z, zero_grid_get? hx hy hz]
    split_ifs
    · simp [elec_new, zero_state, zero_grid_val]
    · exact zero_grid_get? hx hy hz
  have eB : s'.magnetic_field = zero_grid N := by
    apply Grid.ext_of_shape hws.2.1 (zero_grid_shape N)
    intro x y z hx hy hz
    rw [hB x y z, zero_grid_get? hx hy hz, eE]
    split_ifs
    · simp [mag_new, zero_state, zero_grid_val]
    · exact zero_grid_get? hx hy hz
  rw [h]
  exact congrArg _ (State.ext_fields eE eB hJ hc)

theorem iterate_steps_zero {N : Nat} (hN : 1 ≤ N) (n : Nat) :
    iterate_steps n (zero_state N) = .ok (zero_state N) := by
  induction n with
  | zero => rfl
  | succ n ih =>
    simp only [iterate_steps, fdtd_step_zero hN]
    exact ih

theorem scan_sum_zero_grid (N : Nat) : scan_sum N (zero_grid N) = 0 := by
  simp [scan_sum, zero_grid_val]

/-- C2: for `N ≥ 3` and `n ≥ 1`, `n` successive iterations of
(`update_electric_field`, `update_magnetic_field`) from the all-zero volume return,
every electric and magnetic cell is still exactly `0`, and `analyze_em_leakage` then
returns `0`. -/
theorem zero_fields_stay_zero (N n : Nat) (hN : 3 ≤ N) (hn : 1 ≤ n) :
    ∃ s', iterate_steps n (zero_state N) = .ok s' ∧
      (∀ x y z, x < N → y < N → z < N →
        s'.electric_field.get? x y z = some 0 ∧ s'.magnetic_field.get? x y z = some 0) ∧
      analyze_em_leakage s' = .ok 0 := by
  have _ := hn
  refine ⟨zero_state N, iterate_steps_zero (by omega) n, ?_, ?_⟩
  · intro x y z hx hy hz
    exact ⟨zero_grid_get? hx hy hz, zero_grid_get? hx hy hz⟩
  · rw [analyze_em_leakage_spec (zero_state_wellShaped N).1]
    exact congrArg _ (scan_sum_zero_grid N)

/-- Witness for C2: the end-to-end scenario `N = 12`, five steps. -/
theorem zero_fields_stay_zero_witness :
    (3 ≤ 12 ∧ 1 ≤ 5) ∧
    ∃ s', iterate_steps 5 (zero_state 12) = .ok s' ∧
      (∀ x y z, x < 12 → y < 12 → z < 12 →
        s'.electric_field.get? x y z = some 0 ∧ s'.magnetic_field.get? x y z = some 0) ∧
      analyze_em_leakage s' = .ok 0 :=
  ⟨⟨by decide, by decide⟩, zero_fields_stay_zero 12 5 (by decide) (by decide)⟩

/-- C3 (as amended): on an `N × N × N` electric field `analyze_em_leakage` returns the
sum of `|E[i][j][0]|` over the pairs `(i, j)` with `i` or `j` equal to `0` or `N - 1`,
that is over the edge of the single depth slice `k = 0`. -/
theorem analyze_em_leakage_scans_one_slice (N : Nat) (s : State)
    (hE : s.electric_field.Shape N) :
    analyze_em_leakage s = .ok (∑ i in Finset.range N, ∑ j in Finset.range N,
      if i = 0 ∨ i = N - 1 ∨ j = 0 ∨ j = N - 1 then |s.electric_field.val i j 0| else 0) :=
  analyze_em_leakage_spec hE

/-- Witness for C3 (as amended): the theorem at `demo3`, whose slice edge holds
`E[0][0][0] = 2` and `E[1][2][0] = -4`. -/
theorem analyze_em_leakage_scans_one_slice_witness :
    demo3.electric_field.Shape 3 ∧ analyze_em_leakage demo3 = .ok 6 := by
  refine ⟨by decide, ?_⟩
  rw [analyze_em_leakage_scans_one_slice 3 demo3 (by decide)]
  simp [Finset.sum_range_succ, demo3, Grid.val, Grid.get?]
  norm_num

/-- Counterexample to C3 as stated: in the `2 × 2 × 2` state `shell_cex` the only
non-zero electric cell is the shell cell `(0, 0, 1)`; the full-shell sum is `1`, and
`analyze_em_leakage` returns `0`. -/
theorem analyze_em_leakage_not_full_shell :
    shell_cex.WellShaped 2 ∧ shell_sum 2 shell_cex.electric_field = 1 ∧
      analyze_em_leakage shell_cex = .ok 0 := by
  refine ⟨by decide, ?_, ?_⟩
  · simp [shell_sum, Finset.sum_range_succ, shell_cex, Grid.val, Grid.get?]
  · rw [analyze_em_leakage_spec (N := 2) (by decide)]
    simp [scan_sum, Finset.sum_range_succ, shell_cex, Grid.val, Grid.get?]

/-- C10: on an `N × N × N` electric field `analyze_em_leakage` returns a value, and
that value is `≥ 0`. -/
theorem analyze_em_leakage_nonneg (N : Nat) (s : State) (hE : s.electric_field.Shape N) :
    ∃ v, analyze_em_leakage s = .ok v ∧ 0 ≤ v :=
  ⟨_, analyze_em_leakage_spec hE, scan_sum_nonneg N _⟩

/-- Witness for C10: the theorem at `demo3`. -/
theorem analyze_em_leakage_nonneg_witness :
    demo3.electric_field.Shape 3 ∧ ∃ v, analyze_em_leakage demo3 = .ok v ∧ 0 ≤ v :=
  ⟨by decide, analyze_em_leakage_nonneg 3 demo3 (by decide)⟩

/-- C4 (as amended): one time step on a well-shaped state returns; each interior
electric cell is advanced from the magnetic values before the step, and each interior
magnetic cell is advanced from the electric values *after* that same step's electric
update (`s'.electric_field` on the right-hand side) and the current density; every
other cell, the current density and the console keep their values. -/
theorem fdtd_step_uses_advanced_electric_field (N : Nat) (s : State) (hN : 1 ≤ N)
    (hs : s.WellShaped N) :
    ∃ s', fdtd_step s = .ok s' ∧
      (∀ x y z, interior3 N x y z →
        s'.electric_field.get? x y z = some (s.electric_field.val x y z - delta_time *
          ((s.magnetic_field.val x (y + 1) z - s.magnetic_field.val x (y - 1) z) / 2
            - (s.magnetic_field.val (x + 1) y z - s.magnetic_field.val (x - 1) y z) / 2)) ∧
        s'.magnetic_field.get? x y z = some (s.magnetic_field.val x y z + delta_time *
          ((s'.electric_field.val x (y + 1) z - s'.electric_field.val x (y - 1) z) / 2
            - (s'.electric_field.val (x + 1) y z - s'.electric_field.val (x - 1) y z) / 2
            + mu_0 * s.current_density.val x y z))) ∧
      (∀ x y z, ¬ interior3 N x y z →
        s'.electric_field.get? x y z = s.electric_field.get? x y z ∧
        s'.magnetic_field.get? x y z = s.magnetic_field.get? x y z) ∧
      s'.current_density = s.current_density ∧ s'.cout = s.cout := by
  obtain ⟨s', h, _, hJ, hc, hE, hB⟩ := fdtd_step_spec hN hs
  refine ⟨s', h, ?_, ?_, hJ, hc⟩
  · intro x y z hint
    refine ⟨?_, ?_⟩
    · rw [hE x y z, if_pos hint]
      rfl
    · rw [hB x y z, if_pos hint]
      rfl
  · intro x y z hint
    exact ⟨by rw [hE x y z, if_neg hint], by rw [hB x y z, if_neg hint]⟩

/-- Witness for C4 (as amended): the theorem at `demo3`, read off at the interior cell
`(1, 1, 1)` of the electric grid. -/
theorem fdtd_step_uses_advanced_electric_field_witness :
    (1 ≤ 3 ∧ demo3.WellShaped 3) ∧
    ∃ s', fdtd_step demo3 = .ok s' ∧ s'.electric_field.get? 1 1 1 = some (13 / 2) := by
  refine ⟨⟨by decide, by decide⟩, ?_⟩
  obtain ⟨s', h, hint, _⟩ :=
    fdtd_step_uses_advanced_electric_field 3 demo3 (by decide) (by decide)
  refine ⟨s', h, ?_⟩
  rw [(hint 1 1 1 (by decide)).1]
  simp [demo3, Grid.val, Grid.get?, delta_time]
  norm_num

/-- Counterexample to C4 as stated: on the `4 × 4 × 4` state `leapfrog_cex` the step of
the program and the step computed from the pre-step snapshot both return and differ.
The electric update moves `E[1][1][1]` from `0` to `1`; the program's magnetic update
reads that new value and sets `B[1][2][1] = -1 / (2 * 10 ^ 9)`, where the snapshot
step leaves `B[1][2][1] = 0`. -/
theorem fdtd_step_differs_from_snapshot_step :
    leapfrog_cex.WellShaped 4 ∧
    (∃ s', fdtd_step leapfrog_cex = .ok s' ∧ s'.electric_field.get? 1 1 1 = some 1 ∧
      s'.magnetic_field.get? 1 2 1 = some (-1 / 2000000000)) ∧
    (∃ t, snapshot_step leapfrog_cex = .ok t ∧ t.electric_field.get? 1 1 1 = some 1 ∧
      t.magnetic_field.get? 1 2 1 = some 0) ∧
    fdtd_step leapfrog_cex ≠ snapshot_step leapfrog_cex := by
  refine ⟨by decide, ?_, ?_, by decide!⟩
  · have key : (match fdtd_step leapfrog_cex with
        | .ok s => (s.electric_field.get? 1 1 1, s.magnetic_field.get? 1 2 1)
        | .error _ => (none, none)) = (some 1, some (-1 / 2000000000)) := by decide!
    revert key
    cases fdtd_step leapfrog_cex with
    | ok s =>
      intro key
      simp only [Prod.mk.injEq] at key
      exact ⟨s, rfl, key.1, key.2⟩
    | error e =>
      intro key
      simp at key
  · have key : (match snapshot_step leapfrog_cex with
        | .ok s => (s.electric_field.get? 1 1 1, s.magnetic_field.get? 1 2 1)
        | .error _ => (none, none)) = (some 1, some 0) := by decide!
    revert key
    cases snapshot_step leapfrog_cex with
    | ok s =>
      intro key
      simp only [Prod.mk.injEq] at key
      exact ⟨s, rfl, key.1, key.2⟩
    | error e =>
      intro key
      simp at key

/-! ## Loops that may fault -/

theorem Post.mono {ε σ : Type} {P Q : σ → Prop} {F : ε → Prop} {r : Except ε σ}
    (h : Post P F r) (hPQ : ∀ s, P s → Q s) : Post Q F r := by
  cases r with
  | ok s => exact hPQ s h
  | error e => exact h

theorem for_each_range_post {ε σ : Type} (body : Nat → σ → Except ε σ)
    (P : Nat → σ → Prop) (F : ε → Prop) (n : Nat) :
    ∀ (lo : Nat) (s : σ),
      (∀ c t, lo ≤ c → c < lo + n → P c t → Post (P (c + 1)) F (body c t)) →
      P lo s → Post (P (lo + n)) F (for_each body (List.range' lo n) s) := by
  induction n with
  | zero =>
    intro lo s _ h0
    simpa [for_each, Post] using h0
  | succ n ih =>
    intro lo s hbody h0
    have h1 := hbody lo s (Nat.le_refl _) (by omega) h0
    simp only [List.range', for_each]
    cases hb : body lo s with
    | ok t =>
      rw [hb] at h1
      have := ih (lo + 1) t (fun c u h1 h2 hu => hbody c u (by omega) (by omega) hu) h1
      have e : lo + (n + 1) = lo + 1 + n := by omega
      rw [e]
      exact this
    | error e =>
      rw [hb] at h1
      exact h1

theorem for_each_int_range_post {ε σ : Type} (body : Int → σ → Except ε σ)
    (P : Int → σ → Prop) (F : ε → Prop) (lo hi : Int) (hle : lo ≤ hi) (s : σ)
    (hbody : ∀ c t, lo ≤ c → c < hi → P c t → Post (P (c + 1)) F (body c t))
    (h0 : P lo s) :
    Post (P hi) F (for_each body (int_range lo hi) s) := by
  have key := for_each_range_post (fun d t => body (lo + (d : Int)) t)
    (fun d t => P (lo + (d : Int)) t) F (hi - lo).toNat 0 s
    (fun c t _ h2 hP => by
      have hc : lo + ((c + 1 : Nat) : Int) = lo + (c : Int) + 1 := by push_cast; ring
      simp only [hc]
      exact hbody _ t (by omega) (by omega) hP)
    (by simpa using h0)
  have e : lo + ((0 + (hi - lo).toNat : Nat) : Int) = hi := by
    rw [Nat.zero_add, Int.toNat_of_nonneg (by omega)]
    ring
  simp only [e] at key
  unfold int_range
  rw [for_each_map, List.range_eq_range']
  exact key

theorem int_range_empty {lo hi : Int} (h : hi ≤ lo) : int_range lo hi = [] := by
  unfold int_range
  have : (hi - lo).toNat = 0 := by omega
  rw [this]
  rfl

/-! ## The sweep of `apply_shielding` -/

theorem ShieldInv.congr {s0 s : State} {N : Nat} {xs ys zs t i j k i' j' k' : Int}
    (hc : ∀ x y z : Int, in_region xs ys zs t x y z →
      (swept_int i j k x y z ↔ swept_int i' j' k' x y z))
    (h : ShieldInv s0 N xs ys zs t i j k s) : ShieldInv s0 N xs ys zs t i' j' k' s := by
  obtain ⟨h1, h2, h3, h4, h5, h6, h7⟩ := h
  refine ⟨h1, h2, h3, h4, ?_, ?_, ?_⟩
  · intro x y z
    rw [h5 x y z]
    by_cases hr : in_region xs ys zs t x y z
    · simp only [hr, true_and, hc _ _ _ hr]
    · simp only [hr, false_and]
  · intro x y z
    rw [h6 x y z]
    by_cases hr : in_region xs ys zs t x y z
    · simp only [hr, true_and, hc _ _ _ hr]
    · simp only [hr, false_and]
  · intro x y z hr hsw
    exact h7 x y z hr ((hc x y z hr).mpr hsw)

theorem shield_cell_post {s0 s : State} {N : Nat} {xs ys zs t i j k : Int}
    (hreg : in_region xs ys zs t i j k) (h : ShieldInv s0 N xs ys zs t i j k s) :
    Post (ShieldInv s0 N xs ys zs t i j (k + 1)) (ShieldFault s0 N xs ys zs t)
      (apply_shielding_cell i j k s) := by
  by_cases hv : in_volume N i j k
  · obtain ⟨hJ, hc, hshE, hshB, hE, hB, hvol⟩ := h
    obtain ⟨⟨hi0, hiN⟩, ⟨hj0, hjN⟩, ⟨hk0, hkN⟩⟩ := hv
    have hI : i.toNat < N := by omega
    have hJ' : j.toNat < N := by omega
    have hK : k.toNat < N := by omega
    have ci : ((i.toNat : Nat) : Int) = i := Int.toNat_of_nonneg hi0
    have cj : ((j.toNat : Nat) : Int) = j := Int.toNat_of_nonneg hj0
    have ck : ((k.toNat : Nat) : Int) = k := Int.toNat_of_nonneg hk0
    have hself : ¬ swept_int i j k i j k := by unfold swept_int; omega
    have hnext : swept_int i j (k + 1) i j k := by unfold swept_int; omega
    have eE : s.electric_field.get? i.toNat j.toNat k.toNat =
        s0.electric_field.get? i.toNat j.toNat k.toNat := by
      rw [hE, ci, cj, ck, if_neg (fun hh => hself hh.2)]
    have eB : s.magnetic_field.get? i.toNat j.toNat k.toNat =
        s0.magnetic_field.get? i.toNat j.toNat k.toNat := by
      rw [hB, ci, cj, ck, if_neg (fun hh => hself hh.2)]
    have he := hshE.get?_some hI hJ' hK
    have hb := hshB.get?_some hI hJ' hK
    obtain ⟨g, hg⟩ := Grid.set?_of_get? he
      (s.electric_field.val i.toNat j.toNat k.toNat * (1 / 10))
    obtain ⟨m, hm⟩ := Grid.set?_of_get? hb
      (s.magnetic_field.val i.toNat j.toNat k.toNat * (1 / 10))
    have hres : apply_shielding_cell i j k s =
        .ok { s with electric_field := g, magnetic_field := m } := by
      unfold apply_shielding_cell
      rw [if_pos ⟨hi0, hj0, hk0⟩]
      simp only [he, hg, hb, hm]
    rw [hres]
    have hsw : ∀ x y z : Nat, ¬ (x = i.toNat ∧ y = j.toNat ∧ z = k.toNat) →
        (swept_int i j (k + 1) x y z ↔ swept_int i j k x y z) := by
      intro x y z hne
      unfold swept_int
      omega
    refine ⟨hJ, hc, hshE.set? hg, hshB.set? hm, ?_, ?_, ?_⟩
    · intro x y z
      show g.get? x y z = _
      rw [Grid.get?_set? hg x y z]
      by_cases hxyz : x = i.toNat ∧ y = j.toNat ∧ z = k.toNat
      · obtain ⟨rfl, rfl, rfl⟩ := hxyz
        rw [if_pos ⟨rfl, rfl, rfl⟩, ci, cj, ck, if_pos ⟨hreg, hnext⟩, ← eE, he]
        rfl
      · rw [if_neg hxyz, hE x y z]
        simp only [hsw x y z hxyz]
    · intro x y z
      show m.get? x y z = _
      rw [Grid.get?_set? hm x y z]
      by_cases hxyz : x = i.toNat ∧ y = j.toNat ∧ z = k.toNat
      · obtain ⟨rfl, rfl, rfl⟩ := hxyz
        rw [if_pos ⟨rfl, rfl, rfl⟩, ci, cj, ck, if_pos ⟨hreg, hnext⟩, ← eB, hb]
        rfl
      · rw [if_neg hxyz, hB x y z]
        simp only [hsw x y z hxyz]
    · intro x y z hr hs
      by_cases hxyz : x = i ∧ y = j ∧ z = k
      · obtain ⟨rfl, rfl, rfl⟩ := hxyz
        exact ⟨⟨hi0, hiN⟩, ⟨hj0, hjN⟩, ⟨hk0, hkN⟩⟩
      · apply hvol x y z hr
        unfold swept_int at hs ⊢
        omega
  · have hres : apply_shielding_cell i j k s = .error (.out_of_range, s) := by
      unfold apply_shielding_cell
      by_cases h0 : 0 ≤ i ∧ 0 ≤ j ∧ 0 ≤ k
      · rw [if_pos h0]
        have : s.electric_field.get? i.toNat j.toNat k.toNat = none := by
          apply h.2.2.1.get?_none
          unfold in_volume at hv
          omega
        simp only [this]
      · rw [if_neg h0]
    rw [hres]
    exact ⟨rfl, i, j, k, hreg, hv, h⟩

theorem shield_row_post {s0 s : State} {N : Nat} {xs ys zs t i j : Int}
    (hi : xs ≤ i ∧ i < xs + t) (hj : ys ≤ j ∧ j < ys + t)
    (h : ShieldInv s0 N xs ys zs t i j zs s) :
    Post (ShieldInv s0 N xs ys zs t i (j + 1) zs) (ShieldFault s0 N xs ys zs t)
      (for_each (apply_shielding_cell i j) (int_range zs (zs + t)) s) := by
  have key := for_each_int_range_post (apply_shielding_cell i j)
    (fun k => ShieldInv s0 N xs ys zs t i j k) (ShieldFault s0 N xs ys zs t)
    zs (zs + t) (by omega) s
    (fun c u h1 h2 hP => shield_cell_post ⟨hi, hj, h1, h2⟩ hP) h
  apply key.mono
  intro u hu
  apply hu.congr
  intro x y z hr
  unfold in_region at hr
  unfold swept_int
  omega

theorem shield_plane_post {s0 s : State} {N : Nat} {xs ys zs t i : Int}
    (hi : xs ≤ i ∧ i < xs + t) (h : ShieldInv s0 N xs ys zs t i ys zs s) :
    Post (ShieldInv s0 N xs ys zs t (i + 1) ys zs) (ShieldFault s0 N xs ys zs t)
      (for_each (fun j => for_each (apply_shielding_cell i j) (int_range zs (zs + t)))
        (int_range ys (ys + t)) s) := by
  have key := for_each_int_range_post
    (fun j => for_each (apply_shielding_cell i j) (int_range zs (zs + t)))
    (fun j => ShieldInv s0 N xs ys zs t i j zs) (ShieldFault s0 N xs ys zs t)
    ys (ys + t) (by omega) s
    (fun c u h1 h2 hP => shield_row_post hi ⟨h1, h2⟩ hP) h
  apply key.mono
  intro u hu
  apply hu.congr
  intro x y z hr
  unfold in_region at hr
  unfold swept_int
  omega

theorem ShieldInv.start {s : State} {N : Nat} (hs : s.WellShaped N) (xs ys zs t : Int) :
    ShieldInv s N xs ys zs t xs ys zs s := by
  have hno : ∀ x y z : Int, in_region xs ys zs t x y z → ¬ swept_int xs ys zs x y z := by
    intro x y z hr
    unfold in_region at hr
    unfold swept_int
    omega
  refine ⟨rfl, rfl, hs.1, hs.2.1, ?_, ?_, ?_⟩
  · intro x y z
    rw [if_neg (fun hh => hno _ _ _ hh.1 hh.2)]
  · intro x y z
    rw [if_neg (fun hh => hno _ _ _ hh.1 hh.2)]
  · intro x y z hr hsw
    exact absurd hsw (hno _ _ _ hr)

/-- Outcome of `apply_shielding` on a well-shaped state, for any region of
non-negative thickness: either it returns with every cell of the region scaled, all of
them cells of the volume, or it faults at a cell of the region outside the volume. -/
theorem apply_shielding_post {s : State} {N : Nat} (hs : s.WellShaped N)
    (xs ys zs : Int) {t : Int} (ht : 0 ≤ t) :
    Post (ShieldInv s N xs ys zs t (xs + t) ys zs) (ShieldFault s N xs ys zs t)
      (apply_shielding xs ys zs t s) := by
  unfold apply_shielding
  exact for_each_int_range_post
    (fun i => for_each (fun j => for_each (apply_shielding_cell i j)
      (int_range zs (zs + t))) (int_range ys (ys + t)))
    (fun i => ShieldInv s N xs ys zs t i ys zs) (ShieldFault s N xs ys zs t)
    xs (xs + t) (by omega) s
    (fun c u h1 h2 hP => shield_plane_post ⟨h1, h2⟩ hP) (ShieldInv.start hs xs ys zs t)

/-- On a region contained in the volume `apply_shielding` returns; it writes neither
the current density nor the console, scales each cell of the region by `1 / 10` in
both grids and leaves every other cell as it was. -/
theorem apply_shielding_spec {s : State} {N : Nat} {xs ys zs t : Int}
    (hs : s.WellShaped N) (hreg : region_in_volume N xs ys zs t) :
    ∃ s', apply_shielding xs ys zs t s = .ok s' ∧
      s'.current_density = s.current_density ∧ s'.cout = s.cout ∧ s'.WellShaped N ∧
      (∀ x y z : Nat, s'.electric_field.get? x y z =
        if in_region xs ys zs t x y z then some (s.electric_field.val x y z * (1 / 10))
        else s.electric_field.get? x y z) ∧
      (∀ x y z : Nat, s'.magnetic_field.get? x y z =
        if in_region xs ys zs t x y z then some (s.magnetic_field.val x y z * (1 / 10))
        else s.magnetic_field.get? x y z) := by
  unfold region_in_volume at hreg
  by_cases ht : 0 ≤ t
  · have key := apply_shielding_post hs xs ys zs ht
    cases hres : apply_shielding xs ys zs t s with
    | ok s' =>
      rw [hres] at key
      obtain ⟨h1, h2, h3, h4, h5, h6, _⟩ := key
      have hsw : ∀ x y z : Nat, in_region xs ys zs t x y z →
          swept_int (xs + t) ys zs x y z ∧ x < N ∧ y < N ∧ z < N := by
        intro x y z hr
        unfold in_region at hr
        unfold swept_int
        omega
      refine ⟨s', rfl, h1, h2, ⟨h3, h4, h1 ▸ hs.2.2⟩, ?_, ?_⟩
      · intro x y z
        rw [h5 x y z]
        by_cases hr : in_region xs ys zs t x y z
        · obtain ⟨hsw', hx, hy, hz⟩ := hsw x y z hr
          rw [if_pos ⟨hr, hsw'⟩, if_pos hr, hs.1.get?_some hx hy hz]
          rfl
        · rw [if_neg (fun hh => hr hh.1), if_neg hr]
      · intro x y z
        rw [h6 x y z]
        by_cases hr : in_region xs ys zs t x y z
        · obtain ⟨hsw', hx, hy, hz⟩ := hsw x y z hr
          rw [if_pos ⟨hr, hsw'⟩, if_pos hr, hs.2.1.get?_some hx hy hz]
          rfl
        · rw [if_neg (fun hh => hr hh.1), if_neg hr]
    | error e =>
      rw [hres] at key
      obtain ⟨_, i, j, k, hr, hv, _⟩ := key
      exfalso
      apply hv
      unfold in_region at hr
      unfold in_volume
      omega
  · have hno : ∀ x y z : Int, ¬ in_region xs ys zs t x y z := by
      intro x y z
      unfold in_region
      omega
    refine ⟨s, ?_, rfl, rfl, hs, ?_, ?_⟩
    · unfold apply_shielding
      rw [int_range_empty (show xs + t ≤ xs by omega)]
      rfl
    · intro x y z
      rw [if_neg (hno _ _ _)]
    · intro x y z
      rw [if_neg (hno _ _ _)]

/-- On a region of thickness at least `1` that is not contained in the volume
`apply_shielding` does not return: it faults on an out-of-range access at a cell of
the region outside the volume, in the memory state the loop invariant describes. -/
theorem apply_shielding_fault {s : State} {N : Nat} {xs ys zs t : Int}
    (hs : s.WellShaped N) (ht : 1 ≤ t) (hreg : ¬ region_in_volume N xs ys zs t) :
    ∃ s', apply_shielding xs ys zs t s = .error (.out_of_range, s') ∧
      ∃ i j k : Int, in_region xs ys zs t i j k ∧ ¬ in_volume N i j k ∧
        ShieldInv s N xs ys zs t i j k s' := by
  have key := apply_shielding_post hs xs ys zs (t := t) (by omega)
  cases hres : apply_shielding xs ys zs t s with
  | ok s' =>
    rw [hres] at key
    exfalso
    apply hreg
    have c1 := key.2.2.2.2.2.2 xs ys zs (by unfold in_region; omega)
      (by unfold swept_int; omega)
    have c2 := key.2.2.2.2.2.2 (xs + t - 1) (ys + t - 1) (zs + t - 1)
      (by unfold in_region; omega) (by unfold swept_int; omega)
    unfold in_volume at c1 c2
    unfold region_in_volume
    omega
  | error e =>
    rw [hres] at key
    obtain ⟨f, s'⟩ := e
    obtain ⟨hf, hrest⟩ := key
    simp only at hf
    subst hf
    exact ⟨s', rfl, hrest⟩

/-- C5 (as amended): `apply_shielding` checks nothing before it writes.  For a region
of `int` values whose loop bounds do not overflow `int`, of thickness at least `1`,
that is not fully contained in `[0, N)` on all three axes, the call does not return:
it faults on an out-of-range element access.  When the region's first cell
`(x_start, y_start, z_start)` is outside the volume, the state at that point is the
state before the call.  When that cell is inside the volume, it has already been
scaled by `1 / 10` in both grids, so the state differs from the state before the call
whenever the electric or the magnetic value of that cell is non-zero. -/
theorem apply_shielding_out_of_bounds_faults (N : Nat) (s : State) (xs ys zs t : Int)
    (hs : s.WellShaped N) (hfit : region_fits_int xs ys zs t) (ht : 1 ≤ t)
    (hout : ¬ region_in_volume N xs ys zs t) :
    ∃ s', apply_shielding xs ys zs t s = .error (.out_of_range, s') ∧
      (¬ in_volume N xs ys zs → s' = s) ∧
      (in_volume N xs ys zs →
        s'.electric_field.get? xs.toNat ys.toNat zs.toNat =
          some (s.electric_field.val xs.toNat ys.toNat zs.toNat * (1 / 10)) ∧
        s'.magnetic_field.get? xs.toNat ys.toNat zs.toNat =
          some (s.magnetic_field.val xs.toNat ys.toNat zs.toNat * (1 / 10)) ∧
        ((s.electric_field.val xs.toNat ys.toNat zs.toNat ≠ 0 ∨
            s.magnetic_field.val xs.toNat ys.toNat zs.toNat ≠ 0) → s' ≠ s)) := by
  have _ := hfit
  obtain ⟨s', hres, i, j, k, hr, hv, hJ, hc, hshE, hshB, hE, hB, hvol⟩ :=
    apply_shielding_fault hs ht hout
  have horigin : in_region xs ys zs t xs ys zs := by unfold in_region; omega
  refine ⟨s', hres, ?_, ?_⟩
  · intro hvo
    have hns : ¬ swept_int i j k xs ys zs := fun hsw => hvo (hvol _ _ _ horigin hsw)
    have hnone : ∀ x y z : Int, in_region xs ys zs t x y z → ¬ swept_int i j k x y z := by
      intro x y z hx
      unfold in_region at hx hr
      unfold swept_int at hns ⊢
      omega
    apply State.ext_fields _ _ hJ hc
    · apply Grid.ext_of_shape hshE hs.1
      intro x y z _ _ _
      rw [hE x y z, if_neg (fun hh => hnone _ _ _ hh.1 hh.2)]
    · apply Grid.ext_of_shape hshB hs.2.1
      intro x y z _ _ _
      rw [hB x y z, if_neg (fun hh => hnone _ _ _ hh.1 hh.2)]
  · intro hvo
    have hne : ¬ (i = xs ∧ j = ys ∧ k = zs) := by
      rintro ⟨rfl, rfl, rfl⟩
      exact hv hvo
    have hsw : swept_int i j k xs ys zs := by
      unfold in_region at hr
      unfold swept_int
      omega
    obtain ⟨⟨hx0, hxN⟩, ⟨hy0, hyN⟩, ⟨hz0, hzN⟩⟩ := hvo
    have cx : ((xs.toNat : Nat) : Int) = xs := Int.toNat_of_nonneg hx0
    have cy : ((ys.toNat : Nat) : Int) = ys := Int.toNat_of_nonneg hy0
    have cz : ((zs.toNat : Nat) : Int) = zs := Int.toNat_of_nonneg hz0
    have hX : xs.toNat < N := by omega
    have hY : ys.toNat < N := by omega
    have hZ : zs.toNat < N := by omega
    have eE : s'.electric_field.get? xs.toNat ys.toNat zs.toNat =
        some (s.electric_field.val xs.toNat ys.toNat zs.toNat * (1 / 10)) := by
      rw [hE, cx, cy, cz, if_pos ⟨horigin, hsw⟩, hs.1.get?_some hX hY hZ]
      rfl
    have eB : s'.magnetic_field.get? xs.toNat ys.toNat zs.toNat =
        some (s.magnetic_field.val xs.toNat ys.toNat zs.toNat * (1 / 10)) := by
      rw [hB, cx, cy, cz, if_pos ⟨horigin, hsw⟩, hs.2.1.get?_some hX hY hZ]
      rfl
    refine ⟨eE, eB, fun hnz hsame => ?_⟩
    rw [hsame, hs.1.get?_some hX hY hZ] at eE
    rw [hsame, hs.2.1.get?_some hX hY hZ] at eB
    have e1 := Option.some.inj eE
    have e2 := Option.some.inj eB
    rcases hnz with h | h
    · apply h
      linarith
    · apply h
      linarith

/-- Witness for C5 (as amended): the region `(0, 0, 0, 4)` on the `3 × 3 × 3` state
`demo3`, whose first cell holds `E[0][0][0] = 2`. -/
theorem apply_shielding_out_of_bounds_faults_witness :
    (demo3.WellShaped 3 ∧ region_fits_int 0 0 0 4 ∧ (1 : Int) ≤ 4 ∧
      ¬ region_in_volume 3 0 0 0 4) ∧
    ∃ s', apply_shielding 0 0 0 4 demo3 = .error (.out_of_range, s') ∧
      (¬ in_volume 3 0 0 0 → s' = demo3) ∧
      (in_volume 3 0 0 0 →
        s'.electric_field.get? (0 : Int).toNat (0 : Int).toNat (0 : Int).toNat =
          some (demo3.electric_field.val (0 : Int).toNat (0 : Int).toNat (0 : Int).toNat
            * (1 / 10)) ∧
        s'.magnetic_field.get? (0 : Int).toNat (0 : Int).toNat (0 : Int).toNat =
          some (demo3.magnetic_field.val (0 : Int).toNat (0 : Int).toNat (0 : Int).toNat
            * (1 / 10)) ∧
        ((demo3.electric_field.val (0 : Int).toNat (0 : Int).toNat (0 : Int).toNat ≠ 0 ∨
            demo3.magnetic_field.val (0 : Int).toNat (0 : Int).toNat (0 : Int).toNat ≠ 0) →
          s' ≠ demo3)) :=
  ⟨⟨by decide, by decide, by decide, by decide⟩,
    apply_shielding_out_of_bounds_faults 3 demo3 0 0 0 4 (by decide) (by decide) (by decide)
      (by decide)⟩

/-- Counterexample to C5 as stated: the region `(0, 0, 0, 4)` is not contained in the
`3 × 3 × 3` volume of `demo3`; the call faults, and at the fault the electric cell
`(0, 0, 0)` holds `1 / 5` where it held `2` before the call. -/
theorem apply_shielding_writes_before_fault :
    demo3.WellShaped 3 ∧ ¬ region_in_volume 3 0 0 0 4 ∧
    demo3.electric_field.get? 0 0 0 = some 2 ∧
    ∃ s', apply_shielding 0 0 0 4 demo3 = .error (.out_of_range, s') ∧
      s'.electric_field.get? 0 0 0 = some (1 / 5) := by
  refine ⟨by decide, by decide, by decide!, ?_⟩
  have key : (match apply_shielding 0 0 0 4 demo3 with
      | .ok _ => none
      | .error e => some (e.1, e.2.electric_field.get? 0 0 0)) =
      some (Fault.out_of_range, some (1 / 5)) := by decide!
  revert key
  cases apply_shielding 0 0 0 4 demo3 with
  | ok s =>
    intro key
    simp at key
  | error e =>
    obtain ⟨f, s'⟩ := e
    intro key
    simp only [Option.some.injEq, Prod.mk.injEq] at key
    obtain ⟨rfl, h2⟩ := key
    exact ⟨s', rfl, h2⟩

/-- C6: on a region contained in the volume `apply_shielding` returns and leaves every
electric and magnetic cell outside the region unchanged, in particular the cells at
index `start - 1` or `start + thickness` on an axis, and leaves the whole
current-density grid unchanged. -/
theorem apply_shielding_leaves_outside_unchanged (N : Nat) (s : State)
    (xs ys zs t : Int) (hs : s.WellShaped N) (hreg : region_in_volume N xs ys zs t) :
    ∃ s', apply_shielding xs ys zs t s = .ok s' ∧
      (∀ x y z : Nat, ¬ in_region xs ys zs t x y z →
        s'.electric_field.get? x y z = s.electric_field.get? x y z ∧
        s'.magnetic_field.get? x y z = s.magnetic_field.get? x y z) ∧
      (∀ x y z : Nat,
        ((x : Int) = xs - 1 ∨ (x : Int) = xs + t ∨ (y : Int) = ys - 1 ∨ (y : Int) = ys + t ∨
          (z : Int) = zs - 1 ∨ (z : Int) = zs + t) →
        s'.electric_field.get? x y z = s.electric_field.get? x y z ∧
        s'.magnetic_field.get? x y z = s.magnetic_field.get? x y z) ∧
      s'.current_density = s.current_density := by
  obtain ⟨s', hres, hJ, _, _, hE, hB⟩ := apply_shielding_spec hs hreg
  have hout : ∀ x y z : Nat, ¬ in_region xs ys zs t x y z →
      s'.electric_field.get? x y z = s.electric_field.get? x y z ∧
      s'.magnetic_field.get? x y z = s.magnetic_field.get? x y z := by
    intro x y z hr
    exact ⟨by rw [hE x y z, if_neg hr], by rw [hB x y z, if_neg hr]⟩
  refine ⟨s', hres, hout, ?_, hJ⟩
  intro x y z hadj
  apply hout
  unfold in_region
  omega

/-- Witness for C6: the region `(1, 1, 1, 1)` inside the `3 × 3 × 3` state `demo3`,
read off at the adjacent cell `(1, 2, 1)`. -/
theorem apply_shielding_leaves_outside_unchanged_witness :
    (demo3.WellShaped 3 ∧ region_in_volume 3 1 1 1 1) ∧
    ∃ s', apply_shielding 1 1 1 1 demo3 = .ok s' ∧
      s'.electric_field.get? 1 2 1 = demo3.electric_field.get? 1 2 1 ∧
      s'.magnetic_field.get? 1 2 1 = demo3.magnetic_field.get? 1 2 1 ∧
      s'.current_density = demo3.current_density := by
  refine ⟨⟨by decide, by decide⟩, ?_⟩
  obtain ⟨s', h, _, hadj, hJ⟩ :=
    apply_shielding_leaves_outside_unchanged 3 demo3 1 1 1 1 (by decide) (by decide)
  have := hadj 1 2 1 (by decide)
  exact ⟨s', h, this.1, this.2, hJ⟩

/-- C7: on a region contained in the volume `apply_shielding` returns, and for every
cell of the region the electric value afterwards is `1 / 10` times the electric value
before, and the magnetic value afterwards is `1 / 10` times the magnetic value
before. -/
theorem apply_shielding_scales_region (N : Nat) (s : State) (xs ys zs t : Int)
    (hs : s.WellShaped N) (hreg : region_in_volume N xs ys zs t) :
    ∃ s', apply_shielding xs ys zs t s = .ok s' ∧
      ∀ x y z : Nat, in_region xs ys zs t x y z →
        s'.electric_field.get? x y z = some (1 / 10 * s.electric_field.val x y z) ∧
        s'.magnetic_field.get? x y z = some (1 / 10 * s.magnetic_field.val x y z) := by
  obtain ⟨s', hres, _, _, _, hE, hB⟩ := apply_shielding_spec hs hreg
  refine ⟨s', hres, ?_⟩
  intro x y z hr
  exact ⟨by rw [hE x y z, if_pos hr, mul_comm], by rw [hB x y z, if_pos hr, mul_comm]⟩

/-- Witness for C7: the region `(1, 1, 1, 1)` inside `demo3`, whose cell `(1, 1, 1)`
holds `E = 5` and `B = 7` before the call. -/
theorem apply_shielding_scales_region_witness :
    (demo3.WellShaped 3 ∧ region_in_volume 3 1 1 1 1) ∧
    ∃ s', apply_shielding 1 1 1 1 demo3 = .ok s' ∧
      s'.electric_field.get? 1 1 1 = some (1 / 2) ∧
      s'.magnetic_field.get? 1 1 1 = some (7 / 10) := by
  refine ⟨⟨by decide, by decide⟩, ?_⟩
  obtain ⟨s', h, hin⟩ :=
    apply_shielding_scales_region 3 demo3 1 1 1 1 (by decide) (by decide)
  have := hin 1 1 1 (by decide)
  refine ⟨s', h, ?_, ?_⟩
  · rw [this.1]
    simp [demo3, Grid.val, Grid.get?]
    norm_num
  · rw [this.2]
    simp [demo3, Grid.val, Grid.get?]
    norm_num

/-! ## The time-step loop -/

theorem int_range_cons {lo hi : Int} (h : lo < hi) :
    int_range lo hi = lo :: int_range (lo + 1) hi := by
  unfold int_range
  have e : (hi - lo).toNat = (hi - (lo + 1)).toNat + 1 := by omega
  rw [e, List.range_succ_eq_map, List.map_cons, List.map_map]
  congr 1
  · simp
  · apply List.map_congr_left
    intro d _
    simp only [Function.comp, Nat.succ_eq_add_one]
    push_cast
    ring

theorem progress_report_zero_divisor {step num_steps : Int} (s : State)
    (h : Int.tdiv num_steps 10 = 0) :
    progress_report step num_steps s = .error (.zero_divisor, s) := by
  unfold progress_report
  rw [if_pos h]

theorem progress_report_ok (step : Int) {num_steps : Int} (s : State)
    (h : Int.tdiv num_steps 10 ≠ 0) :
    ∃ s', progress_report step num_steps s = .ok s' ∧
      s'.electric_field = s.electric_field ∧ s'.magnetic_field = s.magnetic_field ∧
      s'.current_density = s.current_density := by
  unfold progress_report
  rw [if_neg h]
  split_ifs
  · exact ⟨_, rfl, rfl, rfl, rfl⟩
  · exact ⟨_, rfl, rfl, rfl, rfl⟩

theorem tdiv_ten_eq_zero_iff {n : Int} (h : 1 ≤ n) : Int.tdiv n 10 = 0 ↔ n ≤ 9 := by
  rw [Int.tdiv_eq_ediv (by omega) (by omega)]
  omega

/-- With a step count from `1` to `9` the divisor `num_steps / 10` of the progress
check is `0`: the first iteration runs both updates and then faults. -/
theorem run_fdtd_simulation_zero_divisor {N : Nat} {s : State} (hN : 1 ≤ N)
    (hs : s.WellShaped N) {steps : Int} (h1 : 1 ≤ steps) (h9 : steps ≤ 9) :
    ∃ s1, fdtd_step s = .ok s1 ∧
      run_fdtd_simulation steps s = .error (.zero_divisor, s1) := by
  obtain ⟨s1, hstep, _⟩ := fdtd_step_spec hN hs
  refine ⟨s1, hstep, ?_⟩
  unfold run_fdtd_simulation
  rw [int_range_cons (by omega)]
  simp only [for_each, hstep,
    progress_report_zero_divisor s1 ((tdiv_ten_eq_zero_iff h1).mpr h9)]

/-- With a step count that is not in `1 .. 9`, `run_fdtd_simulation` returns on a
well-shaped state; the result is well-shaped, has the same current density, and every
cell that is not interior keeps its electric and magnetic value. -/
theorem run_fdtd_simulation_spec {N : Nat} {s : State} (hN : 1 ≤ N)
    (hs : s.WellShaped N) {steps : Int} (hsteps : steps ≤ 0 ∨ 10 ≤ steps) :
    ∃ s', run_fdtd_simulation steps s = .ok s' ∧ s'.WellShaped N ∧
      s'.current_density = s.current_density ∧
      ∀ x y z, ¬ interior3 N x y z →
        s'.electric_field.get? x y z = s.electric_field.get? x y z ∧
        s'.magnetic_field.get? x y z = s.magnetic_field.get? x y z := by
  by_cases h0 : steps ≤ 0
  · refine ⟨{ s with cout := s.cout ++ [Line.completed] }, ?_, hs, rfl,
      fun x y z _ => ⟨rfl, rfl⟩⟩
    unfold run_fdtd_simulation
    rw [int_range_empty h0]
    rfl
  · have h10 : 10 ≤ steps := by omega
    have hdiv : Int.tdiv steps 10 ≠ 0 := by
      rw [Ne, tdiv_ten_eq_zero_iff (by omega)]
      omega
    obtain ⟨t, ht, hP⟩ := for_each_int_range_inv
      (fun step s =>
        match fdtd_step s with
        | .ok s' => progress_report step steps s'
        | .error e => .error e)
      (fun _ u => u.WellShaped N ∧ u.current_density = s.current_density ∧
        ∀ x y z, ¬ interior3 N x y z →
          u.electric_field.get? x y z = s.electric_field.get? x y z ∧
          u.magnetic_field.get? x y z = s.magnetic_field.get? x y z)
      0 steps (by omega) s
      (fun c u _ _ hu => by
        obtain ⟨hw, hJ, hb⟩ := hu
        obtain ⟨u1, hu1, hw1, hJ1, _, hE1, hB1⟩ := fdtd_step_spec hN hw
        obtain ⟨u2, hu2, eE, eB, eJ⟩ := progress_report_ok c u1 hdiv
        refine ⟨u2, by simp only [hu1, hu2], ⟨eE ▸ hw1.1, eB ▸ hw1.2.1, eJ ▸ hw1.2.2⟩,
          by rw [eJ, hJ1, hJ], ?_⟩
        intro x y z hni
        rw [eE, eB, hE1 x y z, hB1 x y z, if_neg hni, if_neg hni]
        exact hb x y z hni)
      ⟨hs, rfl, fun x y z _ => ⟨rfl, rfl⟩⟩
    refine ⟨{ t with cout := t.cout ++ [Line.completed] }, ?_, hP.1, hP.2.1, hP.2.2⟩
    unfold run_fdtd_simulation
    rw [ht]

/-- C9 (the code at the failing inputs): for every step count from `1` to `9`, on a
well-shaped volume, `run_fdtd_simulation` faults with a zero divisor in its progress
check `step % (num_steps / 10)` during the first iteration. -/
theorem run_fdtd_simulation_divides_by_zero (N : Nat) (s : State) (steps : Int)
    (hN : 1 ≤ N) (hs : s.WellShaped N) (h1 : 1 ≤ steps) (h9 : steps ≤ 9) :
    ∃ s', run_fdtd_simulation steps s = .error (.zero_divisor, s') := by
  obtain ⟨s1, _, h⟩ := run_fdtd_simulation_zero_divisor hN hs h1 h9
  exact ⟨s1, h⟩

/-- Witness for C9: the end-to-end scenario `N = 12`, five steps, zero fields. -/
theorem run_fdtd_simulation_divides_by_zero_witness :
    (1 ≤ 12 ∧ (zero_state 12).WellShaped 12 ∧ (1 : Int) ≤ 5 ∧ (5 : Int) ≤ 9) ∧
    ∃ s', run_fdtd_simulation 5 (zero_state 12) = .error (.zero_divisor, s') :=
  ⟨⟨by decide, zero_state_wellShaped 12, by decide, by decide⟩,
    run_fdtd_simulation_divides_by_zero 12 (zero_state 12) 5 (by decide)
      (zero_state_wellShaped 12) (by decide) (by decide)⟩

/-! ## The remediation cycle -/

theorem abs_tenth_le (v : ℚ) : |v * (1 / 10)| ≤ |v| := by
  rw [abs_mul, abs_of_pos (by norm_num : (0 : ℚ) < 1 / 10)]
  have := abs_nonneg v
  linarith

/-- C8 (as amended): when the first run returns with a leakage above the threshold,
one `apply_shielding` pass on a region inside the volume and a re-run of the same
number of steps return, and the leakage measured afterwards is lower than or equal to
the pre-shielding leakage. -/
theorem remediation_leakage_not_higher (N : Nat) (s0 s1 : State) (steps xs ys zs t : Int)
    (threshold L1 : ℚ) (hN : 1 ≤ N) (hs : s0.WellShaped N)
    (hreg : region_in_volume N xs ys zs t)
    (hrun : run_fdtd_simulation steps s0 = .ok s1)
    (hL1 : analyze_em_leakage s1 = .ok L1) (hthr : threshold < L1) :
    ∃ s2 s3 L3, apply_shielding xs ys zs t s1 = .ok s2 ∧
      run_fdtd_simulation steps s2 = .ok s3 ∧ analyze_em_leakage s3 = .ok L3 ∧
      L3 ≤ L1 := by
  have _ := hthr
  have hsteps : steps ≤ 0 ∨ 10 ≤ steps := by
    by_contra hcon
    obtain ⟨u, _, hu⟩ := run_fdtd_simulation_zero_divisor hN hs
      (show 1 ≤ steps by omega) (show steps ≤ 9 by omega)
    rw [hu] at hrun
    cases hrun
  obtain ⟨s1', hr1, hw1, _, _⟩ := run_fdtd_simulation_spec hN hs hsteps
  rw [hrun] at hr1
  cases hr1
  obtain ⟨s2, h2, _, _, hw2, hE2, _⟩ := apply_shielding_spec hw1 hreg
  obtain ⟨s3, h3, hw3, _, hb3⟩ := run_fdtd_simulation_spec hN hw2 hsteps
  have e1 : L1 = scan_sum N s1.electric_field := by
    rw [analyze_em_leakage_spec hw1.1] at hL1
    cases hL1
    rfl
  have v3 : ∀ i j, s3.electric_field.val i j 0 = s2.electric_field.val i j 0 := by
    intro i j
    apply Grid.val_congr
    apply (hb3 i j 0 _).1
    unfold interior3 interior
    omega
  have v2 : ∀ i j, s2.electric_field.val i j 0 =
      if in_region xs ys zs t i j 0 then s1.electric_field.val i j 0 * (1 / 10)
      else s1.electric_field.val i j 0 := by
    intro i j
    have := hE2 i j 0
    simp only [Nat.cast_zero] at this
    by_cases hr : in_region xs ys zs t i j 0
    · rw [if_pos hr] at this
      rw [if_pos hr]
      unfold Grid.val
      rw [this]
      rfl
    · rw [if_neg hr] at this
      rw [if_neg hr]
      exact Grid.val_congr this
  have hle : ∀ i j : Nat,
      (if i = 0 ∨ i = N - 1 ∨ j = 0 ∨ j = N - 1 then |s3.electric_field.val i j 0| else 0) ≤
      (if i = 0 ∨ i = N - 1 ∨ j = 0 ∨ j = N - 1 then |s1.electric_field.val i j 0| else 0) := by
    intro i j
    rw [v3, v2]
    split_ifs
    · exact abs_tenth_le _
    · exact le_refl _
    · exact le_refl _
  refine ⟨s2, s3, scan_sum N s3.electric_field, h2, h3, analyze_em_leakage_spec hw3.1, ?_⟩
  rw [e1]
  exact Finset.sum_le_sum (fun i _ => Finset.sum_le_sum (fun j _ => hle i j))

/-- Witness for C8 (as amended): `leaky3` (leakage `2`, threshold `1`), ten steps,
and the region `(0, 0, 0, 1)`, which holds the scanned cell `E[0][0][0] = 2`. -/
theorem remediation_leakage_not_higher_witness :
    (1 ≤ 3 ∧ leaky3.WellShaped 3 ∧ region_in_volume 3 0 0 0 1 ∧
      run_fdtd_simulation 10 leaky3 = .ok { leaky3 with cout := ten_step_log } ∧
      analyze_em_leakage { leaky3 with cout := ten_step_log } = .ok 2 ∧ (1 : ℚ) < 2) ∧
    ∃ s2 s3 L3, apply_shielding 0 0 0 1 { leaky3 with cout := ten_step_log } = .ok s2 ∧
      run_fdtd_simulation 10 s2 = .ok s3 ∧ analyze_em_leakage s3 = .ok L3 ∧
      L3 ≤ 2 :=
  ⟨⟨by decide, by decide, by decide, by decide!, by decide!, by norm_num⟩,
    remediation_leakage_not_higher 3 leaky3 { leaky3 with cout := ten_step_log }
      10 0 0 0 1 1 2 (by decide) (by decide) (by decide) (by decide!) (by decide!)
      (by norm_num)⟩

/-- Counterexample to C8 as stated: from `leaky3` the first ten-step run returns with
leakage `2`, above the threshold `1`; shielding the region `(1, 1, 1, 1)` and running
ten steps again return, and the leakage is still `2`, not strictly lower. -/
theorem remediation_leakage_not_strictly_lower :
    leaky3.WellShaped 3 ∧ region_in_volume 3 1 1 1 1 ∧
    run_fdtd_simulation 10 leaky3 = .ok { leaky3 with cout := ten_step_log } ∧
    analyze_em_leakage { leaky3 with cout := ten_step_log } = .ok 2 ∧ (1 : ℚ) < 2 ∧
    apply_shielding 1 1 1 1 { leaky3 with cout := ten_step_log } =
      .ok { leaky3 with cout := ten_step_log } ∧
    run_fdtd_simulation 10 { leaky3 with cout := ten_step_log } =
      .ok { leaky3 with cout := ten_step_log ++ ten_step_log } ∧
    analyze_em_leakage { leaky3 with cout := ten_step_log ++ ten_step_log } = .ok 2 :=
  ⟨by decide, by decide, by decide!, by decide!, by norm_num, by decide!, by decide!,
    by decide!⟩

/-! ## Frame facts that hold on every state -/

theorem for_each_rel {ε σ ι : Type} (st : ε → σ) (R : σ → σ → Prop)
    (hrefl : ∀ s, R s s) (htrans : ∀ a b c, R a b → R b c → R a c)
    (body : ι → σ → Except ε σ)
    (hbody : ∀ i s, Post (R s) (fun e => R s (st e)) (body i s)) :
    ∀ (l : List ι) (s : σ), Post (R s) (fun e => R s (st e)) (for_each body l s) := by
  intro l
  induction l with
  | nil => intro s; exact hrefl s
  | cons a l ih =>
    intro s
    have h1 := hbody a s
    cases hb : body a s with
    | ok t =>
      rw [hb] at h1
      have h2 := ih t
      simp only [for_each, hb]
      cases hr : for_each body l t with
      | ok u =>
        rw [hr] at h2
        exact htrans _ _ _ h1 h2
      | error e =>
        rw [hr] at h2
        exact htrans _ _ _ h1 h2
    | error e =>
      rw [hb] at h1
      simp only [for_each, hb]
      exact h1

theorem elecFrame_refl (s : State) : ElecFrame s s := ⟨rfl, rfl, rfl⟩

theorem elecFrame_trans (a b c : State) (h1 : ElecFrame a b) (h2 : ElecFrame b c) :
    ElecFrame a c :=
  ⟨h2.1.trans h1.1, h2.2.1.trans h1.2.1, h2.2.2.trans h1.2.2⟩

theorem magFrame_refl (s : State) : MagFrame s s := ⟨rfl, rfl, rfl⟩

theorem magFrame_trans (a b c : State) (h1 : MagFrame a b) (h2 : MagFrame b c) :
    MagFrame a c :=
  ⟨h2.1.trans h1.1, h2.2.1.trans h1.2.1, h2.2.2.trans h1.2.2⟩

theorem update_electric_cell_frame (i j k : Nat) (s : State) :
    Post (ElecFrame s) (fun e => ElecFrame s e.2) (update_electric_cell i j k s) := by
  unfold update_electric_cell
  split
  · split
    · exact ⟨rfl, rfl, rfl⟩
    · exact ⟨rfl, rfl, rfl⟩
  · exact ⟨rfl, rfl, rfl⟩

theorem update_electric_row_frame (i j : Nat) (s : State) :
    Post (ElecFrame s) (fun e => ElecFrame s e.2) (update_electric_row i j s) := by
  unfold update_electric_row
  split
  · exact ⟨rfl, rfl, rfl⟩
  · split
    · exact ⟨rfl, rfl, rfl⟩
    · exact for_each_rel (fun (e : Fault × State) => e.2) ElecFrame elecFrame_refl elecFrame_trans _
        (update_electric_cell_frame i j) _ s

theorem update_electric_plane_frame (i : Nat) (s : State) :
    Post (ElecFrame s) (fun e => ElecFrame s e.2) (update_electric_plane i s) := by
  unfold update_electric_plane
  split
  · exact ⟨rfl, rfl, rfl⟩
  · exact for_each_rel (fun (e : Fault × State) => e.2) ElecFrame elecFrame_refl elecFrame_trans _
      (update_electric_row_frame i) _ s

/-- On every state, whether it returns or faults, `update_electric_field` has written
nothing but the electric grid. -/
theorem update_electric_field_frame (s : State) :
    Post (ElecFrame s) (fun e => ElecFrame s e.2) (update_electric_field s) := by
  unfold update_electric_field
  exact for_each_rel (fun (e : Fault × State) => e.2) ElecFrame elecFrame_refl elecFrame_trans _
    update_electric_plane_frame _ s

theorem update_magnetic_cell_frame (i j k : Nat) (s : State) :
    Post (MagFrame s) (fun e => MagFrame s e.2) (update_magnetic_cell i j k s) := by
  unfold update_magnetic_cell
  split
  · split
    · exact ⟨rfl, rfl, rfl⟩
    · exact ⟨rfl, rfl, rfl⟩
  · exact ⟨rfl, rfl, rfl⟩

theorem update_magnetic_row_frame (i j : Nat) (s : State) :
    Post (MagFrame s) (fun e => MagFrame s e.2) (update_magnetic_row i j s) := by
  unfold update_magnetic_row
  split
  · exact ⟨rfl, rfl, rfl⟩
  · split
    · exact ⟨rfl, rfl, rfl⟩
    · exact for_each_rel (fun (e : Fault × State) => e.2) MagFrame magFrame_refl magFrame_trans _
        (update_magnetic_cell_frame i j) _ s

theorem update_magnetic_plane_frame (i : Nat) (s : State) :
    Post (MagFrame s) (fun e => MagFrame s e.2) (update_magnetic_plane i s) := by
  unfold update_magnetic_plane
  split
  · exact ⟨rfl, rfl, rfl⟩
  · exact for_each_rel (fun (e : Fault × State) => e.2) MagFrame magFrame_refl magFrame_trans _
      (update_magnetic_row_frame i) _ s

/-- On every state, whether it returns or faults, `update_magnetic_field` has written
nothing but the magnetic grid. -/
theorem update_magnetic_field_frame (s : State) :
    Post (MagFrame s) (fun e => MagFrame s e.2) (update_magnetic_field s) := by
  unfold update_magnetic_field
  exact for_each_rel (fun (e : Fault × State) => e.2) MagFrame magFrame_refl magFrame_trans _
    update_magnetic_plane_frame _ s

/-- C16: on every state `update_electric_field` changes only the electric grid and
`update_magnetic_field` only the magnetic grid: the two other grids are identical
before and after, both when the call returns and in the memory state of a fault; and
on an allocated `N × N × N` volume both calls return. -/
theorem updates_write_only_their_own_grid (s : State) :
    ((∀ s', update_electric_field s = .ok s' →
        s'.magnetic_field = s.magnetic_field ∧ s'.current_density = s.current_density) ∧
      (∀ f s', update_electric_field s = .error (f, s') →
        s'.magnetic_field = s.magnetic_field ∧ s'.current_density = s.current_density)) ∧
    ((∀ s', update_magnetic_field s = .ok s' →
        s'.electric_field = s.electric_field ∧ s'.current_density = s.current_density) ∧
      (∀ f s', update_magnetic_field s = .error (f, s') →
        s'.electric_field = s.electric_field ∧ s'.current_density = s.current_density)) ∧
    (∀ N, 1 ≤ N → s.WellShaped N →
      (∃ s', update_electric_field s = .ok s') ∧ (∃ s', update_magnetic_field s = .ok s')) := by
  have hE := update_electric_field_frame s
  have hB := update_magnetic_field_frame s
  refine ⟨⟨?_, ?_⟩, ⟨?_, ?_⟩, ?_⟩
  · intro s' h
    rw [h] at hE
    exact ⟨hE.1, hE.2.1⟩
  · intro f s' h
    rw [h] at hE
    exact ⟨hE.1, hE.2.1⟩
  · intro s' h
    rw [h] at hB
    exact ⟨hB.1, hB.2.1⟩
  · intro f s' h
    rw [h] at hB
    exact ⟨hB.1, hB.2.1⟩
  · intro N hN hs
    obtain ⟨s1, h1, _⟩ := update_electric_field_spec hN hs
    obtain ⟨s2, h2, _⟩ := update_magnetic_field_spec hN hs
    exact ⟨⟨s1, h1⟩, ⟨s2, h2⟩⟩

/-! ## The scan reads the electric grid only -/

theorem for_each_ok_congr {ε σ ι : Type} (b1 b2 : ι → σ → Except ε σ)
    (hb : ∀ i u v, b1 i u = .ok v → b2 i u = .ok v) :
    ∀ (l : List ι) (u v : σ), for_each b1 l u = .ok v → for_each b2 l u = .ok v := by
  intro l
  induction l with
  | nil => intro u v h; exact h
  | cons a l ih =>
    intro u v h
    simp only [for_each] at h ⊢
    cases h1 : b1 a u with
    | ok w =>
      rw [h1] at h
      rw [hb a u w h1]
      exact ih w v h
    | error e =>
      rw [h1] at h
      cases h

theorem for_each_error {ε σ ι : Type} (F : ε → Prop) (body : ι → σ → Except ε σ)
    (hb : ∀ i u e, body i u = .error e → F e) :
    ∀ (l : List ι) (u : σ) (e : ε), for_each body l u = .error e → F e := by
  intro l
  induction l with
  | nil => intro u e h; cases h
  | cons a l ih =>
    intro u e h
    simp only [for_each] at h
    cases h1 : body a u with
    | ok w =>
      rw [h1] at h
      exact ih w e h
    | error e1 =>
      rw [h1] at h
      cases h
      exact hb a u e h1

theorem analyze_row_congr {s t : State} (h : t.electric_field = s.electric_field)
    (i : Nat) (u v : ℚ) (hs : analyze_row s i u = .ok v) : analyze_row t i u = .ok v := by
  unfold analyze_row at hs ⊢
  rw [h]
  cases hp : s.electric_field[0]? with
  | none => rw [hp] at hs; cases hs
  | some p0 =>
    rw [hp] at hs
    simp only at hs ⊢
    refine for_each_ok_congr _ _ ?_ _ u v hs
    intro j a b hab
    by_cases hc : i = 0 ∨ i = size_minus_one s.electric_field.length ∨ j = 0 ∨
        j = size_minus_one p0.length
    · simp only [if_pos hc] at hab ⊢
      cases hg : s.electric_field.get? i j 0 with
      | none => rw [hg] at hab; cases hab
      | some e =>
        rw [hg] at hab
        exact hab
    · simp only [if_neg hc] at hab ⊢
      exact hab

theorem analyze_row_error (s : State) (i : Nat) (u : ℚ) (e : Fault × State)
    (hs : analyze_row s i u = .error e) : e = (Fault.out_of_range, s) := by
  unfold analyze_row at hs
  cases hp : s.electric_field[0]? with
  | none =>
    rw [hp] at hs
    cases hs
    rfl
  | some p0 =>
    rw [hp] at hs
    simp only at hs
    refine for_each_error (fun e => e = (Fault.out_of_range, s)) _ ?_ _ u e hs
    intro j a e1 hab
    by_cases hc : i = 0 ∨ i = size_minus_one s.electric_field.length ∨ j = 0 ∨
        j = size_minus_one p0.length
    · simp only [if_pos hc] at hab
      cases hg : s.electric_field.get? i j 0 with
      | none =>
        rw [hg] at hab
        cases hab
        rfl
      | some e =>
        rw [hg] at hab
        cases hab
    · simp only [if_neg hc] at hab
      cases hab

/-- C11: the value `analyze_em_leakage` returns is determined by the electric grid
alone: on any state `t` with the same electric grid as `s` (whatever its magnetic grid,
current density and console) it returns the value it returns on `s`, so a second call
with no intervening update returns the identical value.  When the scan faults, the
memory state at the fault is the state before the call; when it returns, it returns
the sum and nothing else, the memory being the one it was called on.  On an
`N × N × N` electric grid it returns. -/
theorem analyze_em_leakage_reads_only_electric_field (s : State) :
    (∀ t : State, t.electric_field = s.electric_field →
      ∀ v, analyze_em_leakage s = .ok v → analyze_em_leakage t = .ok v) ∧
    (∀ e, analyze_em_leakage s = .error e → e = (Fault.out_of_range, s)) ∧
    (∀ N, s.electric_field.Shape N →
      ∃ v, analyze_em_leakage s = .ok v ∧
        ∀ t : State, t.electric_field = s.electric_field → analyze_em_leakage t = .ok v) := by
  refine ⟨?_, ?_, ?_⟩
  · intro t h v hv
    unfold analyze_em_leakage at hv ⊢
    rw [h]
    exact for_each_ok_congr _ _ (analyze_row_congr h) _ 0 v hv
  · intro e he
    unfold analyze_em_leakage at he
    exact for_each_error (fun e => e = (Fault.out_of_range, s)) _ (analyze_row_error s) _ 0 e he
  · intro N hE
    refine ⟨_, analyze_em_leakage_spec hE, ?_⟩
    intro t h
    rw [analyze_em_leakage_spec (N := N) (h ▸ hE), h]

/-- C17: on an allocated `N × N × N` volume `update_magnetic_field` returns, and every
interior cell `(i, j, k)` of the magnetic grid then holds
`B + delta_time * ((E[i][j+1][k] - E[i][j-1][k]) / 2 - (E[i+1][j][k] - E[i-1][j][k]) / 2
  + mu_0 * J[i][j][k])`, with `B`, `E` and `J` the values at the start of the call,
`mu_0 = 1.2566370614e-6` and `delta_time = 1e-9`. -/
theorem update_magnetic_field_formula (N : Nat) (s : State) (hN : 1 ≤ N)
    (hs : s.WellShaped N) :
    mu_0 = 1.2566370614e-6 ∧ delta_time = 1e-9 ∧
    ∃ s', update_magnetic_field s = .ok s' ∧
      ∀ i j k, (1 ≤ i ∧ i ≤ N - 2) → (1 ≤ j ∧ j ≤ N - 2) → (1 ≤ k ∧ k ≤ N - 2) →
        s'.magnetic_field.get? i j k = some (s.magnetic_field.val i j k + delta_time *
          ((s.electric_field.val i (j + 1) k - s.electric_field.val i (j - 1) k) / 2
            - (s.electric_field.val (i + 1) j k - s.electric_field.val (i - 1) j k) / 2
            + mu_0 * s.current_density.val i j k)) := by
  refine ⟨by unfold mu_0; norm_num, by unfold delta_time; norm_num, ?_⟩
  obtain ⟨s', h, _, _, _, _, hget⟩ := update_magnetic_field_spec hN hs
  refine ⟨s', h, ?_⟩
  intro i j k hi hj hk
  have hint : interior3 N i j k := by
    unfold interior3 interior
    omega
  rw [hget i j k, if_pos hint]
  rfl

/-- Witness for C17: the theorem at `demo3`, read off at the interior cell
`(1, 1, 1)`, where `B = 7`, `J = 10 ^ 16` and `E[0][1][1] = 3`. -/
theorem update_magnetic_field_formula_witness :
    (1 ≤ 3 ∧ demo3.WellShaped 3) ∧
    ∃ s', update_magnetic_field demo3 = .ok s' ∧
      s'.magnetic_field.get? 1 1 1 = some (195663706155 / 10000000000) := by
  refine ⟨⟨by decide, by decide⟩, ?_⟩
  obtain ⟨_, _, s', h, hcell⟩ := update_magnetic_field_formula 3 demo3 (by decide) (by decide)
  refine ⟨s', h, ?_⟩
  rw [hcell 1 1 1 (by decide) (by decide) (by decide)]
  simp [demo3, Grid.val, Grid.get?, delta_time, mu_0]
  norm_num

/-! ## A single seeded cell -/

theorem seed_electric_facts {N i j k : Nat} (hi : i < N) (hj : j < N) (hk : k < N)
    (v : ℚ) :
    (seed_electric N i j k v).WellShaped N ∧
    ∀ x y z, (seed_electric N i j k v).electric_field.get? x y z =
      if x = i ∧ y = j ∧ z = k then some v else (zero_grid N).get? x y z := by
  obtain ⟨g, hg⟩ := Grid.set?_of_get? (zero_grid_get? hi hj hk) v
  have hE : (seed_electric N i j k v).electric_field = g := by
    unfold seed_electric
    simp only [hg, Option.getD_some]
  refine ⟨⟨?_, zero_grid_shape N, zero_grid_shape N⟩, ?_⟩
  · rw [hE]
    exact (zero_grid_shape N).set? hg
  · intro x y z
    rw [hE]
    exact Grid.get?_set? hg x y z

/-- C12: for `N ≥ 3` and an interior cell `(i, j, k)`, from the state that is all zero
except `E[i][j][k] = 1`, one time step (`update_electric_field` then
`update_magnetic_field`) returns and `analyze_em_leakage` then returns `0`. -/
theorem seeded_interior_cell_does_not_leak (N i j k : Nat) (hN : 3 ≤ N)
    (hi : 1 ≤ i ∧ i ≤ N - 2) (hj : 1 ≤ j ∧ j ≤ N - 2) (hk : 1 ≤ k ∧ k ≤ N - 2) :
    (seed_electric N i j k 1).electric_field.get? i j k = some 1 ∧
    ∃ s', fdtd_step (seed_electric N i j k 1) = .ok s' ∧ analyze_em_leakage s' = .ok 0 := by
  obtain ⟨hws, hget⟩ := seed_electric_facts (N := N) (i := i) (j := j) (k := k)
    (by omega) (by omega) (by omega) 1
  refine ⟨by rw [hget i j k, if_pos ⟨rfl, rfl, rfl⟩], ?_⟩
  obtain ⟨s', hstep, hws', _, _, hE, _⟩ := fdtd_step_spec (N := N) (by omega) hws
  refine ⟨s', hstep, ?_⟩
  rw [analyze_em_leakage_spec hws'.1]
  have hzero : ∀ a b, s'.electric_field.val a b 0 = 0 := by
    intro a b
    have hni : ¬ interior3 N a b 0 := by
      unfold interior3 interior
      omega
    have hne : ¬ (a = i ∧ b = j ∧ 0 = k) := by omega
    unfold Grid.val
    rw [hE a b 0, if_neg hni, hget a b 0, if_neg hne]
    exact zero_grid_val N a b 0
  have : scan_sum N s'.electric_field = 0 := by
    unfold scan_sum
    simp [hzero]
  rw [this]

/-- Witness for C12: `N = 3` and its only interior cell `(1, 1, 1)`. -/
theorem seeded_interior_cell_does_not_leak_witness :
    (3 ≤ 3 ∧ (1 ≤ 1 ∧ 1 ≤ 3 - 2) ∧ (1 ≤ 1 ∧ 1 ≤ 3 - 2) ∧ (1 ≤ 1 ∧ 1 ≤ 3 - 2)) ∧
    (seed_electric 3 1 1 1 1).electric_field.get? 1 1 1 = some 1 ∧
    ∃ s', fdtd_step (seed_electric 3 1 1 1 1) = .ok s' ∧ analyze_em_leakage s' = .ok 0 :=
  ⟨by decide, seeded_interior_cell_does_not_leak 3 1 1 1 (by decide) (by decide)
    (by decide) (by decide)⟩

/-! ## The time loop as iterated steps -/

theorem iterate_steps_one (s : State) : iterate_steps 1 s = fdtd_step s := by
  simp only [iterate_steps]
  cases fdtd_step s with
  | ok t => rfl
  | error e => rfl

theorem iterate_steps_succ_last :
    ∀ (n : Nat) (s t : State), iterate_steps n s = .ok t →
      iterate_steps (n + 1) s = fdtd_step t := by
  intro n
  induction n with
  | zero =>
    intro s t h
    simp only [iterate_steps] at h
    cases h
    exact iterate_steps_one s
  | succ n ih =>
    intro s t h
    rw [iterate_steps] at h ⊢
    cases h1 : fdtd_step s with
    | ok s1 =>
      rw [h1] at h
      exact ih s1 t h
    | error e =>
      rw [h1] at h
      cases h

theorem fdtd_step_fields_congr {N : Nat} {u t u1 : State} (hN : 1 ≤ N)
    (hu : u.WellShaped N) (hE : u.electric_field = t.electric_field)
    (hB : u.magnetic_field = t.magnetic_field)
    (hJ : u.current_density = t.current_density) (h : fdtd_step u = .ok u1) :
    ∃ t1, fdtd_step t = .ok t1 ∧ u1.WellShaped N ∧
      u1.electric_field = t1.electric_field ∧ u1.magnetic_field = t1.magnetic_field ∧
      u1.current_density = t1.current_density := by
  have ht : t.WellShaped N := ⟨hE ▸ hu.1, hB ▸ hu.2.1, hJ ▸ hu.2.2⟩
  obtain ⟨u1', h1, hw1, hJ1, _, hE1, hB1⟩ := fdtd_step_spec hN hu
  rw [h] at h1
  cases h1
  obtain ⟨t1, h2, hw2, hJ2, _, hE2, hB2⟩ := fdtd_step_spec hN ht
  have eE : u1.electric_field = t1.electric_field := by
    apply Grid.ext_of_shape hw1.1 hw2.1
    intro x y z _ _ _
    rw [hE1 x y z, hE2 x y z, hE]
    have : elec_new u x y z = elec_new t x y z := by
      unfold elec_new
      rw [hE, hB]
    rw [this]
  have eB : u1.magnetic_field = t1.magnetic_field := by
    apply Grid.ext_of_shape hw1.2.1 hw2.2.1
    intro x y z _ _ _
    have : mag_new { u with electric_field := u1.electric_field } x y z =
        mag_new { t with electric_field := t1.electric_field } x y z := by
      unfold mag_new
      simp only [eE, hB, hJ]
    rw [hB1 x y z, hB2 x y z, this, hB]
  exact ⟨t1, h2, hw1, eE, eB, by rw [hJ1, hJ2, hJ]⟩

/-- With a step count that is not in `1 .. 9`, the three grids after
`run_fdtd_simulation(steps)` on a well-shaped state are those after `steps` iterations
(none for `steps ≤ 0`) of `update_electric_field(); update_magnetic_field();`. -/
theorem run_fdtd_simulation_eq_iterate {N : Nat} {s : State} (hN : 1 ≤ N)
    (hs : s.WellShaped N) {steps : Int} (hsteps : steps ≤ 0 ∨ 10 ≤ steps) :
    ∃ s' t, run_fdtd_simulation steps s = .ok s' ∧ iterate_steps steps.toNat s = .ok t ∧
      s'.electric_field = t.electric_field ∧ s'.magnetic_field = t.magnetic_field ∧
      s'.current_density = t.current_density := by
  by_cases h0 : steps ≤ 0
  · refine ⟨{ s with cout := s.cout ++ [Line.completed] }, s, ?_, ?_, rfl, rfl, rfl⟩
    · unfold run_fdtd_simulation
      rw [int_range_empty h0]
      rfl
    · have : steps.toNat = 0 := by omega
      rw [this]
      rfl
  · have h10 : 10 ≤ steps := by omega
    have hdiv : Int.tdiv steps 10 ≠ 0 := by
      rw [Ne, tdiv_ten_eq_zero_iff (by omega)]
      omega
    obtain ⟨w, hw, hP⟩ := for_each_int_range_inv
      (fun step s =>
        match fdtd_step s with
        | .ok s' => progress_report step steps s'
        | .error e => .error e)
      (fun c u => u.WellShaped N ∧ ∃ t, iterate_steps c.toNat s = .ok t ∧
        u.electric_field = t.electric_field ∧ u.magnetic_field = t.magnetic_field ∧
        u.current_density = t.current_density)
      0 steps (by omega) s
      (fun c u hc0 _ hu => by
        obtain ⟨hwu, t, hit, eE, eB, eJ⟩ := hu
        obtain ⟨u1, hu1, _⟩ := fdtd_step_spec hN hwu
        obtain ⟨t1, ht1, hw1, fE, fB, fJ⟩ := fdtd_step_fields_congr hN hwu eE eB eJ hu1
        obtain ⟨u2, hu2, gE, gB, gJ⟩ := progress_report_ok c u1 hdiv
        have hnat : (c + 1).toNat = c.toNat + 1 := by omega
        refine ⟨u2, by simp only [hu1, hu2], ⟨gE ▸ hw1.1, gB ▸ hw1.2.1, gJ ▸ hw1.2.2⟩,
          t1, ?_, by rw [gE, fE], by rw [gB, fB], by rw [gJ, fJ]⟩
        rw [hnat, iterate_steps_succ_last _ s t hit]
        exact ht1)
      ⟨hs, s, rfl, rfl, rfl, rfl⟩
    obtain ⟨_, t, hit, eE, eB, eJ⟩ := hP
    refine ⟨{ w with cout := w.cout ++ [Line.completed] }, t, ?_, hit, eE, eB, eJ⟩
    unfold run_fdtd_simulation
    rw [hw]

/-- C13 (the code on both sides of the defect): on an allocated `N × N × N` volume and
for `steps ≥ 1`, `run_fdtd_simulation(steps)` with `steps ≤ 9` faults with a zero
divisor after one single iteration of (`update_electric_field`,
`update_magnetic_field`), whatever `steps` is; with `steps ≥ 10` it returns, and the
three grids are those after exactly `steps` iterations of the pair. -/
theorem run_fdtd_simulation_iterates_from_ten_steps (N : Nat) (s : State) (steps : Int)
    (hN : 1 ≤ N) (hs : s.WellShaped N) (h1 : 1 ≤ steps) :
    (steps ≤ 9 → ∃ s1, iterate_steps 1 s = .ok s1 ∧
      run_fdtd_simulation steps s = .error (.zero_divisor, s1)) ∧
    (10 ≤ steps → ∃ s' t, run_fdtd_simulation steps s = .ok s' ∧
      iterate_steps steps.toNat s = .ok t ∧
      s'.electric_field = t.electric_field ∧ s'.magnetic_field = t.magnetic_field ∧
      s'.current_density = t.current_density) := by
  constructor
  · intro h9
    obtain ⟨s1, hstep, hrun⟩ := run_fdtd_simulation_zero_divisor hN hs h1 h9
    exact ⟨s1, by rw [iterate_steps_one, hstep], hrun⟩
  · intro h10
    exact run_fdtd_simulation_eq_iterate hN hs (Or.inr h10)

/-- Witness for C13: five steps on `demo3`; the run stops after one iteration. -/
theorem run_fdtd_simulation_iterates_from_ten_steps_witness :
    (1 ≤ 3 ∧ demo3.WellShaped 3 ∧ (1 : Int) ≤ 5) ∧
    ∃ s1, iterate_steps 1 demo3 = .ok s1 ∧
      run_fdtd_simulation 5 demo3 = .error (.zero_divisor, s1) :=
  ⟨⟨by decide, by decide, by decide⟩,
    (run_fdtd_simulation_iterates_from_ten_steps 3 demo3 5 (by decide) (by decide)
      (by decide)).1 (by decide)⟩

/-! ## Shape invariant -/

/-- C18: from an allocated `N × N × N` volume, any sequence of
`update_electric_field`, `update_magnetic_field`, `apply_shielding` with a region
inside the volume, and `analyze_em_leakage` runs to its end, and in the state it
reaches the electric, magnetic and current-density grids all still have shape
`N × N × N`. -/
theorem operations_preserve_shape (N : Nat) (ops : List Op) (s : State) (hN : 1 ≤ N)
    (hs : s.WellShaped N) (hops : ∀ op ∈ ops, op.in_bounds N) :
    ∃ s', apply_ops ops s = .ok s' ∧ s'.WellShaped N := by
  unfold apply_ops
  induction ops generalizing s with
  | nil => exact ⟨s, rfl, hs⟩
  | cons op ops ih =>
    have hstep : ∃ s1, op.apply s = .ok s1 ∧ s1.WellShaped N := by
      cases op with
      | update_electric =>
        obtain ⟨s1, h1, hB, hJ, _, hE, _⟩ := update_electric_field_spec hN hs
        exact ⟨s1, h1, hE, hB ▸ hs.2.1, hJ ▸ hs.2.2⟩
      | update_magnetic =>
        obtain ⟨s1, h1, hE, hJ, _, hB, _⟩ := update_magnetic_field_spec hN hs
        exact ⟨s1, h1, hE ▸ hs.1, hB, hJ ▸ hs.2.2⟩
      | shield xs ys zs t =>
        have hreg : region_in_volume N xs ys zs t := hops _ (List.mem_cons_self _ _)
        obtain ⟨s1, h1, _, _, hw, _⟩ := apply_shielding_spec hs hreg
        exact ⟨s1, h1, hw⟩
      | analyze =>
        refine ⟨s, ?_, hs⟩
        simp only [Op.apply, analyze_em_leakage_spec hs.1]
    obtain ⟨s1, h1, hw1⟩ := hstep
    obtain ⟨s', h', hw'⟩ := ih s1 hw1 (fun o ho => hops o (List.mem_cons_of_mem _ ho))
    exact ⟨s', by simp only [for_each, h1, h'], hw'⟩

/-- Witness for C18: four operations on `demo3`. -/
theorem operations_preserve_shape_witness :
    (1 ≤ 3 ∧ demo3.WellShaped 3 ∧
      ∀ op ∈ [Op.update_electric, Op.shield 1 1 1 1, Op.analyze, Op.update_magnetic],
        op.in_bounds 3) ∧
    ∃ s', apply_ops [Op.update_electric, Op.shield 1 1 1 1, Op.analyze, Op.update_magnetic]
        demo3 = .ok s' ∧ s'.WellShaped 3 := by
  have hops : ∀ op ∈ [Op.update_electric, Op.shield 1 1 1 1, Op.analyze, Op.update_magnetic],
      op.in_bounds 3 := by
    intro op hop
    simp only [List.mem_cons, List.mem_singleton, List.not_mem_nil, or_false] at hop
    rcases hop with rfl | rfl | rfl | rfl
    · trivial
    · show region_in_volume 3 1 1 1 1
      decide
    · trivial
    · trivial
  exact ⟨⟨by decide, by decide, hops⟩,
    operations_preserve_shape 3 _ demo3 (by decide) (by decide) hops⟩

/-! ## Calls outside the contract -/

theorem range'_one_huge : List.range' 1 (size_minus_one 0 - 1) =
    1 :: List.range' 2 (2 ^ 64 - 3) := by
  have : size_minus_one 0 - 1 = (2 ^ 64 - 3) + 1 := by
    unfold size_minus_one
    norm_num
  rw [this, List.range'_succ]

theorem update_electric_field_empty {s : State} (h : s.electric_field = []) :
    update_electric_field s = .error (.out_of_range, s) := by
  unfold update_electric_field
  rw [h, List.length_nil, range'_one_huge]
  simp only [for_each, update_electric_plane, h, List.getElem?_nil]

theorem update_magnetic_field_empty {s : State} (h : s.magnetic_field = []) :
    update_magnetic_field s = .error (.out_of_range, s) := by
  unfold update_magnetic_field
  rw [h, List.length_nil, range'_one_huge]
  simp only [for_each, update_magnetic_plane, h, List.getElem?_nil]

/-- C19 (as amended): the update functions check nothing and signal nothing.  On a
state whose electric grid is empty `update_electric_field` does not return: the bound
`size() - 1` wraps around, the loop starts at `i = 1`, and the first thing it does is
the out-of-range access `electric_field[0]`; no cell has been written at that point.
Likewise `update_magnetic_field` on an empty magnetic grid. -/
theorem update_on_empty_volume_is_out_of_range (s : State) :
    (s.electric_field = [] → update_electric_field s = .error (.out_of_range, s)) ∧
    (s.magnetic_field = [] → update_magnetic_field s = .error (.out_of_range, s)) :=
  ⟨update_electric_field_empty, update_magnetic_field_empty⟩

/-- Counterexample to C19 as stated: on the freshly started program, whose three
vectors are empty, both update functions end in an out-of-range access: no
precondition violation is signalled, the program reads outside the vector. -/
theorem update_on_start_state_is_undefined :
    start_state.WellShaped 0 ∧
    update_electric_field start_state = .error (.out_of_range, start_state) ∧
    update_magnetic_field start_state = .error (.out_of_range, start_state) :=
  ⟨by decide, update_electric_field_empty rfl, update_magnetic_field_empty rfl⟩

/-- C20 (as amended): `run_fdtd_simulation` does not reject a step count `≤ 0`: it
runs no iteration, leaves the three grids as they are, prints the line
`Simulation completed.` and returns. -/
theorem run_fdtd_simulation_nonpositive_steps (s : State) (steps : Int) (h : steps ≤ 0) :
    run_fdtd_simulation steps s = .ok { s with cout := s.cout ++ [Line.completed] } := by
  unfold run_fdtd_simulation
  rw [int_range_empty h]
  rfl

/-- Witness for C20 (as amended): zero steps on the zero state of extent `3`. -/
theorem run_fdtd_simulation_nonpositive_steps_witness :
    (0 : Int) ≤ 0 ∧
    run_fdtd_simulation 0 (zero_state 3) =
      .ok { zero_state 3 with cout := (zero_state 3).cout ++ [Line.completed] } :=
  ⟨by decide, run_fdtd_simulation_nonpositive_steps (zero_state 3) 0 (by decide)⟩

/-- Counterexample to C20 as stated: `run_fdtd_simulation(-3)` on `demo3` returns
normally, with the grids of `demo3` and the line `Simulation completed.` printed. -/
theorem run_fdtd_simulation_accepts_negative_steps :
    ((-3 : Int) ≤ 0) ∧
    run_fdtd_simulation (-3) demo3 = .ok { demo3 with cout := [Line.completed] } := by
  refine ⟨by decide, ?_⟩
  decide!

/-! ## Console output of the time loop -/

theorem for_each_ok_rel {ε σ ι : Type} (R : σ → σ → Prop)
    (hrefl : ∀ s, R s s) (htrans : ∀ a b c, R a b → R b c → R a c)
    (body : ι → σ → Except ε σ) (hbody : ∀ i s t, body i s = .ok t → R s t) :
    ∀ (l : List ι) (s t : σ), for_each body l s = .ok t → R s t := by
  intro l
  induction l with
  | nil =>
    intro s t h
    cases h
    exact hrefl s
  | cons a l ih =>
    intro s t h
    simp only [for_each] at h
    cases hb : body a s with
    | ok u =>
      rw [hb] at h
      exact htrans _ _ _ (hbody a s u hb) (ih u t h)
    | error e =>
      rw [hb] at h
      cases h

theorem fdtd_step_cout {s t : State} (h : fdtd_step s = .ok t) : t.cout = s.cout := by
  unfold fdtd_step at h
  have h1 := update_electric_field_frame s
  cases he : update_electric_field s with
  | ok u =>
    rw [he] at h h1
    simp only at h
    have h2 := update_magnetic_field_frame u
    rw [h] at h2
    exact h2.2.2.trans h1.2.2
  | error e =>
    rw [he] at h
    cases h

theorem progress_report_cout {step num_steps : Int} {s t : State}
    (h : progress_report step num_steps s = .ok t) :
    ∃ l, t.cout = s.cout ++ l ∧ ∀ x ∈ l, x.is_progress = true := by
  unfold progress_report at h
  split_ifs at h
  · cases h
    exact ⟨[_], rfl, by simp [Line.is_progress]⟩
  · cases h
    exact ⟨[], by simp, by simp⟩

/-- What `run_fdtd_simulation` prints when it returns: progress lines, then
`Simulation completed.`. -/
theorem run_fdtd_simulation_cout {steps : Int} {s t : State}
    (h : run_fdtd_simulation steps s = .ok t) :
    ∃ l, t.cout = s.cout ++ l ++ [Line.completed] ∧ ∀ x ∈ l, x.is_progress = true := by
  unfold run_fdtd_simulation at h
  cases hloop : for_each (fun step s =>
      match fdtd_step s with
      | .ok s' => progress_report step steps s'
      | .error e => .error e) (int_range 0 steps) s with
  | error e =>
    rw [hloop] at h
    cases h
  | ok u =>
    rw [hloop] at h
    cases h
    have key := for_each_ok_rel
      (fun (a b : State) => ∃ l, b.cout = a.cout ++ l ∧ ∀ x ∈ l, Line.is_progress x = true)
      (fun a => ⟨[], by simp, by simp⟩)
      (fun a b c ⟨l1, h1, p1⟩ ⟨l2, h2, p2⟩ => ⟨l1 ++ l2, by rw [h2, h1, List.append_assoc],
        fun x hx => by
          rcases List.mem_append.mp hx with hx | hx
          · exact p1 x hx
          · exact p2 x hx⟩)
      _ (fun step a b hab => by
        cases hs : fdtd_step a with
        | ok a1 =>
          simp only [hs] at hab
          obtain ⟨l, hl, pl⟩ := progress_report_cout hab
          exact ⟨l, by rw [hl, fdtd_step_cout hs], pl⟩
        | error e =>
          simp only [hs] at hab
          cases hab)
      _ s u hloop
    obtain ⟨l, hl, pl⟩ := key
    exact ⟨l, by simp only [hl], pl⟩

/-! ## `main` -/

theorem resize_grid_of_length {n : Nat} {g : Grid} (h : g.length = n) :
    resize_grid n g = g := by
  unfold resize_grid
  rw [h, Nat.sub_self, List.replicate_zero, List.append_nil, ← h, List.take_length]

theorem initialize_fields_of_wellShaped {n : Nat} {s : State} (h : s.WellShaped n) :
    initialize_fields n s = s := by
  unfold initialize_fields
  rw [resize_grid_of_length h.1.1, resize_grid_of_length h.2.1.1,
    resize_grid_of_length h.2.2.1]

theorem initialize_fields_start_state (n : Nat) :
    initialize_fields n start_state = zero_state n := by
  simp [initialize_fields, start_state, resize_grid, zero_state, zero_grid]

theorem scan_sum_congr {N : Nat} {g h : Grid}
    (e : ∀ x y, g.get? x y 0 = h.get? x y 0) : scan_sum N g = scan_sum N h := by
  unfold scan_sum
  apply Finset.sum_congr rfl
  intro i _
  apply Finset.sum_congr rfl
  intro j _
  rw [Grid.val_congr (e i j)]

theorem filter_leakage_of_progress {l : List Line} (h : ∀ x ∈ l, x.is_progress = true) :
    l.filter Line.is_leakage = [] := by
  rw [List.filter_eq_nil_iff]
  intro x hx
  have := h x hx
  cases x <;> simp_all [Line.is_progress, Line.is_leakage]

/-- What `main` does when the volume it works on is `100 × 100 × 100` after the
`resize` calls: the first run returns, the scan returns the leakage `L` of the slice
edge, and `main` ends there when `L ≤ 1`; when `1 < L` it goes on with one
`apply_shielding(10, 10, 10, 10)` and one more run, and ends after that run. -/
theorem main_spec (s : State) (hs : (initialize_fields 100 s).WellShaped 100) :
    ∃ s1 L l1, run_fdtd_simulation 1000 (initialize_fields 100 s) = .ok s1 ∧
      analyze_em_leakage s1 = .ok L ∧
      L = scan_sum 100 (initialize_fields 100 s).electric_field ∧
      s1.cout = s.cout ++ l1 ++ [Line.completed] ∧ (∀ x ∈ l1, x.is_progress = true) ∧
      (¬ 1 < L → main s = .ok { s1 with cout := s1.cout ++ [Line.leakage L] }) ∧
      (1 < L → ∃ s2 s3 l2,
        apply_shielding 10 10 10 10
          { s1 with cout := s1.cout ++ [Line.leakage L] ++ [Line.applying] } = .ok s2 ∧
        run_fdtd_simulation 1000 s2 = .ok s3 ∧ main s = .ok s3 ∧
        s3.cout = s.cout ++ l1 ++ [Line.completed, Line.leakage L, Line.applying] ++ l2
          ++ [Line.completed] ∧
        (∀ x ∈ l2, x.is_progress = true)) := by
  obtain ⟨s1, hrun, hw1, _, hb1⟩ := run_fdtd_simulation_spec (N := 100) (by decide) hs
    (show (1000 : Int) ≤ 0 ∨ (10 : Int) ≤ 1000 by decide)
  obtain ⟨l1, hc1, hp1⟩ := run_fdtd_simulation_cout hrun
  have hc1' : s1.cout = s.cout ++ l1 ++ [Line.completed] := hc1
  have hL := analyze_em_leakage_spec hw1.1
  have hscan : scan_sum 100 s1.electric_field =
      scan_sum 100 (initialize_fields 100 s).electric_field := by
    apply scan_sum_congr
    intro x y
    apply (hb1 x y 0 _).1
    unfold interior3 interior
    omega
  refine ⟨s1, scan_sum 100 s1.electric_field, l1, hrun, hL, hscan, hc1', hp1, ?_, ?_⟩
  · intro hle
    unfold main
    simp only [hrun, hL, if_neg hle]
  · intro hgt
    have hw1' : State.WellShaped 100
        { s1 with cout := s1.cout ++ [Line.leakage (scan_sum 100 s1.electric_field)] ++
          [Line.applying] } := hw1
    obtain ⟨s2, h2, _, hc2, hw2, _⟩ := apply_shielding_spec hw1'
      (show region_in_volume 100 10 10 10 10 by decide)
    obtain ⟨s3, h3, _⟩ := run_fdtd_simulation_spec (N := 100) (by decide) hw2
      (show (1000 : Int) ≤ 0 ∨ (10 : Int) ≤ 1000 by decide)
    obtain ⟨l2, hc3, hp3⟩ := run_fdtd_simulation_cout h3
    refine ⟨s2, s3, l2, h2, h3, ?_, ?_, hp3⟩
    · unfold main
      simp only [hrun, hL, if_pos hgt, h2, h3]
    · rw [hc3, hc2]
      simp only [hc1', List.append_assoc, List.cons_append, List.nil_append]

theorem scan_sum_seed_corner {N : Nat} (hN : 1 ≤ N) (v : ℚ) :
    scan_sum N (seed_electric N 0 0 0 v).electric_field = |v| := by
  obtain ⟨_, hget⟩ := seed_electric_facts (N := N) (i := 0) (j := 0) (k := 0)
    (by omega) (by omega) (by omega) v
  have hval : ∀ a b, (seed_electric N 0 0 0 v).electric_field.val a b 0 =
      if a = 0 ∧ b = 0 then v else 0 := by
    intro a b
    unfold Grid.val
    rw [hget a b 0]
    by_cases hab : a = 0 ∧ b = 0
    · rw [if_pos ⟨hab.1, hab.2, rfl⟩, if_pos hab]
      rfl
    · rw [if_neg (fun hh => hab ⟨hh.1, hh.2.1⟩), if_neg hab]
      exact zero_grid_val N a b 0
  unfold scan_sum
  rw [Finset.sum_eq_single 0]
  · rw [Finset.sum_eq_single 0]
    · simp [hval]
    · intro b _ hb
      simp [hval, hb]
    · intro h0
      exact absurd (Finset.mem_range.mpr (by omega)) h0
  · intro a _ ha
    apply Finset.sum_eq_zero
    intro b _
    simp [hval, ha]
  · intro h0
    exact absurd (Finset.mem_range.mpr (by omega)) h0

/-- C14: on the `100 × 100 × 100` volume `main` works on, the first run and the scan
return a leakage `L`.  If `L ≤ 1`, `main` ends right after printing `L`: no shielding,
no second run.  If `1 < L`, `main` calls `apply_shielding(10, 10, 10, 10)` once, runs
the simulation once more and ends: its output is the first run's progress lines and
`completed`, the leakage `L`, one `applying` line, the second run's progress lines and
`completed`, and nothing else. -/
theorem main_remediates_once_iff_leakage_exceeds_one (s : State)
    (hs : (initialize_fields 100 s).WellShaped 100) :
    ∃ s1 L l1, run_fdtd_simulation 1000 (initialize_fields 100 s) = .ok s1 ∧
      analyze_em_leakage s1 = .ok L ∧
      s1.cout = s.cout ++ l1 ++ [Line.completed] ∧ (∀ x ∈ l1, x.is_progress = true) ∧
      (L ≤ 1 → main s = .ok { s1 with cout := s1.cout ++ [Line.leakage L] }) ∧
      (1 < L → ∃ s2 s3 l2,
        apply_shielding 10 10 10 10
          { s1 with cout := s1.cout ++ [Line.leakage L] ++ [Line.applying] } = .ok s2 ∧
        run_fdtd_simulation 1000 s2 = .ok s3 ∧ main s = .ok s3 ∧
        s3.cout = s.cout ++ l1 ++ [Line.completed, Line.leakage L, Line.applying] ++ l2
          ++ [Line.completed] ∧
        (∀ x ∈ l2, x.is_progress = true)) := by
  obtain ⟨s1, L, l1, h1, h2, _, h3, h4, h5, h6⟩ := main_spec s hs
  exact ⟨s1, L, l1, h1, h2, h3, h4, fun hle => h5 (not_lt.mpr hle), h6⟩

/-- Witness for C14: the freshly started program, whose volume is all zero after the
`resize` calls. -/
theorem main_remediates_once_iff_leakage_exceeds_one_witness :
    (initialize_fields 100 start_state).WellShaped 100 ∧
    ∃ s1 L l1, run_fdtd_simulation 1000 (initialize_fields 100 start_state) = .ok s1 ∧
      analyze_em_leakage s1 = .ok L ∧
      s1.cout = start_state.cout ++ l1 ++ [Line.completed] ∧
      (∀ x ∈ l1, x.is_progress = true) ∧
      (L ≤ 1 → main start_state = .ok { s1 with cout := s1.cout ++ [Line.leakage L] }) ∧
      (1 < L → ∃ s2 s3 l2,
        apply_shielding 10 10 10 10
          { s1 with cout := s1.cout ++ [Line.leakage L] ++ [Line.applying] } = .ok s2 ∧
        run_fdtd_simulation 1000 s2 = .ok s3 ∧ main start_state = .ok s3 ∧
        s3.cout = start_state.cout ++ l1 ++ [Line.completed, Line.leakage L, Line.applying]
          ++ l2 ++ [Line.completed] ∧
        (∀ x ∈ l2, x.is_progress = true)) := by
  have hs : (initialize_fields 100 start_state).WellShaped 100 := by
    rw [initialize_fields_start_state]
    exact zero_state_wellShaped 100
  exact ⟨hs, main_remediates_once_iff_leakage_exceeds_one start_state hs⟩

/-- C15 (the code on the remediation path): when the leakage `L` after the first run
exceeds `1`, `main` returns after the second run, and the lines it has printed hold
exactly one leakage report, the pre-shielding value `L`, and end with the
`completed` line of the second run: no leakage analysis follows the re-run and no
post-shielding value is printed. -/
theorem main_reports_only_pre_shielding_leakage (s : State)
    (hs : (initialize_fields 100 s).WellShaped 100) :
    ∃ s1 L, run_fdtd_simulation 1000 (initialize_fields 100 s) = .ok s1 ∧
      analyze_em_leakage s1 = .ok L ∧
      (1 < L → ∃ s3 out, main s = .ok s3 ∧ s3.cout = s.cout ++ out ∧
        out.filter Line.is_leakage = [Line.leakage L] ∧
        out.getLast? = some Line.completed) := by
  obtain ⟨s1, L, l1, h1, h2, _, _, hp1, _, h6⟩ := main_spec s hs
  refine ⟨s1, L, h1, h2, ?_⟩
  intro hgt
  obtain ⟨_, s3, l2, _, _, hmain, hc, hp2⟩ := h6 hgt
  refine ⟨s3, l1 ++ [Line.completed, Line.leakage L, Line.applying] ++ l2 ++ [Line.completed],
    hmain, ?_, ?_, ?_⟩
  · rw [hc]
    simp only [List.append_assoc]
  · simp only [List.filter_append, filter_leakage_of_progress hp1,
      filter_leakage_of_progress hp2]
    simp [List.filter, Line.is_leakage]
  · exact List.getLast?_concat _

/-- Witness for C15: `main` entered with a `100 × 100 × 100` volume that is all zero
except `E[0][0][0] = 2`: the leakage is `2`, remediation happens, and the only
leakage line printed is the pre-shielding `2`. -/
theorem main_reports_only_pre_shielding_leakage_witness :
    (initialize_fields 100 (seed_electric 100 0 0 0 2)).WellShaped 100 ∧
    ∃ s3 out, main (seed_electric 100 0 0 0 2) = .ok s3 ∧
      s3.cout = (seed_electric 100 0 0 0 2).cout ++ out ∧
      out.filter Line.is_leakage = [Line.leakage 2] ∧
      out.getLast? = some Line.completed := by
  have hw : (seed_electric 100 0 0 0 2).WellShaped 100 :=
    (seed_electric_facts (N := 100) (i := 0) (j := 0) (k := 0)
      (by decide) (by decide) (by decide) 2).1
  have hs : (initialize_fields 100 (seed_electric 100 0 0 0 2)).WellShaped 100 := by
    rw [initialize_fields_of_wellShaped hw]
    exact hw
  refine ⟨hs, ?_⟩
  obtain ⟨s1, L, hrun, hL, himp⟩ :=
    main_reports_only_pre_shielding_leakage (seed_electric 100 0 0 0 2) hs
  obtain ⟨s1', L', _, hrun', hL', hscan, _⟩ := main_spec (seed_electric 100 0 0 0 2) hs
  rw [hrun] at hrun'
  cases hrun'
  rw [hL] at hL'
  cases hL'
  have hL2 : L = 2 := by
    rw [hscan, initialize_fields_of_wellShaped hw, scan_sum_seed_corner (by decide)]
    norm_num
  subst hL2
  exact himp (by norm_num)

/-- C27: on every `N × N × N` electric field `analyze_em_leakage` returns exactly the
sum of `|E[i][j][0]|` over the pairs `(i, j)` with `i ∈ {0, N-1}` or `j ∈ {0, N-1}`,
and two such fields that agree on those cells of the slice `k = 0` give the same
value, whatever they hold in the cells with `k ≠ 0` and in the cells of the slice
`k = 0` whose `i` and `j` are both interior. -/
theorem analyze_em_leakage_ignores_unscanned_cells (N : Nat) (s t : State)
    (hs : s.electric_field.Shape N) (ht : t.electric_field.Shape N)
    (hagree : ∀ i, i < N → ∀ j, j < N → (i = 0 ∨ i = N - 1 ∨ j = 0 ∨ j = N - 1) →
      s.electric_field.get? i j 0 = t.electric_field.get? i j 0) :
    analyze_em_leakage s = .ok (∑ i in Finset.range N, ∑ j in Finset.range N,
      if i = 0 ∨ i = N - 1 ∨ j = 0 ∨ j = N - 1 then |s.electric_field.val i j 0| else 0) ∧
    analyze_em_leakage t = analyze_em_leakage s := by
  refine ⟨analyze_em_leakage_spec hs, ?_⟩
  rw [analyze_em_leakage_spec hs, analyze_em_leakage_spec ht]
  apply congrArg
  unfold scan_sum
  apply Finset.sum_congr rfl
  intro i hi
  apply Finset.sum_congr rfl
  intro j hj
  by_cases hedge : i = 0 ∨ i = N - 1 ∨ j = 0 ∨ j = N - 1
  · rw [if_pos hedge, if_pos hedge,
      Grid.val_congr (hagree i (Finset.mem_range.mp hi) j (Finset.mem_range.mp hj) hedge)]
  · rw [if_neg hedge, if_neg hedge]

/-- Witness for C27: `demo3` and `demo3_off_scan` differ in every cell with `k ≠ 0`
and in the interior cell `(1, 1, 0)`, and both scan to `6`. -/
theorem analyze_em_leakage_ignores_unscanned_cells_witness :
    demo3.electric_field.Shape 3 ∧ demo3_off_scan.electric_field.Shape 3 ∧
    demo3.electric_field.get? 1 1 0 ≠ demo3_off_scan.electric_field.get? 1 1 0 ∧
    demo3.electric_field.get? 0 0 1 ≠ demo3_off_scan.electric_field.get? 0 0 1 ∧
    analyze_em_leakage demo3 = .ok 6 ∧ analyze_em_leakage demo3_off_scan = .ok 6 := by
  have h := analyze_em_leakage_ignores_unscanned_cells 3 demo3 demo3_off_scan
    (by decide) (by decide) (by decide!)
  have h6 : analyze_em_leakage demo3 = .ok 6 := by
    rw [h.1]
    simp [Finset.sum_range_succ, demo3, Grid.val, Grid.get?]
    norm_num
  refine ⟨by decide, by decide, by decide!, by decide!, h6, ?_⟩
  rw [h.2, h6]


/-! ## Leakage across time steps and across shielding -/

/-- On an allocated volume `n` iterations of the time-loop body return a well-shaped
state in which every cell that is not interior keeps its electric value. -/
theorem iterate_steps_boundary {N : Nat} (hN : 1 ≤ N) :
    ∀ (n : Nat) (s : State), s.WellShaped N →
      ∃ s', iterate_steps n s = .ok s' ∧ s'.WellShaped N ∧
        ∀ x y z, ¬ interior3 N x y z →
          s'.electric_field.get? x y z = s.electric_field.get? x y z := by
  intro n
  induction n with
  | zero =>
    intro s hs
    exact ⟨s, rfl, hs, fun _ _ _ _ => rfl⟩
  | succ n ih =>
    intro s hs
    obtain ⟨s1, h1, hw1, _, _, hE1, _⟩ := fdtd_step_spec hN hs
    obtain ⟨s', h', hw', hE'⟩ := ih s1 hw1
    refine ⟨s', ?_, hw', fun x y z hint => ?_⟩
    · simp only [iterate_steps, h1]
      exact h'
    · rw [hE' x y z hint, hE1 x y z, if_neg hint]

theorem scanned_not_interior (N i j : Nat) : ¬ interior3 N i j 0 := by
  unfold interior3 interior
  omega

/-- C31: for every allocated `N × N × N` state and every `n ≥ 0`, the `n` iterations of
(`update_electric_field`, `update_magnetic_field`) return, and `analyze_em_leakage`
returns the same value before and after them. -/
theorem time_stepping_preserves_leakage (N n : Nat) (s : State) (hN : 1 ≤ N)
    (hs : s.WellShaped N) :
    ∃ s' v, iterate_steps n s = .ok s' ∧ analyze_em_leakage s = .ok v ∧
      analyze_em_leakage s' = .ok v := by
  obtain ⟨s', h', hw', hE'⟩ := iterate_steps_boundary hN n s hs
  refine ⟨s', scan_sum N s.electric_field, h', analyze_em_leakage_spec hs.1, ?_⟩
  rw [analyze_em_leakage_spec hw'.1]
  exact congrArg _ (scan_sum_congr (fun x y => hE' x y 0 (scanned_not_interior N x y)))

/-- Witness for C31: two time steps from `demo3` change the state (the interior cell
`(1, 1, 1)` moves), and the leakage is `6` before and after. -/
theorem time_stepping_preserves_leakage_witness :
    (1 ≤ 3 ∧ demo3.WellShaped 3) ∧
    ∃ s' v, iterate_steps 2 demo3 = .ok s' ∧ s' ≠ demo3 ∧
      analyze_em_leakage demo3 = .ok v ∧ analyze_em_leakage s' = .ok v := by
  refine ⟨⟨by decide, by decide⟩, ?_⟩
  obtain ⟨s', v, h1, h2, h3⟩ :=
    time_stepping_preserves_leakage 3 2 demo3 (by decide) (by decide)
  refine ⟨s', v, h1, fun e => ?_, h2, h3⟩
  rw [e] at h1
  exact absurd h1 (by decide!)

theorem scan_sum_le_of_abs_le {N : Nat} {g h : Grid}
    (e : ∀ i j, i < N → j < N → (i = 0 ∨ i = N - 1 ∨ j = 0 ∨ j = N - 1) →
      |g.val i j 0| ≤ |h.val i j 0|) : scan_sum N g ≤ scan_sum N h := by
  unfold scan_sum
  apply Finset.sum_le_sum
  intro i hi
  apply Finset.sum_le_sum
  intro j hj
  by_cases hedge : i = 0 ∨ i = N - 1 ∨ j = 0 ∨ j = N - 1
  · rw [if_pos hedge, if_pos hedge]
    exact e i j (Finset.mem_range.mp hi) (Finset.mem_range.mp hj) hedge
  · rw [if_neg hedge, if_neg hedge]

theorem scan_sum_eq_of_scanned {N : Nat} {g h : Grid}
    (e : ∀ i j, i < N → j < N → (i = 0 ∨ i = N - 1 ∨ j = 0 ∨ j = N - 1) →
      g.get? i j 0 = h.get? i j 0) : scan_sum N g = scan_sum N h := by
  unfold scan_sum
  apply Finset.sum_congr rfl
  intro i hi
  apply Finset.sum_congr rfl
  intro j hj
  by_cases hedge : i = 0 ∨ i = N - 1 ∨ j = 0 ∨ j = N - 1
  · rw [if_pos hedge, if_pos hedge,
      Grid.val_congr (e i j (Finset.mem_range.mp hi) (Finset.mem_range.mp hj) hedge)]
  · rw [if_neg hedge, if_neg hedge]

/-- C33: for every allocated state and every region contained in the volume,
`apply_shielding` returns and the leakage `analyze_em_leakage` returns after it is at
most the leakage before it; the two are equal whenever the region contains no cell
the analyzer scans (no cell with `k = 0` and `i` or `j` in `{0, N - 1}`), which is the
case for the reference region `(10, 10, 10, 10)` in a grid of size `100`. -/
theorem shielding_never_raises_leakage (N : Nat) (s : State) (xs ys zs t : Int)
    (hs : s.WellShaped N) (hreg : region_in_volume N xs ys zs t) :
    (∃ s' before after, analyze_em_leakage s = .ok before ∧
      apply_shielding xs ys zs t s = .ok s' ∧ analyze_em_leakage s' = .ok after ∧
      after ≤ before ∧
      ((∀ i j : Nat, i < N → j < N → (i = 0 ∨ i = N - 1 ∨ j = 0 ∨ j = N - 1) →
          ¬ in_region xs ys zs t i j 0) → after = before)) ∧
    region_in_volume 100 10 10 10 10 ∧
    ∀ i j : Nat, i < 100 → j < 100 → (i = 0 ∨ i = 100 - 1 ∨ j = 0 ∨ j = 100 - 1) →
      ¬ in_region 10 10 10 10 i j 0 := by
  refine ⟨?_, by decide, fun i j _ _ _ hr => ?_⟩
  · obtain ⟨s', h', _, _, hw', hE', _⟩ := apply_shielding_spec hs hreg
    refine ⟨s', scan_sum N s.electric_field, scan_sum N s'.electric_field,
      analyze_em_leakage_spec hs.1, h', analyze_em_leakage_spec hw'.1, ?_, fun hno => ?_⟩
    · apply scan_sum_le_of_abs_le
      intro i j _ _ _
      by_cases hr : in_region xs ys zs t i j 0
      · have hv : s'.electric_field.val i j 0 = s.electric_field.val i j 0 * (1 / 10) := by
          unfold Grid.val
          rw [hE' i j 0]
          simp only [Nat.cast_zero]
          rw [if_pos hr]
          rfl
        rw [hv]
        exact abs_tenth_le _
      · have hv : s'.electric_field.val i j 0 = s.electric_field.val i j 0 := by
          apply Grid.val_congr
          rw [hE' i j 0]
          simp only [Nat.cast_zero]
          rw [if_neg hr]
        rw [hv]
    · apply scan_sum_eq_of_scanned
      intro i j hi hj hedge
      rw [hE' i j 0]
      simp only [Nat.cast_zero]
      rw [if_neg (hno i j hi hj hedge)]
  · unfold in_region at hr
    omega

/-- Witness for C33: shielding the corner region `(0, 0, 0, 1)` of `leaky3`, which
holds the scanned cell `E[0][0][0] = 2`. -/
theorem shielding_never_raises_leakage_witness :
    leaky3.WellShaped 3 ∧ region_in_volume 3 0 0 0 1 ∧
    ∃ s' before after, analyze_em_leakage leaky3 = .ok before ∧
      apply_shielding 0 0 0 1 leaky3 = .ok s' ∧ analyze_em_leakage s' = .ok after ∧
      after ≤ before := by
  obtain ⟨⟨s', before, after, h1, h2, h3, h4, _⟩, _, _⟩ :=
    shielding_never_raises_leakage 3 leaky3 0 0 0 1 (by decide) (by decide)
  exact ⟨by decide, by decide, s', before, after, h1, h2, h3, h4⟩


/-! ## The electric sweep against the simultaneous update -/

theorem elec_list_cell_inv {s0 s : State} {N i j k : Nat}
    {visited : List (Nat × Nat × Nat)} (hB : s0.magnetic_field.Shape N)
    (hint : interior3 N i j k) (hnew : (i, j, k) ∉ visited)
    (h : ElecListInv s0 N visited s) :
    ∃ s', update_electric_cell i j k s = .ok s' ∧
      ElecListInv s0 N ((i, j, k) :: visited) s' := by
  obtain ⟨hBeq, hJ, hc, hsh, hget⟩ := h
  obtain ⟨hi, hj, hk⟩ := hint
  unfold interior at hi hj hk
  have he := hsh.get?_some (i := i) (j := j) (k := k) (by omega) (by omega) (by omega)
  have hval : s.electric_field.val i j k = s0.electric_field.val i j k := by
    apply Grid.val_congr
    rw [hget i j k, if_neg hnew]
  have b1 := hB.get?_some (i := i) (j := j + 1) (k := k) (by omega) (by omega) (by omega)
  have b2 := hB.get?_some (i := i) (j := j - 1) (k := k) (by omega) (by omega) (by omega)
  have b3 := hB.get?_some (i := i + 1) (j := j) (k := k) (by omega) (by omega) (by omega)
  have b4 := hB.get?_some (i := i - 1) (j := j) (k := k) (by omega) (by omega) (by omega)
  obtain ⟨g, hg⟩ := Grid.set?_of_get? he
    (s.electric_field.val i j k - delta_time *
      ((s0.magnetic_field.val i (j + 1) k - s0.magnetic_field.val i (j - 1) k) / 2
        - (s0.magnetic_field.val (i + 1) j k - s0.magnetic_field.val (i - 1) j k) / 2))
  refine ⟨{ s with electric_field := g }, ?_, hBeq, hJ, hc, hsh.set? hg, ?_⟩
  · unfold update_electric_cell
    simp only [he, hBeq, b1, b2, b3, b4, hg]
  · intro x y z
    show g.get? x y z = _
    rw [Grid.get?_set? hg x y z]
    by_cases hxyz : x = i ∧ y = j ∧ z = k
    · obtain ⟨rfl, rfl, rfl⟩ := hxyz
      rw [if_pos ⟨rfl, rfl, rfl⟩, if_pos (List.mem_cons_self _ _), hval]
      rfl
    · rw [if_neg hxyz, hget x y z]
      have e : (x, y, z) ∈ (i, j, k) :: visited ↔ (x, y, z) ∈ visited := by
        rw [List.mem_cons]
        constructor
        · rintro (h1 | h1)
          · exact absurd (by simpa using h1) hxyz
          · exact h1
        · exact Or.inr
      simp only [e]

theorem sweep_electric_cells_inv {s0 : State} {N : Nat} (hB : s0.magnetic_field.Shape N) :
    ∀ (cells visited : List (Nat × Nat × Nat)) (s : State), cells.Nodup →
      (∀ c ∈ cells, interior3 N c.1 c.2.1 c.2.2 ∧ c ∉ visited) →
      ElecListInv s0 N visited s →
      ∃ s', sweep_electric_cells cells s = .ok s' ∧
        ElecListInv s0 N (cells.reverse ++ visited) s' := by
  intro cells
  induction cells with
  | nil =>
    intro visited s _ _ h
    exact ⟨s, rfl, by simpa using h⟩
  | cons c cs ih =>
    intro visited s hnd hcells h
    obtain ⟨hc1, hc2⟩ := hcells c (List.mem_cons_self _ _)
    obtain ⟨t, ht, hinv⟩ := elec_list_cell_inv hB hc1 hc2 h
    have hnd' := List.nodup_cons.mp hnd
    obtain ⟨s', hs', hinv'⟩ := ih (c :: visited) t hnd'.2
      (fun d hd => ⟨(hcells d (List.mem_cons_of_mem _ hd)).1, fun hmem => by
        rcases List.mem_cons.mp hmem with h1 | h1
        · exact hnd'.1 (h1 ▸ hd)
        · exact (hcells d (List.mem_cons_of_mem _ hd)).2 h1⟩) hinv
    refine ⟨s', ?_, ?_⟩
    · unfold sweep_electric_cells at hs' ⊢
      simp only [for_each, ht]
      exact hs'
    · rw [List.reverse_cons, List.append_assoc, List.singleton_append]
      exact hinv'

theorem simultaneous_electric_update_shape (N : Nat) (s : State) :
    (simultaneous_electric_update N s).Shape N := by
  unfold simultaneous_electric_update Grid.Shape
  refine ⟨by simp, ?_⟩
  intro p hp
  obtain ⟨i, _, rfl⟩ := List.mem_map.mp hp
  refine ⟨by simp, ?_⟩
  intro r hr
  obtain ⟨j, _, rfl⟩ := List.mem_map.mp hr
  simp

theorem simultaneous_electric_update_get? (N : Nat) (s : State) {x y z : Nat}
    (hx : x < N) (hy : y < N) (hz : z < N) :
    (simultaneous_electric_update N s).get? x y z =
      some (if interior3 N x y z then elec_new s x y z else s.electric_field.val x y z) := by
  unfold simultaneous_electric_update Grid.get? elec_new
  simp [List.getElem?_map, List.getElem?_range, hx, hy, hz]


/-- C32: on an allocated `N × N × N` volume the in-place sweep of
`update_electric_field` returns the simultaneous update from the pre-call snapshot:
every interior cell `(i, j, k)` then holds
`E[i][j][k] - delta_time * ((B[i][j+1][k] - B[i][j-1][k]) / 2 - (B[i+1][j][k] - B[i-1][j][k]) / 2)`
with `E` and `B` the values before the call, the whole electric grid is the grid of
`simultaneous_electric_update`, and running the loop body over the interior cells in
any other order, each cell once, returns the same state. -/
theorem update_electric_field_equals_simultaneous_update (N : Nat) (s : State)
    (hN : 1 ≤ N) (hs : s.WellShaped N) :
    ∃ s', update_electric_field s = .ok s' ∧
      (∀ i j k, (1 ≤ i ∧ i ≤ N - 2) → (1 ≤ j ∧ j ≤ N - 2) → (1 ≤ k ∧ k ≤ N - 2) →
        s'.electric_field.get? i j k = some (s.electric_field.val i j k - delta_time *
          ((s.magnetic_field.val i (j + 1) k - s.magnetic_field.val i (j - 1) k) / 2
            - (s.magnetic_field.val (i + 1) j k - s.magnetic_field.val (i - 1) j k) / 2))) ∧
      s'.electric_field = simultaneous_electric_update N s ∧
      ∀ cells : List (Nat × Nat × Nat), cells.Nodup →
        (∀ x y z, (x, y, z) ∈ cells ↔ interior3 N x y z) →
        sweep_electric_cells cells s = .ok s' := by
  obtain ⟨s', h, hB, hJ, hc, hsh, hget⟩ := update_electric_field_spec hN hs
  refine ⟨s', h, fun i j k hi hj hk => ?_, ?_, fun cells hnd hmem => ?_⟩
  · have hint : interior3 N i j k := by
      unfold interior3 interior
      omega
    rw [hget i j k, if_pos hint]
    rfl
  · apply Grid.ext_of_shape hsh (simultaneous_electric_update_shape N s)
    intro x y z hx hy hz
    rw [hget x y z, simultaneous_electric_update_get? N s hx hy hz]
    by_cases hint : interior3 N x y z
    · rw [if_pos hint, if_pos hint]
    · rw [if_neg hint, if_neg hint, hs.1.get?_some hx hy hz]
  · obtain ⟨t, ht, tB, tJ, tc, tsh, tget⟩ := sweep_electric_cells_inv hs.2.1 cells [] s hnd
      (fun c hc => ⟨(hmem c.1 c.2.1 c.2.2).mp hc, List.not_mem_nil c⟩)
      ⟨rfl, rfl, rfl, hs.1, fun x y z => by rw [if_neg (List.not_mem_nil _)]⟩
    rw [ht]
    apply congrArg
    apply State.ext_fields _ (by rw [tB, hB]) (by rw [tJ, hJ]) (by rw [tc, hc])
    apply Grid.ext_of_shape tsh hsh
    intro x y z _ _ _
    rw [tget x y z, hget x y z]
    by_cases hint : interior3 N x y z
    · rw [if_pos hint, if_pos (by simpa using (hmem x y z).mpr hint)]
    · rw [if_neg hint, if_neg (by simpa using fun hh => hint ((hmem x y z).mp hh))]

/-- Witness for C32: on the `4 × 4 × 4` state `leapfrog_cex` the call moves the
interior cell `E[1][1][1]` from `0` to `1`, and visiting the eight interior cells in
the reverse order returns the same state. -/
theorem update_electric_field_equals_simultaneous_update_witness :
    (1 ≤ 4 ∧ leapfrog_cex.WellShaped 4) ∧
    ∃ s', update_electric_field leapfrog_cex = .ok s' ∧
      s'.electric_field.get? 1 1 1 = some 1 ∧
      s'.electric_field = simultaneous_electric_update 4 leapfrog_cex ∧
      sweep_electric_cells reversed_cells4 leapfrog_cex = .ok s' := by
  refine ⟨⟨by decide, by decide⟩, ?_⟩
  obtain ⟨s', h, hcell, hsim, hord⟩ :=
    update_electric_field_equals_simultaneous_update 4 leapfrog_cex (by decide) (by decide)
  refine ⟨s', h, ?_, hsim, hord reversed_cells4 (by decide) (fun x y z => ?_)⟩
  · rw [hcell 1 1 1 (by decide) (by decide) (by decide)]
    simp [leapfrog_cex, zero_grid, Grid.val, Grid.get?, delta_time]
    norm_num
  · unfold interior3 interior reversed_cells4
    simp only [List.mem_cons, Prod.mk.injEq, List.mem_nil_iff, or_false]
    omega

end Fdtd

namespace Dense

/-! ## Basic facts about matrices -/

theorem mat_get?_eq_some_iff {A : Mat} {i j : Nat} {v : ℚ} :
    A.get? i j = some v ↔ ∃ r, A[i]? = some r ∧ r[j]? = some v := by
  unfold Mat.get?
  cases hr : A[i]? with
  | none => simp
  | some r => simp

theorem mat_shape_get?_some {m n : Nat} {A : Mat} (h : A.Shape m n) {i j : Nat}
    (hi : i < m) (hj : j < n) : A.get? i j = some (A.val i j) := by
  obtain ⟨hlen, hrows⟩ := h
  have hi' : i < A.length := by omega
  have hr := hrows A[i] (List.getElem_mem _)
  have hj' : j < A[i].length := by omega
  have : A.get? i j = some A[i][j] := by
    rw [mat_get?_eq_some_iff]
    exact ⟨A[i], List.getElem?_eq_getElem hi', List.getElem?_eq_getElem hj'⟩
  simp [Mat.val, this]

theorem mat_set?_of_get? {A : Mat} {i j : Nat} {e : ℚ} (h : A.get? i j = some e)
    (v : ℚ) : ∃ A', A.set? i j v = some A' := by
  obtain ⟨r, hr, hc⟩ := mat_get?_eq_some_iff.mp h
  have hj := (List.getElem?_eq_some.mp hc).1
  exact ⟨A.set i (r.set j v), by simp [Mat.set?, hr, hj]⟩

theorem mat_set?_eq_some {A A' : Mat} {i j : Nat} {v : ℚ} (h : A.set? i j v = some A') :
    ∃ r, A[i]? = some r ∧ j < r.length ∧ A' = A.set i (r.set j v) := by
  unfold Mat.set? at h
  cases hr : A[i]? with
  | none => simp [hr] at h
  | some r =>
    simp only [hr] at h
    by_cases hj : j < r.length
    · simp only [hj, if_true, Option.some.injEq] at h
      exact ⟨r, rfl, hj, h.symm⟩
    · simp [hj] at h

theorem mat_get?_set? {A A' : Mat} {i j : Nat} {v : ℚ} (h : A.set? i j v = some A')
    (x y : Nat) : A'.get? x y = if x = i ∧ y = j then some v else A.get? x y := by
  obtain ⟨r, hr, hj, rfl⟩ := mat_set?_eq_some h
  have hi := (List.getElem?_eq_some.mp hr).1
  unfold Mat.get?
  by_cases hx : x = i
  · subst hx
    by_cases hy : y = j
    · subst hy
      simp [hi, hj]
    · have hy' : ¬ j = y := fun e => hy e.symm
      simp [hi, hy, hy', List.getElem?_set, hr]
  · have hx' : ¬ i = x := fun e => hx e.symm
    simp [hx, hx', List.getElem?_set]

theorem mat_shape_set? {m n : Nat} {A A' : Mat} (hA : A.Shape m n) {i j : Nat} {v : ℚ}
    (h : A.set? i j v = some A') : A'.Shape m n := by
  obtain ⟨r, hr, hj, rfl⟩ := mat_set?_eq_some h
  obtain ⟨hlen, hrows⟩ := hA
  have hrm : r ∈ A := List.getElem?_mem hr
  refine ⟨by simp [hlen], ?_⟩
  intro q hq
  rcases List.mem_or_eq_of_mem_set hq with hq | rfl
  · exact hrows q hq
  · simp [hrows r hrm]

theorem mat_val_congr {A B : Mat} {x y : Nat} (e : A.get? x y = B.get? x y) :
    A.val x y = B.val x y := by
  unfold Mat.val
  rw [e]

theorem mat_ext_of_shape {m n : Nat} {A B : Mat} (hA : A.Shape m n) (hB : B.Shape m n)
    (e : ∀ x y, x < m → y < n → A.get? x y = B.get? x y) : A = B := by
  obtain ⟨al, arows⟩ := hA
  obtain ⟨bl, brows⟩ := hB
  apply List.ext_getElem (by omega)
  intro i hi1 hi2
  have ar := arows A[i] (List.getElem_mem _)
  have br := brows B[i] (List.getElem_mem _)
  apply List.ext_getElem (by omega)
  intro j hj1 hj2
  have := e i j (by omega) (by omega)
  have ea : A.get? i j = some A[i][j] := by
    rw [mat_get?_eq_some_iff]
    exact ⟨A[i], List.getElem?_eq_getElem hi1, List.getElem?_eq_getElem hj1⟩
  have eb : B.get? i j = some B[i][j] := by
    rw [mat_get?_eq_some_iff]
    exact ⟨B[i], List.getElem?_eq_getElem hi2, List.getElem?_eq_getElem hj2⟩
  rw [ea, eb] at this
  exact Option.some.inj this

theorem vec_get?_some {v : Vec} {i : Nat} (h : i < v.length) : v[i]? = some (v.val i) := by
  unfold Vec.val
  rw [List.getElem?_eq_getElem h]
  rfl

theorem vec_get?_set (v : Vec) (i : Nat) (a : ℚ) (r : Nat) :
    (v.set i a)[r]? = if r = i ∧ i < v.length then some a else v[r]? := by
  rw [List.getElem?_set]
  by_cases h : i = r
  · subst h
    by_cases hl : i < v.length
    · simp [hl]
    · simp [hl]
      omega
  · have h' : ¬ r = i := fun e => h e.symm
    simp [h, h']

theorem vec_val_set {v : Vec} {i : Nat} (hi : i < v.length) (a : ℚ) (r : Nat) :
    Vec.val (v.set i a) r = if r = i then a else v.val r := by
  unfold Vec.val
  rw [vec_get?_set]
  by_cases h : r = i
  · simp [h, hi]
  · simp [h]

theorem vec_val_congr {v w : Vec} {r : Nat} (e : v[r]? = w[r]?) : v.val r = w.val r := by
  unfold Vec.val
  rw [e]

theorem mat_val_of_get? {A : Mat} {x y : Nat} {v : ℚ} (h : A.get? x y = some v) :
    A.val x y = v := by
  unfold Mat.val
  rw [h]
  rfl

end Dense

namespace MatVec

open Dense Fdtd

/-! ## `matrix_vector_multiply` -/

theorem multiply_entry_inv {A : Mat} {v : Vec} {m n i j : Nat} {w : Vec}
    (hA : A.Shape m n) (hv : v.length = n) (hi : i < m) (hj : j < n)
    (h : MulInv A v m n i j w) :
    ∃ w', multiply_entry A v i j w = .ok w' ∧ MulInv A v m n i (j + 1) w' := by
  have hw := h i
  rw [if_pos hi, if_neg (Nat.lt_irrefl i), if_pos rfl] at hw
  have hlen : i < w.length := (List.getElem?_eq_some.mp hw).1
  refine ⟨w.set i (∑ c in Finset.range j, A.val i c * v.val c + A.val i j * v.val j), ?_, ?_⟩
  · unfold multiply_entry
    simp only [hw, mat_shape_get?_some hA hi hj, vec_get?_some (hv ▸ hj)]
  · intro r
    rw [List.getElem?_set]
    by_cases hr : i = r
    · subst hr
      simp only [if_true, hlen, hi, Nat.lt_irrefl, if_false, Finset.sum_range_succ]
    · rw [if_neg hr, h r]
      have hr' : ¬ r = i := fun e => hr e.symm
      simp only [hr', if_false]

theorem multiply_row_inv {A : Mat} {v : Vec} {m n i : Nat} {w : Vec}
    (hA : A.Shape m n) (hv : v.length = n) (hi : i < m) (h : MulInv A v m n i 0 w) :
    ∃ w', for_each (multiply_entry A v i) (List.range v.length) w = .ok w' ∧
      MulInv A v m n (i + 1) 0 w' := by
  obtain ⟨w', hw', hinv⟩ := for_each_range_inv (multiply_entry A v i)
    (fun j u => MulInv A v m n i j u) n 0 w
    (fun c u _ h2 hP => multiply_entry_inv hA hv hi (by omega) hP) h
  refine ⟨w', by rw [hv, List.range_eq_range']; exact hw', ?_⟩
  intro r
  rw [hinv r]
  by_cases hr : r < m
  · simp only [hr, if_true, Nat.zero_add, Finset.sum_range_zero]
    by_cases h1 : r < i
    · have h2 : r < i + 1 := by omega
      simp only [h1, h2, if_true]
    · by_cases h2 : r = i
      · subst h2
        simp
      · have h3 : ¬ r < i + 1 := by omega
        have h4 : ¬ r = i + 1 ∨ r = i + 1 := by omega
        simp only [h1, h2, h3, if_false]
        split_ifs <;> rfl
  · simp only [hr, if_false]

/-- What `matrix_vector_multiply` returns on an `m × n` matrix and a vector of length
`n`: the vector of the `m` row sums. -/
theorem matrix_vector_multiply_spec {A : Mat} {v : Vec} {m n : Nat} (hA : A.Shape m n)
    (hv : v.length = n) :
    ∃ w, matrix_vector_multiply A v = .ok w ∧ w.length = m ∧
      ∀ i, i < m → w[i]? = some (∑ j in Finset.range n, A.val i j * v.val j) := by
  have hstart : MulInv A v m n 0 0 (List.replicate m 0) := by
    intro r
    by_cases hr : r < m
    · simp [hr, List.getElem?_replicate]
    · simp [hr, List.getElem?_replicate]
  obtain ⟨w, hw, hinv⟩ := for_each_range_inv
    (fun i => for_each (multiply_entry A v i) (List.range v.length))
    (fun i u => MulInv A v m n i 0 u) m 0 (List.replicate m 0)
    (fun c u _ h2 hP => multiply_row_inv hA hv (by omega) hP) hstart
  refine ⟨w, ?_, ?_, ?_⟩
  · unfold matrix_vector_multiply
    rw [hA.1, List.range_eq_range' m]
    exact hw
  · have h1 := hinv m
    have h2 := hinv (m - 1)
    rw [if_neg (Nat.lt_irrefl m)] at h1
    have := List.getElem?_eq_none_iff.mp h1
    by_cases hm : m = 0
    · omega
    · rw [if_pos (by omega)] at h2
      have := (List.getElem?_eq_some.mp h2).1
      omega
  · intro i hi
    rw [hinv i, if_pos hi, if_pos (by omega)]

/-- C26: on an `m × n` matrix `A` and a vector `v` of length `n`,
`matrix_vector_multiply(A, v)` returns a vector `w` of length `m` with
`w[i] = Σ_{j < n} A[i][j] * v[j]` for every row `i`; on the matrix and vector of
`main` it returns `(14, 32, 50)`. -/
theorem matrix_vector_multiply_row_sums :
    (∀ (m n : Nat) (A : Mat) (v : Vec), A.Shape m n → v.length = n →
      ∃ w, matrix_vector_multiply A v = .ok w ∧ w.length = m ∧
        ∀ i, i < m → w[i]? = some (∑ j in Finset.range n, A.val i j * v.val j)) ∧
    matrix_vector_multiply main_A main_v = .ok [14, 32, 50] :=
  ⟨fun _ _ _ _ hA hv => matrix_vector_multiply_spec hA hv, by decide!⟩

end MatVec

namespace DataFrameCxx

/-! ## `add_column` -/

theorem add_column_ok_of_fit (df : DataFrame) (name : String) (column : DataFrameColumn) :
    (∀ first, df.columns[0]? = some first → first.length = column.length) →
    add_column df name column =
      .ok { columns := df.columns ++ [column], column_names := df.column_names ++ [name] } := by
  intro h
  unfold add_column
  cases hc : df.columns with
  | nil => rfl
  | cons first rest =>
    have := h first (by rw [hc]; exact List.getElem?_cons_zero)
    simp only [this, ne_eq, not_true_eq_false, if_false]

theorem add_column_error_of_misfit (df : DataFrame) (name : String) (column : DataFrameColumn)
    (first : DataFrameColumn) (h0 : df.columns[0]? = some first)
    (hne : first.length ≠ column.length) :
    add_column df name column = .error (.invalid_argument, df) := by
  unfold add_column
  cases hc : df.columns with
  | nil => rw [hc] at h0; cases h0
  | cons f rest =>
    rw [hc] at h0
    simp only [List.getElem?_cons_zero, Option.some.injEq] at h0
    subst h0
    simp only [ne_eq, hne, not_false_eq_true, if_true]

theorem after_add_column_consistent (df : DataFrame) (call : String × DataFrameColumn)
    (h : df.Consistent) : (after_add_column df call).Consistent := by
  unfold after_add_column
  by_cases hfit : ∀ first, df.columns[0]? = some first → first.length = call.2.length
  · rw [add_column_ok_of_fit df call.1 call.2 hfit]
    refine ⟨by simp [h.1], ?_⟩
    intro first h0 c hc
    simp only at h0 hc
    cases hcols : df.columns with
    | nil =>
      rw [hcols] at h0 hc
      simp only [List.nil_append, List.getElem?_cons_zero, Option.some.injEq] at h0
      simp only [List.nil_append, List.mem_singleton] at hc
      rw [hc, h0]
    | cons f rest =>
      have hf : df.columns[0]? = some f := by rw [hcols]; exact List.getElem?_cons_zero
      rw [hcols] at h0
      simp only [List.cons_append, List.getElem?_cons_zero, Option.some.injEq] at h0
      subst h0
      rcases List.mem_append.mp hc with hc | hc
      · exact h.2 f hf c hc
      · simp only [List.mem_singleton] at hc
        rw [hc]
        exact (hfit f hf).symm
  · push_neg at hfit
    obtain ⟨first, h0, hne⟩ := hfit
    rw [add_column_error_of_misfit df call.1 call.2 first h0 hne]
    exact h

/-- C23: every data frame obtained from the empty one by a sequence of `add_column`
calls, each of which may return or throw, has columns that all have the same number
of rows, and as many column names as columns. -/
theorem add_column_keeps_data_frame_consistent (calls : List (String × DataFrameColumn)) :
    (∀ c ∈ (after_calls calls DataFrame.empty).columns,
      ∀ d ∈ (after_calls calls DataFrame.empty).columns, c.length = d.length) ∧
    (after_calls calls DataFrame.empty).column_names.length =
      (after_calls calls DataFrame.empty).columns.length := by
  have key : ∀ (l : List (String × DataFrameColumn)) (df : DataFrame),
      df.Consistent → (after_calls l df).Consistent := by
    intro l
    induction l with
    | nil => intro df h; exact h
    | cons a l ih =>
      intro df h
      exact ih _ (after_add_column_consistent df a h)
  have hempty : DataFrame.empty.Consistent :=
    ⟨rfl, fun first h0 => by simp [DataFrame.empty] at h0⟩
  obtain ⟨h1, h2⟩ := key calls DataFrame.empty hempty
  refine ⟨?_, h1⟩
  intro c hc d hd
  cases hcols : (after_calls calls DataFrame.empty).columns with
  | nil => rw [hcols] at hc; cases hc
  | cons f rest =>
    have hf : (after_calls calls DataFrame.empty).columns[0]? = some f := by
      rw [hcols]
      exact List.getElem?_cons_zero
    rw [h2 f hf c hc, h2 f hf d hd]

/-- C24: `add_column(df, name, column)` throws exactly when `df` has a first column
whose size differs from `column.size()`; the exception is `invalid_argument` and `df`
is as before the call; when the call returns, `column` and `name` have been appended
as the last entries of `columns` and `column_names`. -/
theorem add_column_throws_iff_size_differs (df : DataFrame) (name : String)
    (column : DataFrameColumn) :
    ((∃ e, add_column df name column = .error e) ↔
      ∃ first, df.columns[0]? = some first ∧ first.length ≠ column.length) ∧
    (∀ e, add_column df name column = .error e → e = (Exception.invalid_argument, df)) ∧
    (∀ df', add_column df name column = .ok df' →
      df'.columns = df.columns ++ [column] ∧
      df'.column_names = df.column_names ++ [name]) := by
  by_cases hfit : ∀ first, df.columns[0]? = some first → first.length = column.length
  · have hok := add_column_ok_of_fit df name column hfit
    refine ⟨⟨?_, ?_⟩, ?_, ?_⟩
    · rintro ⟨e, he⟩
      rw [hok] at he
      cases he
    · rintro ⟨first, h0, hne⟩
      exact absurd (hfit first h0) hne
    · intro e he
      rw [hok] at he
      cases he
    · intro df' h
      rw [hok] at h
      cases h
      exact ⟨rfl, rfl⟩
  · push_neg at hfit
    obtain ⟨first, h0, hne⟩ := hfit
    have herr := add_column_error_of_misfit df name column first h0 hne
    refine ⟨⟨fun _ => ⟨first, h0, hne⟩, fun _ => ⟨_, herr⟩⟩, ?_, ?_⟩
    · intro e he
      rw [herr] at he
      cases he
      rfl
    · intro df' h
      rw [herr] at h
      cases h

/-! ## `extract_numeric_column` -/

theorem visit_element_id (i : Nat) (val : DataFrameElement) (result : List (Option ℚ)) :
    visit_element i val result = result := by
  unfold visit_element decltype_val
  rw [if_neg]
  rintro (h | h) <;> cases h

theorem foldl_id_of_step {α β : Type} (f : α → β → α) (h : ∀ a b, f a b = a) :
    ∀ (l : List β) (a : α), l.foldl f a = a := by
  intro l
  induction l with
  | nil => intro a; rfl
  | cons b l ih =>
    intro a
    rw [List.foldl_cons, h a b]
    exact ih a

/-- C25 (the code on every column): on a column whose elements are all `int` or
`double`, `extract_numeric_column` returns a vector of the column's length in which
no coefficient has been assigned: the `if constexpr` test compares `decltype(val)`,
which is `const int&` or `const double&`, with `int` and `double`, so the assignment
`result[i] = static_cast<double>(val)` is never compiled in.  On a column with a
`char` or `string` element it throws `invalid_argument`. -/
theorem extract_numeric_column_assigns_nothing (column : DataFrameColumn) :
    (is_numeric_column column = true →
      extract_numeric_column column = .ok (List.replicate column.length none)) ∧
    (is_numeric_column column = false →
      extract_numeric_column column = .error .invalid_argument) := by
  constructor
  · intro h
    unfold extract_numeric_column
    rw [if_neg (by simp [h])]
    congr 1
    apply foldl_id_of_step
    intro result i
    cases column[i]? with
    | none => rfl
    | some val => exact visit_element_id i val result
  · intro h
    unfold extract_numeric_column
    rw [if_pos h]

/-- Witness for C25: the columns `{1, 2, 3}` and `{1.5, 2.5, 3.5}` of `main`; neither
`(1.0, 2.0, 3.0)` nor `(1.5, 2.5, 3.5)` is returned, the three coefficients are
unassigned. -/
theorem extract_numeric_column_assigns_nothing_witness :
    (is_numeric_column int_col1 = true ∧ is_numeric_column double_col1 = true) ∧
    extract_numeric_column int_col1 = .ok [none, none, none] ∧
    extract_numeric_column double_col1 = .ok [none, none, none] :=
  ⟨⟨by decide, by decide⟩,
    (extract_numeric_column_assigns_nothing int_col1).1 (by decide),
    (extract_numeric_column_assigns_nothing double_col1).1 (by decide)⟩

end DataFrameCxx

namespace Wave2D

open Dense Fdtd

/-! ## The 2D updates -/

theorem swept2_succ_iff {i j x y : Nat} (hne : ¬ (x = i ∧ y = j)) :
    swept2 i (j + 1) x y ↔ swept2 i j x y := by
  unfold swept2
  omega

theorem swept2_row_iff {i x y : Nat} (hy : Fdtd.interior grid_size y) :
    swept2 i (1 + (grid_size - 1 - 1)) x y ↔ swept2 (i + 1) 1 x y := by
  unfold Fdtd.interior at hy
  unfold swept2
  omega

theorem swept2_start {x y : Nat} (h : interior2 x y) : ¬ swept2 1 1 x y := by
  unfold interior2 Fdtd.interior at h
  unfold swept2
  omega

theorem swept2_end {x y : Nat} (h : interior2 x y) :
    swept2 (1 + (grid_size - 1 - 1)) 1 x y := by
  unfold interior2 Fdtd.interior at h
  unfold swept2
  omega

theorem wave_elec_cell_inv {dt dx : ℚ} {s0 s : Fields} {i j : Nat} (hdx : dx ≠ 0)
    (hB : s0.B.Shape grid_size grid_size) (hi : Fdtd.interior grid_size i)
    (hj : Fdtd.interior grid_size j) (h : WaveElecInv dt dx s0 i j s) :
    ∃ s', update_electric_cell dt dx i j s = .ok s' ∧ WaveElecInv dt dx s0 i (j + 1) s' := by
  obtain ⟨hBeq, hsh, hget⟩ := h
  unfold Fdtd.interior at hi hj
  have hself : ¬ swept2 i j i j := by unfold swept2; omega
  have he := mat_shape_get?_some hsh (i := i) (j := j) (by omega) (by omega)
  have hval : s.E.val i j = s0.E.val i j := by
    apply mat_val_congr
    rw [hget i j, if_neg (fun hh => hself hh.2)]
  have b1 := mat_shape_get?_some hB (i := i + 1) (j := j) (by omega) (by omega)
  have b0 := mat_shape_get?_some hB (i := i) (j := j) (by omega) (by omega)
  obtain ⟨g, hg⟩ := mat_set?_of_get? he
    (s.E.val i j + dt * (s0.B.val (i + 1) j - s0.B.val i j) / dx)
  refine ⟨{ s with E := g }, ?_, hBeq, mat_shape_set? hsh hg, ?_⟩
  · unfold update_electric_cell
    simp only [he, hBeq, b1, b0, hg, if_neg hdx]
  · intro x y
    show g.get? x y = _
    rw [mat_get?_set? hg x y]
    by_cases hxy : x = i ∧ y = j
    · obtain ⟨rfl, rfl⟩ := hxy
      have hsw : swept2 x (y + 1) x y := by unfold swept2; omega
      have hint : interior2 x y := ⟨hi, hj⟩
      rw [if_pos ⟨rfl, rfl⟩, if_pos ⟨hint, hsw⟩, hval]
      rfl
    · rw [if_neg hxy, hget x y]
      simp only [swept2_succ_iff hxy]

/-- What `update_electric_field(dt, dx)` does to well-shaped fields when `dx ≠ 0`. -/
theorem wave_update_electric_field_spec (dt : ℚ) {dx : ℚ} {s : Fields} (hdx : dx ≠ 0)
    (hs : s.WellShaped) :
    ∃ s', update_electric_field dt dx s = .ok s' ∧ s'.B = s.B ∧
      s'.E.Shape grid_size grid_size ∧
      ∀ x y, s'.E.get? x y =
        if interior2 x y then some (wave_elec_new dt dx s x y) else s.E.get? x y := by
  obtain ⟨hE, hB⟩ := hs
  have hstart : WaveElecInv dt dx s 1 1 s :=
    ⟨rfl, hE, fun x y => by
      by_cases hint : interior2 x y
      · rw [if_neg (fun hh => swept2_start hint hh.2)]
      · rw [if_neg (fun hh => hint hh.1)]⟩
  obtain ⟨s', hs', hinv⟩ := for_each_range_inv
    (fun i => for_each (update_electric_cell dt dx i) (List.range' 1 (grid_size - 1 - 1)))
    (fun i t => WaveElecInv dt dx s i 1 t) (grid_size - 1 - 1) 1 s
    (fun c t h1 h2 hP => by
      have hc : Fdtd.interior grid_size c := ⟨h1, by omega⟩
      obtain ⟨t', ht', hinv'⟩ := for_each_range_inv (update_electric_cell dt dx c)
        (fun j u => WaveElecInv dt dx s c j u) (grid_size - 1 - 1) 1 t
        (fun d u g1 g2 hQ => wave_elec_cell_inv hdx hB hc ⟨g1, by omega⟩ hQ) hP
      refine ⟨t', ht', hinv'.1, hinv'.2.1, fun x y => ?_⟩
      rw [hinv'.2.2 x y]
      by_cases hint : interior2 x y
      · simp only [swept2_row_iff hint.2]
      · simp [hint]) hstart
  refine ⟨s', hs', hinv.1, hinv.2.1, fun x y => ?_⟩
  rw [hinv.2.2 x y]
  by_cases hint : interior2 x y
  · rw [if_pos ⟨hint, swept2_end hint⟩, if_pos hint]
  · rw [if_neg (fun hh => hint hh.1), if_neg hint]

theorem wave_mag_cell_inv {dt dx : ℚ} {s0 s : Fields} {i j : Nat} (hdx : dx ≠ 0)
    (hE : s0.E.Shape grid_size grid_size) (hi : Fdtd.interior grid_size i)
    (hj : Fdtd.interior grid_size j) (h : WaveMagInv dt dx s0 i j s) :
    ∃ s', update_magnetic_cell dt dx i j s = .ok s' ∧ WaveMagInv dt dx s0 i (j + 1) s' := by
  obtain ⟨hEeq, hsh, hget⟩ := h
  unfold Fdtd.interior at hi hj
  have hself : ¬ swept2 i j i j := by unfold swept2; omega
  have hb := mat_shape_get?_some hsh (i := i) (j := j) (by omega) (by omega)
  have hval : s.B.val i j = s0.B.val i j := by
    apply mat_val_congr
    rw [hget i j, if_neg (fun hh => hself hh.2)]
  have e1 := mat_shape_get?_some hE (i := i) (j := j + 1) (by omega) (by omega)
  have e0 := mat_shape_get?_some hE (i := i) (j := j) (by omega) (by omega)
  obtain ⟨g, hg⟩ := mat_set?_of_get? hb
    (s.B.val i j + dt * (s0.E.val i (j + 1) - s0.E.val i j) / dx)
  refine ⟨{ s with B := g }, ?_, hEeq, mat_shape_set? hsh hg, ?_⟩
  · unfold update_magnetic_cell
    simp only [hb, hEeq, e1, e0, hg, if_neg hdx]
  · intro x y
    show g.get? x y = _
    rw [mat_get?_set? hg x y]
    by_cases hxy : x = i ∧ y = j
    · obtain ⟨rfl, rfl⟩ := hxy
      have hsw : swept2 x (y + 1) x y := by unfold swept2; omega
      have hint : interior2 x y := ⟨hi, hj⟩
      rw [if_pos ⟨rfl, rfl⟩, if_pos ⟨hint, hsw⟩, hval]
      rfl
    · rw [if_neg hxy, hget x y]
      simp only [swept2_succ_iff hxy]

/-- What `update_magnetic_field(dt, dx)` does to well-shaped fields when `dx ≠ 0`. -/
theorem wave_update_magnetic_field_spec (dt : ℚ) {dx : ℚ} {s : Fields} (hdx : dx ≠ 0)
    (hs : s.WellShaped) :
    ∃ s', update_magnetic_field dt dx s = .ok s' ∧ s'.E = s.E ∧
      s'.B.Shape grid_size grid_size ∧
      ∀ x y, s'.B.get? x y =
        if interior2 x y then some (wave_mag_new dt dx s x y) else s.B.get? x y := by
  obtain ⟨hE, hB⟩ := hs
  have hstart : WaveMagInv dt dx s 1 1 s :=
    ⟨rfl, hB, fun x y => by
      by_cases hint : interior2 x y
      · rw [if_neg (fun hh => swept2_start hint hh.2)]
      · rw [if_neg (fun hh => hint hh.1)]⟩
  obtain ⟨s', hs', hinv⟩ := for_each_range_inv
    (fun i => for_each (update_magnetic_cell dt dx i) (List.range' 1 (grid_size - 1 - 1)))
    (fun i t => WaveMagInv dt dx s i 1 t) (grid_size - 1 - 1) 1 s
    (fun c t h1 h2 hP => by
      have hc : Fdtd.interior grid_size c := ⟨h1, by omega⟩
      obtain ⟨t', ht', hinv'⟩ := for_each_range_inv (update_magnetic_cell dt dx c)
        (fun j u => WaveMagInv dt dx s c j u) (grid_size - 1 - 1) 1 t
        (fun d u g1 g2 hQ => wave_mag_cell_inv hdx hE hc ⟨g1, by omega⟩ hQ) hP
      refine ⟨t', ht', hinv'.1, hinv'.2.1, fun x y => ?_⟩
      rw [hinv'.2.2 x y]
      by_cases hint : interior2 x y
      · simp only [swept2_row_iff hint.2]
      · simp [hint]) hstart
  refine ⟨s', hs', hinv.1, hinv.2.1, fun x y => ?_⟩
  rw [hinv.2.2 x y]
  by_cases hint : interior2 x y
  · rw [if_pos ⟨hint, swept2_end hint⟩, if_pos hint]
  · rw [if_neg (fun hh => hint hh.1), if_neg hint]

theorem dx_ne_zero : dx ≠ 0 := by
  unfold dx
  norm_num

theorem zero_mat_shape : zero_mat.Shape grid_size grid_size := by
  refine ⟨by simp [zero_mat], ?_⟩
  intro r hr
  rw [List.eq_of_mem_replicate hr]
  simp

theorem zero_mat_val (x y : Nat) : zero_mat.val x y = 0 := by
  unfold Mat.val Mat.get? zero_mat
  by_cases hx : x < grid_size
  · by_cases hy : y < grid_size
    · simp [List.getElem?_replicate, hx, hy]
    · simp [List.getElem?_replicate, hx, hy]
  · simp [List.getElem?_replicate, hx]

theorem initial_fields_wellShaped : initial_fields.WellShaped :=
  ⟨zero_mat_shape, zero_mat_shape⟩

theorem seeded_fields_facts :
    seeded_fields.WellShaped ∧ (∀ x y, seeded_fields.E.val x y = 0) ∧
      ∀ x y, seeded_fields.B.val x y = if x = 1 ∧ y = 1 then 1 else 0 := by
  have h11 := mat_shape_get?_some zero_mat_shape (i := 1) (j := 1)
    (by unfold grid_size; omega) (by unfold grid_size; omega)
  obtain ⟨g, hg⟩ := mat_set?_of_get? h11 1
  have hB : seeded_fields.B = g := by
    unfold seeded_fields
    simp only [hg, Option.getD_some]
  refine ⟨⟨zero_mat_shape, ?_⟩, fun x y => zero_mat_val x y, fun x y => ?_⟩
  · rw [hB]
    exact mat_shape_set? zero_mat_shape hg
  · rw [hB]
    unfold Mat.val
    rw [mat_get?_set? hg x y]
    by_cases hxy : x = 1 ∧ y = 1
    · rw [if_pos hxy, if_pos hxy]
      rfl
    · rw [if_neg hxy, if_neg hxy]
      exact zero_mat_val x y

/-- From rest the electric update changes nothing. -/
theorem wave_update_electric_rest {dt dx : ℚ} (hdx : dx ≠ 0) :
    update_electric_field dt dx initial_fields = .ok initial_fields := by
  obtain ⟨s', hs', hB, hsh, hget⟩ :=
    wave_update_electric_field_spec dt hdx initial_fields_wellShaped
  have hE : s'.E = initial_fields.E := by
    apply mat_ext_of_shape hsh zero_mat_shape
    intro x y hx hy
    rw [hget x y]
    by_cases hint : interior2 x y
    · rw [if_pos hint, mat_shape_get?_some zero_mat_shape hx hy]
      unfold wave_elec_new initial_fields
      simp [zero_mat_val]
    · rw [if_neg hint]
      rfl
  rw [hs']
  cases s'
  simp only at hB hE
  rw [hB, hE]

/-- From rest the magnetic update changes nothing. -/
theorem wave_update_magnetic_rest {dt dx : ℚ} (hdx : dx ≠ 0) :
    update_magnetic_field dt dx initial_fields = .ok initial_fields := by
  obtain ⟨s', hs', hE, hsh, hget⟩ :=
    wave_update_magnetic_field_spec dt hdx initial_fields_wellShaped
  have hB : s'.B = initial_fields.B := by
    apply mat_ext_of_shape hsh zero_mat_shape
    intro x y hx hy
    rw [hget x y]
    by_cases hint : interior2 x y
    · rw [if_pos hint, mat_shape_get?_some zero_mat_shape hx hy]
      unfold wave_mag_new initial_fields
      simp [zero_mat_val]
    · rw [if_neg hint]
      rfl
  rw [hs']
  cases s'
  simp only at hB hE
  rw [hB, hE]

/-- C28 (as amended): on well-shaped fields and for a nonzero spacing,
`update_electric_field(dt, dx)` returns, leaves `B` alone, changes every interior
cell `E[i][j]` by the forward difference `dt * (B[i+1][j] - B[i][j]) / dx`, which
reads `B[i][j]` itself and not `B[i-1][j]`, and leaves every other cell of `E` as
it was. -/
theorem update_electric_field_forward_difference (dt dx : ℚ) (s : Fields)
    (hdx : dx ≠ 0) (hs : s.WellShaped) :
    ∃ s', update_electric_field dt dx s = .ok s' ∧ s'.B = s.B ∧
      (∀ i j, interior2 i j →
        s'.E.val i j - s.E.val i j = dt * (s.B.val (i + 1) j - s.B.val i j) / dx) ∧
      ∀ i j, ¬ interior2 i j → s'.E.get? i j = s.E.get? i j := by
  obtain ⟨s', hs', hB, -, hget⟩ := wave_update_electric_field_spec dt hdx hs
  refine ⟨s', hs', hB, fun i j hint => ?_, fun i j hint => ?_⟩
  · have h := hget i j
    rw [if_pos hint] at h
    have hv : s'.E.val i j = wave_elec_new dt dx s i j := by
      unfold Mat.val
      rw [h]
      rfl
    rw [hv]
    unfold wave_elec_new
    ring
  · rw [hget i j, if_neg hint]

/-- Witness for C28: the forward-difference update on the seeded fields, with the
program's own `dt` and `dx`. -/
theorem update_electric_field_forward_difference_witness :
    dx ≠ 0 ∧ seeded_fields.WellShaped ∧
      ∃ s', update_electric_field dt dx seeded_fields = .ok s' ∧ s'.B = seeded_fields.B ∧
        (∀ i j, interior2 i j →
          s'.E.val i j - seeded_fields.E.val i j =
            dt * (seeded_fields.B.val (i + 1) j - seeded_fields.B.val i j) / dx) ∧
        ∀ i j, ¬ interior2 i j → s'.E.get? i j = seeded_fields.E.get? i j :=
  ⟨dx_ne_zero, seeded_fields_facts.1,
    update_electric_field_forward_difference dt dx seeded_fields dx_ne_zero
      seeded_fields_facts.1⟩

/-- Counterexample to C28 as stated: with `B[1][1] = 1` and every other cell zero,
the update changes the interior cell `E[1][1]` by `-1/10`, while the centered
difference `(dt/dx) * (B[2][1] - B[0][1]) / 2` is `0`. -/
theorem update_electric_field_not_centered :
    seeded_fields.WellShaped ∧ interior2 1 1 ∧
      ∃ s', update_electric_field dt dx seeded_fields = .ok s' ∧
        s'.E.val 1 1 - seeded_fields.E.val 1 1 = -(1 / 10) ∧
        dt / dx * (seeded_fields.B.val (1 + 1) 1 - seeded_fields.B.val (1 - 1) 1) / 2 = 0 := by
  obtain ⟨hw, hE, hB⟩ := seeded_fields_facts
  obtain ⟨s', hs', -, -, hget⟩ := wave_update_electric_field_spec dt dx_ne_zero hw
  have hint : interior2 1 1 := by decide
  refine ⟨hw, hint, s', hs', ?_, ?_⟩
  · have h := hget 1 1
    rw [if_pos hint] at h
    have hv : s'.E.val 1 1 = wave_elec_new dt dx seeded_fields 1 1 := by
      unfold Mat.val
      rw [h]
      rfl
    rw [hv]
    unfold wave_elec_new
    rw [hE, hB, hB]
    unfold dt dx
    norm_num
  · rw [hB, hB]
    norm_num

theorem wave_val_of_get? {A : Mat} {x y : Nat} {v : ℚ} (h : A.get? x y = some v) :
    A.val x y = v := by
  unfold Mat.val
  rw [h]
  rfl

theorem electric_then_magnetic_of {s m r : Fields}
    (h1 : update_electric_field dt dx s = .ok m) (h2 : update_magnetic_field dt dx m = .ok r) :
    electric_then_magnetic s = .ok r := by
  unfold electric_then_magnetic
  rw [h1]
  exact h2

theorem magnetic_then_electric_of {s m r : Fields}
    (h1 : update_magnetic_field dt dx s = .ok m) (h2 : update_electric_field dt dx m = .ok r) :
    magnetic_then_electric s = .ok r := by
  unfold magnetic_then_electric
  rw [h1]
  exact h2

/-- The schedule electric-then-magnetic on well-shaped fields. -/
theorem electric_then_magnetic_spec {s : Fields} (hs : s.WellShaped) :
    ∃ a, electric_then_magnetic s = .ok a ∧ a.WellShaped ∧
      (∀ i j, interior2 i j → a.E.val i j = wave_elec_new dt dx s i j) ∧
      (∀ i j, interior2 i j →
        a.B.val i j = s.B.val i j + dt * (a.E.val i (j + 1) - a.E.val i j) / dx) ∧
      ∀ i j, ¬ interior2 i j →
        a.E.get? i j = s.E.get? i j ∧ a.B.get? i j = s.B.get? i j := by
  obtain ⟨m, hm, hmB, hmsh, hmget⟩ := wave_update_electric_field_spec dt dx_ne_zero hs
  have hmw : m.WellShaped := ⟨hmsh, by rw [hmB]; exact hs.2⟩
  obtain ⟨a, ha, haE, hash, haget⟩ := wave_update_magnetic_field_spec dt dx_ne_zero hmw
  refine ⟨a, ?_, ⟨by rw [haE]; exact hmsh, hash⟩, fun i j hint => ?_, fun i j hint => ?_,
    fun i j hint => ⟨?_, ?_⟩⟩
  · exact electric_then_magnetic_of hm ha
  · rw [haE]
    apply wave_val_of_get?
    rw [hmget i j, if_pos hint]
  · have h := haget i j
    rw [if_pos hint] at h
    rw [wave_val_of_get? h, haE]
    unfold wave_mag_new
    rw [hmB]
  · rw [haE, hmget i j, if_neg hint]
  · rw [haget i j, if_neg hint, hmB]

/-- The schedule magnetic-then-electric on well-shaped fields. -/
theorem magnetic_then_electric_spec {s : Fields} (hs : s.WellShaped) :
    ∃ b, magnetic_then_electric s = .ok b ∧ b.WellShaped ∧
      (∀ i j, interior2 i j → b.B.val i j = wave_mag_new dt dx s i j) ∧
      (∀ i j, interior2 i j →
        b.E.val i j = s.E.val i j + dt * (b.B.val (i + 1) j - b.B.val i j) / dx) ∧
      ∀ i j, ¬ interior2 i j →
        b.E.get? i j = s.E.get? i j ∧ b.B.get? i j = s.B.get? i j := by
  obtain ⟨m, hm, hmE, hmsh, hmget⟩ := wave_update_magnetic_field_spec dt dx_ne_zero hs
  have hmw : m.WellShaped := ⟨by rw [hmE]; exact hs.1, hmsh⟩
  obtain ⟨b, hb, hbB, hbsh, hbget⟩ := wave_update_electric_field_spec dt dx_ne_zero hmw
  refine ⟨b, ?_, ⟨hbsh, by rw [hbB]; exact hmsh⟩, fun i j hint => ?_, fun i j hint => ?_,
    fun i j hint => ⟨?_, ?_⟩⟩
  · exact magnetic_then_electric_of hm hb
  · rw [hbB]
    apply wave_val_of_get?
    rw [hmget i j, if_pos hint]
  · have h := hbget i j
    rw [if_pos hint] at h
    rw [wave_val_of_get? h, hbB]
    unfold wave_elec_new
    rw [hmE]
  · rw [hbget i j, if_neg hint, hmE]
  · rw [hbB, hmget i j, if_neg hint]

/-- C30 (as amended): the final fields depend on which thread takes
the mutex first. On well-shaped fields both schedules return; electric-first gives
`E' = E + dt*(B[i+1][j] - B[i][j])/dx` and then `B' = B + dt*(E'[i][j+1] - E'[i][j])/dx`
on interior cells, magnetic-first gives `B'' = B + dt*(E[i][j+1] - E[i][j])/dx` and
then `E'' = E + dt*(B''[i+1][j] - B''[i][j])/dx`; cells off the interior keep their
values. From the all-zero fields `main` starts with, both schedules leave both
fields all zero, so there the result does not depend on the schedule. -/
theorem update_order_agrees_only_from_rest :
    (electric_then_magnetic initial_fields = .ok initial_fields ∧
      magnetic_then_electric initial_fields = .ok initial_fields) ∧
    ∀ s : Fields, s.WellShaped →
      ∃ a b, electric_then_magnetic s = .ok a ∧ magnetic_then_electric s = .ok b ∧
        (∀ i j, interior2 i j →
          a.E.val i j = s.E.val i j + dt * (s.B.val (i + 1) j - s.B.val i j) / dx ∧
          a.B.val i j = s.B.val i j + dt * (a.E.val i (j + 1) - a.E.val i j) / dx ∧
          b.B.val i j = s.B.val i j + dt * (s.E.val i (j + 1) - s.E.val i j) / dx ∧
          b.E.val i j = s.E.val i j + dt * (b.B.val (i + 1) j - b.B.val i j) / dx) ∧
        ∀ i j, ¬ interior2 i j →
          a.E.get? i j = s.E.get? i j ∧ a.B.get? i j = s.B.get? i j ∧
          b.E.get? i j = s.E.get? i j ∧ b.B.get? i j = s.B.get? i j := by
  refine ⟨⟨?_, ?_⟩, fun s hs => ?_⟩
  · exact electric_then_magnetic_of (wave_update_electric_rest dx_ne_zero)
      (wave_update_magnetic_rest dx_ne_zero)
  · exact magnetic_then_electric_of (wave_update_magnetic_rest dx_ne_zero)
      (wave_update_electric_rest dx_ne_zero)
  · obtain ⟨a, ha, -, haE, haB, hao⟩ := electric_then_magnetic_spec hs
    obtain ⟨b, hb, -, hbB, hbE, hbo⟩ := magnetic_then_electric_spec hs
    exact ⟨a, b, ha, hb,
      fun i j hint => ⟨haE i j hint, haB i j hint, hbB i j hint, hbE i j hint⟩,
      fun i j hint => ⟨(hao i j hint).1, (hao i j hint).2, (hbo i j hint).1, (hbo i j hint).2⟩⟩

/-- Counterexample to C30 as stated: from the fields with `B[1][1] = 1` and zeros
elsewhere, electric-then-magnetic ends with `B[1][1] = 101/100` and
magnetic-then-electric ends with `B[1][1] = 1`, so the two orders give different
fields. -/
theorem update_order_changes_fields :
    seeded_fields.WellShaped ∧
      ∃ a b, electric_then_magnetic seeded_fields = .ok a ∧
        magnetic_then_electric seeded_fields = .ok b ∧
        a.B.val 1 1 = 101 / 100 ∧ b.B.val 1 1 = 1 ∧ a ≠ b := by
  obtain ⟨hw, hE, hB⟩ := seeded_fields_facts
  obtain ⟨a, ha, -, haE, haB, -⟩ := electric_then_magnetic_spec hw
  obtain ⟨b, hb, -, hbB, -, -⟩ := magnetic_then_electric_spec hw
  have h11 : interior2 1 1 := by decide
  have h12 : interior2 1 2 := by decide
  have va : a.B.val 1 1 = 101 / 100 := by
    rw [haB 1 1 h11, haE 1 1 h11, haE 1 2 h12]
    unfold wave_elec_new
    simp only [hE, hB]
    unfold dt dx
    norm_num
  have vb : b.B.val 1 1 = 1 := by
    rw [hbB 1 1 h11]
    unfold wave_mag_new
    simp only [hE, hB]
    unfold dt dx
    norm_num
  refine ⟨hw, a, b, ha, hb, va, vb, fun e => ?_⟩
  rw [e, vb] at va
  norm_num at va

end Wave2D

namespace Gauss

open Dense Fdtd

/-! ## Gaussian elimination -/

theorem for_each_append {ε σ ι : Type} (body : ι → σ → Except ε σ) :
    ∀ (l1 l2 : List ι) (s : σ),
      for_each body (l1 ++ l2) s =
        match for_each body l1 s with
        | .ok t => for_each body l2 t
        | .error e => .error e := by
  intro l1
  induction l1 with
  | nil => intro l2 s; rfl
  | cons a l ih =>
    intro l2 s
    simp only [List.cons_append, for_each]
    cases body a s with
    | ok t => exact ih l2 t
    | error e => rfl

theorem eliminate_entry_inv {f : ℚ} {s0 s : Sys} {n i k j : Nat}
    (h0 : s0.A.Shape n n) (hik : i < k) (hk : k < n) (hj1 : i ≤ j) (hj2 : j < n)
    (h : RowInv f s0 n i k j s) :
    ∃ s', eliminate_entry f i k j s = .ok s' ∧ RowInv f s0 n i k (j + 1) s' := by
  obtain ⟨hb, hsh, hget⟩ := h
  have hkj : s.A.get? k j = some (s0.A.val k j) := by
    rw [hget k j, if_neg (by omega)]
    exact mat_shape_get?_some h0 hk hj2
  have hij : s.A.get? i j = some (s0.A.val i j) := by
    rw [hget i j, if_neg (by omega)]
    exact mat_shape_get?_some h0 (by omega) hj2
  obtain ⟨g, hg⟩ := mat_set?_of_get? hkj (s0.A.val k j - f * s0.A.val i j)
  refine ⟨{ s with A := g }, ?_, hb, mat_shape_set? hsh hg, fun r c => ?_⟩
  · unfold eliminate_entry
    simp only [hkj, hij, hg]
  · show g.get? r c = _
    rw [mat_get?_set? hg r c]
    by_cases hrc : r = k ∧ c = j
    · obtain ⟨rfl, rfl⟩ := hrc
      rw [if_pos ⟨rfl, rfl⟩, if_pos ⟨rfl, hj1, by omega⟩]
    · rw [if_neg hrc, hget r c]
      have e : (r = k ∧ i ≤ c ∧ c < j + 1) ↔ (r = k ∧ i ≤ c ∧ c < j) := by omega
      simp only [e]

/-- One row operation of the forward elimination, on a well-shaped system whose
pivot is nonzero. -/
theorem eliminate_row_spec {s : Sys} {n i k : Nat} (hs : s.Shape n) (hik : i < k)
    (hk : k < n) (hp : s.A.val i i ≠ 0) :
    ∃ s', eliminate_row n i k s = .ok s' ∧ s'.Shape n ∧
      (∀ r c, s'.A.get? r c =
        if r = k ∧ i ≤ c ∧ c < n then
          some (s.A.val k c - s.A.val k i / s.A.val i i * s.A.val i c)
        else s.A.get? r c) ∧
      ∀ r, s'.b[r]? =
        if r = k then some (s.b.val k - s.A.val k i / s.A.val i i * s.b.val i)
        else s.b[r]? := by
  obtain ⟨hA, hb⟩ := hs
  have hki := mat_shape_get?_some hA hk (show i < n by omega)
  have hii := mat_shape_get?_some hA (show i < n by omega) (show i < n by omega)
  have hstart : RowInv (s.A.val k i / s.A.val i i) s n i k i s :=
    ⟨rfl, hA, fun r c => by rw [if_neg (by omega)]⟩
  obtain ⟨t, ht, htb, htsh, htget⟩ := for_each_range_inv
    (eliminate_entry (s.A.val k i / s.A.val i i) i k)
    (fun j u => RowInv (s.A.val k i / s.A.val i i) s n i k j u) (n - i) i s
    (fun c u h1 h2 hP => eliminate_entry_inv hA hik hk h1 (by omega) hP) hstart
  have hend : i + (n - i) = n := by omega
  rw [hend] at htget
  have hbk : t.b[k]? = some (s.b.val k) := by
    rw [htb]
    exact vec_get?_some (by omega)
  have hbi : t.b[i]? = some (s.b.val i) := by
    rw [htb]
    exact vec_get?_some (by omega)
  refine ⟨{ t with b := t.b.set k (s.b.val k - s.A.val k i / s.A.val i i * s.b.val i) },
    ?_, ⟨htsh, by simp [htb, hb]⟩, htget, fun r => ?_⟩
  · unfold eliminate_row
    simp only [hki, hii, if_neg hp, ht, hbk, hbi]
  · show (t.b.set k _)[r]? = _
    rw [vec_get?_set, htb]
    by_cases hr : r = k
    · rw [if_pos ⟨hr, by omega⟩, if_pos hr]
    · rw [if_neg (fun hh => hr hh.1), if_neg hr]

theorem eliminate_row_inv {s0 s : Sys} {n i k : Nat} (hik : i < k)
    (hk : k < n) (hp : s0.A.val i i ≠ 0) (h : ColInv s0 n i k s) :
    ∃ s', eliminate_row n i k s = .ok s' ∧ ColInv s0 n i (k + 1) s' := by
  obtain ⟨hsh, hget, hbget⟩ := h
  have hi : i < n := by omega
  have rowi : ∀ c, s.A.val i c = s0.A.val i c := fun c =>
    mat_val_congr (by rw [hget i c, if_neg (by omega)])
  have rowk : ∀ c, s.A.val k c = s0.A.val k c := fun c =>
    mat_val_congr (by rw [hget k c, if_neg (by omega)])
  have bi : s.b.val i = s0.b.val i := vec_val_congr (by rw [hbget i, if_neg (by omega)])
  have bk : s.b.val k = s0.b.val k := vec_val_congr (by rw [hbget k, if_neg (by omega)])
  obtain ⟨s', hs', hsh', hget', hbget'⟩ :=
    eliminate_row_spec hsh hik hk (by rw [rowi i]; exact hp)
  refine ⟨s', hs', hsh', fun r c => ?_, fun r => ?_⟩
  · rw [hget' r c]
    by_cases hr : r = k
    · subst hr
      by_cases hc : i ≤ c ∧ c < n
      · rw [if_pos ⟨rfl, hc⟩, if_pos ⟨⟨hik, by omega⟩, hc⟩, rowk c, rowk i, rowi i, rowi c]
      · rw [if_neg (fun hh => hc hh.2), if_neg (fun hh => hc hh.2), hget r c,
          if_neg (fun hh => hc hh.2)]
    · rw [if_neg (fun hh => hr hh.1), hget r c]
      have e : ((i < r ∧ r < k + 1) ∧ i ≤ c ∧ c < n) ↔ ((i < r ∧ r < k) ∧ i ≤ c ∧ c < n) := by
        omega
      simp only [e]
  · rw [hbget' r]
    by_cases hr : r = k
    · subst hr
      rw [if_pos rfl, if_pos ⟨hik, by omega⟩, bk, rowk i, rowi i, bi]
    · rw [if_neg hr, hbget r]
      have e : (i < r ∧ r < k + 1) ↔ (i < r ∧ r < k) := by omega
      simp only [e]

/-- One iteration of the forward-elimination loop over `i`, on a well-shaped system
whose pivot `A[i][i]` is nonzero: every row below row `i` has the multiple
`A[r][i] / A[i][i]` of row `i` subtracted, in the columns from `i` on and in `b`. -/
theorem eliminate_column_spec {s : Sys} {n i : Nat} (hs : s.Shape n) (hi : i < n)
    (hp : s.A.val i i ≠ 0) :
    ∃ s', eliminate_column n i s = .ok s' ∧ ColInv s n i n s' := by
  have hstart : ColInv s n i (i + 1) s :=
    ⟨hs, fun r c => by rw [if_neg (by omega)], fun r => by rw [if_neg (by omega)]⟩
  obtain ⟨s', hs', hinv⟩ := for_each_range_inv (eliminate_row n i)
    (fun k u => ColInv s n i k u) (n - (i + 1)) (i + 1) s
    (fun c u h1 h2 hP => eliminate_row_inv (by omega) (by omega) hp hP) hstart
  have hend : i + 1 + (n - (i + 1)) = n := by omega
  rw [hend] at hinv
  exact ⟨s', hs', hinv⟩

theorem colInv_val {s0 s : Sys} {n i : Nat} (h : ColInv s0 n i n s) (r c : Nat) :
    s.A.val r c =
      if (i < r ∧ r < n) ∧ i ≤ c ∧ c < n then
        s0.A.val r c - s0.A.val r i / s0.A.val i i * s0.A.val i c
      else s0.A.val r c := by
  by_cases hc : (i < r ∧ r < n) ∧ i ≤ c ∧ c < n
  · rw [if_pos hc]
    apply mat_val_of_get?
    rw [h.2.1 r c, if_pos hc]
  · rw [if_neg hc]
    apply mat_val_congr
    rw [h.2.1 r c, if_neg hc]

theorem colInv_b_val {s0 s : Sys} {n i : Nat} (h : ColInv s0 n i n s) (r : Nat) :
    s.b.val r =
      if i < r ∧ r < n then s0.b.val r - s0.A.val r i / s0.A.val i i * s0.b.val i
      else s0.b.val r := by
  by_cases hc : i < r ∧ r < n
  · rw [if_pos hc]
    unfold Vec.val
    rw [h.2.2 r, if_pos hc]
    rfl
  · rw [if_neg hc]
    apply vec_val_congr
    rw [h.2.2 r, if_neg hc]

theorem fwdInv_step {n : Nat} {A : Mat} {b : Vec} {i : Nat} {s s' : Sys} (hi : i < n)
    (hp : s.A.val i i ≠ 0) (h : FwdInv n A b i s) (hc : ColInv s n i n s') :
    FwdInv n A b (i + 1) s' := by
  obtain ⟨hsh, hzero, hdiag, hsol⟩ := h
  have hA := colInv_val hc
  have hb := colInv_b_val hc
  refine ⟨hc.1, fun r c hci hcr hr => ?_, fun r hr => ?_, fun x hx => hsol x ?_⟩
  · rw [hA r c]
    by_cases hci' : c < i
    · rw [if_neg (by omega)]
      exact hzero r c hci' hcr hr
    · have hce : c = i := by omega
      subst hce
      rw [if_pos ⟨⟨hcr, hr⟩, Nat.le_refl _, by omega⟩]
      field_simp
  · rw [hA r r, if_neg (by omega)]
    by_cases hri : r < i
    · exact hdiag r hri
    · have hre : r = i := by omega
      subst hre
      exact hp
  · intro r hr
    have hrowi : ∑ c in Finset.range n, s.A.val i c * x.val c = s.b.val i := by
      have h1 := hx i hi
      rw [hb i, if_neg (by omega)] at h1
      rw [← h1]
      apply Finset.sum_congr rfl
      intro c _
      rw [hA i c, if_neg (by omega)]
    by_cases hri : i < r
    · have h1 := hx r hr
      rw [hb r, if_pos ⟨hri, hr⟩] at h1
      have h2 : ∑ c in Finset.range n, s'.A.val r c * x.val c =
          ∑ c in Finset.range n, s.A.val r c * x.val c -
            s.A.val r i / s.A.val i i * ∑ c in Finset.range n, s.A.val i c * x.val c := by
        rw [Finset.mul_sum, ← Finset.sum_sub_distrib]
        apply Finset.sum_congr rfl
        intro c hcmem
        have hcn : c < n := Finset.mem_range.mp hcmem
        rw [hA r c]
        by_cases hci : i ≤ c
        · rw [if_pos ⟨⟨hri, hr⟩, hci, hcn⟩]
          ring
        · rw [if_neg (by omega), hzero i c (by omega) (by omega) hi]
          ring
      rw [h2, hrowi] at h1
      linarith
    · have h1 := hx r hr
      rw [hb r, if_neg (by omega)] at h1
      rw [← h1]
      apply Finset.sum_congr rfl
      intro c _
      rw [hA r c, if_neg (by omega)]

theorem forward_steps_succ (n i : Nat) (s : Sys) :
    forward_steps n (i + 1) s =
      match forward_steps n i s with
      | .ok t => eliminate_column n i t
      | .error e => .error e := by
  unfold forward_steps
  rw [List.range_succ, for_each_append]
  cases for_each (eliminate_column n) (List.range i) s with
  | error e => rfl
  | ok t =>
    simp only [for_each]
    cases eliminate_column n i t <;> rfl

/-- When every pivot the forward elimination comes to is nonzero, its first `i`
iterations return, and the invariant of the loop holds after them. -/
theorem forward_steps_spec {n : Nat} {A : Mat} {b : Vec} (hA : A.Shape n n)
    (hb : b.length = n) (hp : ∀ i, i < n → pivot A b i ≠ some 0) :
    ∀ i, i ≤ n → ∃ s, forward_steps n i { A := A, b := b } = .ok s ∧ FwdInv n A b i s := by
  intro i
  induction i with
  | zero =>
    intro _
    exact ⟨{ A := A, b := b }, rfl, ⟨hA, hb⟩, fun r c hc _ _ => absurd hc (Nat.not_lt_zero c),
      fun r hr => absurd hr (Nat.not_lt_zero r), fun x hx => hx⟩
  | succ i ih =>
    intro hi
    obtain ⟨s, hs, hinv⟩ := ih (by omega)
    have hpi : s.A.val i i ≠ 0 := by
      intro h0
      apply hp i (by omega)
      unfold pivot
      rw [hA.1, hs]
      show s.A.get? i i = some 0
      rw [mat_shape_get?_some hinv.1.1 (show i < n by omega) (show i < n by omega), h0]
    obtain ⟨s', hs', hc⟩ := eliminate_column_spec hinv.1 (show i < n by omega) hpi
    refine ⟨s', ?_, fwdInv_step (by omega) hpi hinv hc⟩
    rw [forward_steps_succ, hs]
    exact hs'

theorem for_each_range_rev_inv {ε σ : Type} (body : Nat → σ → Except ε σ)
    (P : Nat → σ → Prop) :
    ∀ (n : Nat) (s : σ),
      (∀ c t, c < n → P (c + 1) t → ∃ t', body c t = .ok t' ∧ P c t') →
      P n s → ∃ s', for_each body (List.range n).reverse s = .ok s' ∧ P 0 s' := by
  intro n
  induction n with
  | zero =>
    intro s _ h0
    exact ⟨s, rfl, h0⟩
  | succ n ih =>
    intro s hbody h0
    obtain ⟨t, ht, hPt⟩ := hbody n s (by omega) h0
    obtain ⟨s', hs', hP⟩ := ih t (fun c u hc hu => hbody c u (by omega) hu) hPt
    refine ⟨s', ?_, hP⟩
    rw [List.range_succ, List.reverse_append, List.reverse_singleton, List.singleton_append]
    simp only [for_each, ht]
    exact hs'

theorem back_entry_inv {s : Sys} {x0 x : Vec} {n i j : Nat} (hs : s.Shape n)
    (hij : i < j) (hj : j < n) (h : BackEntryInv s x0 n i j x) :
    ∃ x', back_entry s i j x = .ok x' ∧ BackEntryInv s x0 n i (j + 1) x' := by
  obtain ⟨hlen, hrest, hval⟩ := h
  have hxi : x[i]? = some (x.val i) := vec_get?_some (by omega)
  have hxj : x[j]? = some (x.val j) := vec_get?_some (by omega)
  have ha := mat_shape_get?_some hs.1 (show i < n by omega) hj
  refine ⟨x.set i (x.val i - s.A.val i j * x.val j), ?_, by simp [hlen], fun c hc => ?_, ?_⟩
  · unfold back_entry
    simp only [hxi, ha, hxj]
  · rw [vec_val_set (by omega), if_neg hc]
    exact hrest c hc
  · rw [vec_val_set (by omega), if_pos rfl, Finset.sum_range_succ, if_pos hij, hval,
      hrest j (by omega)]
    ring

/-- One iteration of the back-substitution loop, on a well-shaped system whose
diagonal entry `A[i][i]` is nonzero. -/
theorem back_row_spec {s : Sys} {x0 : Vec} {n i : Nat} (hs : s.Shape n) (hi : i < n)
    (hx : x0.length = n) (hp : s.A.val i i ≠ 0) :
    ∃ x', back_row n s i x0 = .ok x' ∧ x'.length = n ∧ (∀ c, c ≠ i → x'.val c = x0.val c) ∧
      x'.val i = (s.b.val i -
        ∑ c in Finset.range n, if i < c then s.A.val i c * x0.val c else 0) / s.A.val i i := by
  have hbi : s.b[i]? = some (s.b.val i) := vec_get?_some (by rw [hs.2]; exact hi)
  have hstart : BackEntryInv s x0 n i (i + 1) (x0.set i (s.b.val i)) := by
    refine ⟨by simp [hx], fun c hc => ?_, ?_⟩
    · rw [vec_val_set (by omega), if_neg hc]
    · rw [vec_val_set (by omega), if_pos rfl, Finset.sum_eq_zero, sub_zero]
      intro c hc
      rw [if_neg (by have := Finset.mem_range.mp hc; omega)]
  obtain ⟨t, ht, htlen, htrest, htval⟩ := for_each_range_inv (back_entry s i)
    (fun j u => BackEntryInv s x0 n i j u) (n - (i + 1)) (i + 1) (x0.set i (s.b.val i))
    (fun c u h1 h2 hP => back_entry_inv hs (by omega) (by omega) hP) hstart
  have hend : i + 1 + (n - (i + 1)) = n := by omega
  rw [hend] at htval
  have hti : t[i]? = some (t.val i) := vec_get?_some (by omega)
  have hii := mat_shape_get?_some hs.1 hi hi
  refine ⟨t.set i (t.val i / s.A.val i i), ?_, by simp [htlen], fun c hc => ?_, ?_⟩
  · unfold back_row
    simp only [hbi, show i < x0.length by omega, if_true, ht, hti, hii, if_neg hp]
  · rw [vec_val_set (by omega), if_neg hc]
    exact htrest c hc
  · rw [vec_val_set (by omega), if_pos rfl, htval]

theorem backInv_step {s : Sys} {x0 x : Vec} {n i : Nat} (hp : s.A.val i i ≠ 0)
    (h : BackInv n s (i + 1) x0) (hlen : x.length = n)
    (hrest : ∀ c, c ≠ i → x.val c = x0.val c)
    (hval : x.val i = (s.b.val i -
      ∑ c in Finset.range n, if i < c then s.A.val i c * x0.val c else 0) / s.A.val i i) :
    BackInv n s i x := by
  refine ⟨hlen, fun r hir hr => ?_⟩
  have hsum : ∑ c in Finset.range n, (if r < c then s.A.val r c * x.val c else 0) =
      ∑ c in Finset.range n, if r < c then s.A.val r c * x0.val c else 0 := by
    apply Finset.sum_congr rfl
    intro c _
    by_cases hrc : r < c
    · rw [if_pos hrc, if_pos hrc, hrest c (by omega)]
    · rw [if_neg hrc, if_neg hrc]
  rw [hsum]
  by_cases hri : r = i
  · subst hri
    rw [hval]
    field_simp
  · rw [hrest r hri]
    exact h.2 r (by omega) hr

/-- The back substitution on a well-shaped system with a nonzero diagonal returns a
vector that satisfies, for every row, the equation of that row restricted to the
diagonal and the entries right of it. -/
theorem back_substitution_spec {s : Sys} {n : Nat} (hs : s.Shape n)
    (hdiag : ∀ r, r < n → s.A.val r r ≠ 0) :
    ∃ x, back_substitution n s = .ok x ∧ BackInv n s 0 x := by
  unfold back_substitution
  apply for_each_range_rev_inv (back_row n s) (fun i x => BackInv n s i x) n
  · intro c t hc hP
    obtain ⟨x', hx', hlen, hrest, hval⟩ := back_row_spec hs hc hP.1 (hdiag c hc)
    exact ⟨x', hx', backInv_step (hdiag c hc) hP hlen hrest hval⟩
  · exact ⟨by simp, fun r h1 h2 => absurd h2 (by omega)⟩

theorem solves_of_backInv {s : Sys} {x : Vec} {n : Nat}
    (hzero : ∀ r c, c < n → c < r → r < n → s.A.val r c = 0) (h : BackInv n s 0 x) :
    Solves n s.A s.b x := by
  intro r hr
  rw [← h.2 r (Nat.zero_le r) hr]
  have hsplit : ∀ c ∈ Finset.range n, s.A.val r c * x.val c =
      (if c = r then s.A.val r r * x.val r else 0) +
        (if r < c then s.A.val r c * x.val c else 0) := by
    intro c hc
    have hcn : c < n := Finset.mem_range.mp hc
    by_cases h1 : c = r
    · subst h1
      rw [if_pos rfl, if_neg (Nat.lt_irrefl _), add_zero]
    · by_cases h2 : r < c
      · rw [if_neg h1, if_pos h2, zero_add]
      · rw [if_neg h1, if_neg h2, hzero r c hcn (by omega) hr]
        ring
  rw [Finset.sum_congr rfl hsplit, Finset.sum_add_distrib, Finset.sum_ite_eq',
    if_pos (Finset.mem_range.mpr hr)]

/-- The final diagonal entry is the one divisor the forward elimination never uses:
on the singular system `x + y = 1`, `x + y = 2` the forward elimination returns and
the back substitution then divides by `A[1][1] = 0`. -/
theorem back_substitution_divides_by_last_pivot :
    forward_elimination 2 { A := [[1, 1], [1, 1]], b := [1, 2] } =
        .ok { A := [[1, 1], [0, 0]], b := [1, 1] } ∧
      pivot [[1, 1], [1, 1]] [1, 2] 1 = some 0 ∧
      gaussian_elimination [[1, 1], [1, 1]] [1, 2] = .error .zero_divisor := by
  decide!

/-- C21: for every `n × n` system `(A, b)` in which the pivot `A[i][i]` that the
forward-elimination loop comes to is nonzero at each of its iterations `i < n`,
`gaussian_elimination(A, b)` returns a vector `x` of length `n` with `A · x = b`
exactly, for the caller's `A` and `b`. -/
theorem gaussian_elimination_solves_system (n : Nat) (A : Mat) (b : Vec)
    (hA : A.Shape n n) (hb : b.length = n) (hp : ∀ i, i < n → pivot A b i ≠ some 0) :
    ∃ x, gaussian_elimination A b = .ok x ∧ x.length = n ∧
      ∀ r, r < n → ∑ c in Finset.range n, A.val r c * x.val c = b.val r := by
  obtain ⟨s, hs, hsh, hzero, hdiag, hsol⟩ := forward_steps_spec hA hb hp n (Nat.le_refl n)
  obtain ⟨x, hx, hinv⟩ := back_substitution_spec hsh hdiag
  refine ⟨x, ?_, hinv.1, hsol x (solves_of_backInv (fun r c _ hcr hr => hzero r c (by omega) hcr hr) hinv)⟩
  unfold gaussian_elimination forward_elimination
  rw [hA.1, hs]
  exact hx

/-- Witness for C21: the system of `main`, whose pivots are `2`, `7/2` and `12/7`. -/
theorem gaussian_elimination_solves_system_witness :
    example_A.Shape 3 3 ∧ example_b.length = 3 ∧
      (∀ i, i < 3 → pivot example_A example_b i ≠ some 0) ∧
      ∃ x, gaussian_elimination example_A example_b = .ok x ∧ x.length = 3 ∧
        ∀ r, r < 3 →
          ∑ c in Finset.range 3, example_A.val r c * x.val c = example_b.val r :=
  ⟨by decide, by decide, by decide!,
    gaussian_elimination_solves_system 3 example_A example_b (by decide) (by decide)
      (by decide!)⟩

/-- C22 (as amended): for the documented example system, the input of `main`,
`gaussian_elimination` returns `x1 = 9/4`, `x2 = 11/4`, `x3 = 5/4`, the reduced
system being `[2 -1 1 | 3]`, `[0 7/2 3/2 | 23/2]`, `[0 0 12/7 | 15/7]`; this vector
satisfies the three equations. -/
theorem gaussian_elimination_example_solution :
    forward_elimination 3 { A := example_A, b := example_b } =
        .ok { A := [[2, -1, 1], [0, 7 / 2, 3 / 2], [0, 0, 12 / 7]], b := [3, 23 / 2, 15 / 7] } ∧
      gaussian_elimination example_A example_b = .ok [9 / 4, 11 / 4, 5 / 4] ∧
      Solves 3 example_A example_b [9 / 4, 11 / 4, 5 / 4] := by
  refine ⟨by decide!, by decide!, fun r hr => ?_⟩
  interval_cases r <;>
    simp [Finset.sum_range_succ, example_A, example_b, Mat.val, Mat.get?, Vec.val] <;>
    norm_num

/-- Counterexample to C22 as stated: on the documented example `gaussian_elimination`
does not return `(1, 3, 1)`, and `(1, 3, 1)` does not satisfy the first equation
`2 x1 - x2 + x3 = 3`. -/
theorem gaussian_elimination_example_not_one_three_one :
    gaussian_elimination example_A example_b ≠ .ok [1, 3, 1] ∧
      ¬ Solves 3 example_A example_b [1, 3, 1] := by
  refine ⟨by decide!, fun h => ?_⟩
  have h0 := h 0 (by decide)
  simp [Finset.sum_range_succ, example_A, example_b, Mat.val, Mat.get?, Vec.val] at h0
  norm_num at h0

/-- C29, evaluated at the failing input: `[[0, 1], [1, 0]]` is invertible (the
system has the solution `(q, p)` for every right-hand side `(p, q)`), its first
pivot `A[0][0]` is `0`, no rows are exchanged, and `gaussian_elimination` divides
`A[1][0]` by that zero pivot in the first elimination step. -/
theorem gaussian_elimination_divides_by_zero_pivot :
    ∀ p q : ℚ, Solves 2 swap_A [p, q] [q, p] ∧ pivot swap_A [p, q] 0 = some 0 ∧
      gaussian_elimination swap_A [p, q] = .error .zero_divisor := by
  intro p q
  refine ⟨fun r hr => ?_, rfl, rfl⟩
  interval_cases r <;>
    simp [Finset.sum_range_succ, swap_A, Mat.val, Mat.get?, Vec.val]

end Gauss
